import Mathlib

/-!
# WireLang core: a shallow embedding

This file embeds the graph-construction and transformation core of the
WireLang circuit-topology library (TypeScript) into Lean 4, and proves the
specification claims about it.

Modelling conventions:

* JavaScript object identity is modelled by an arena: `CState` holds flat
  tables of pin, node and component records; a "reference" is an index into
  the arena.  Mutation of an object is replacement of its arena slot.
* JavaScript runtime values occurring in parameter bags are modelled by
  `JVal` (numbers as rationals, strings, booleans, `null`, `undefined`).
  Objects are insertion-ordered association lists (`Bag`), matching JS
  property-creation order.
* Thrown exceptions (`throw new Error(...)` and `TypeError` from
  dereferencing `undefined`) are modelled by the `Except String` layer of
  the monad `M`.
* The global counters `pinCounter`, `nodeCounter`, `componentCounter` of the
  source are the arena lengths; the per-kind label counters are an explicit
  association list.  The decimal rendering `${n}` of counters is `decRepr`.
-/

namespace WireLang

/-- JS runtime values as they occur in parameter bags.  Numbers are modelled
as rationals (the source never relies on float rounding). -/
inductive JVal where
  | num (q : ℚ)
  | str (s : String)
  | jbool (b : Bool)
  | null
  | undef
  deriving DecidableEq, Repr, Inhabited

/-- A JS object: insertion-ordered association list of fields. -/
abbrev Bag := List (String × JVal)

/-- Property access `o[k]`: `undefined` when the key is absent. -/
def bagGet (b : Bag) (k : String) : JVal :=
  match b.find? (fun e => e.1 == k) with
  | some e => e.2
  | none => JVal.undef

/-- `v !== undefined` -/
def isDef (v : JVal) : Bool := v != JVal.undef

/-- `v ?? w` is `w` exactly when `v` is nullish. -/
def isNullish (v : JVal) : Bool := v == JVal.undef || v == JVal.null

/-- Nullish coalescing `v ?? w`. -/
def jcoal (v w : JVal) : JVal := if isNullish v then w else v

/-- JS truthiness of a string (`""` is falsy). -/
def strTruthy (s : String) : Bool := s != ""

/-- Truthiness of an optional string field (absent or empty is falsy). -/
def optTruthy : Option String → Bool
  | some s => strTruthy s
  | none => false

/-- The decimal digit characters used by number rendering. -/
def digitChr (n : Nat) : Char := Char.ofNat (48 + n)

/-- Big-endian decimal digits of `n`, with explicit fuel so that the
definition is structurally recursive (the fuel `n + 1` always suffices). -/
def decDigitsF : Nat → Nat → List Char
  | 0, _ => []
  | fuel + 1, n => if n = 0 then [] else decDigitsF fuel (n / 10) ++ [digitChr (n % 10)]

/-- Decimal rendering of a natural number, as produced by a JS template
literal `${n}`. -/
def decRepr (n : Nat) : String :=
  if n = 0 then "0" else String.mk (decDigitsF (n + 1) n)

/-- Pin direction enum (`PinDirection`). -/
inductive PinDir where
  | input
  | output
  | bidirectional
  deriving DecidableEq, Repr, Inhabited

/-- A `Pin` object: id, name and direction are set at construction; the
node binding (`_node`) and owner back-reference mutate afterwards.
`pnode`/`powner` are arena references. -/
structure PinRec where
  pid : String
  pname : String
  pdir : Option PinDir
  pnode : Option Nat
  powner : Option Nat
  deriving DecidableEq, Repr, Inhabited

/-- A `Node` object: id and optional name, both fixed at construction
(the id mutates only through `applyNodeIdentity`). -/
structure NodeRec where
  nid : String
  nname : Option String
  deriving DecidableEq, Repr, Inhabited

/-- A `Component` object.  `cparams` is the base parameter bag; `cown` are
the subclass's own fields in property-creation order (exactly the fields
`extractExtras` reflects over, the base keys being stored separately). -/
structure CompRec where
  cid : String
  ctype : String
  clabel : String
  cparams : Bag
  cpins : List Nat
  cown : Bag
  deriving DecidableEq, Repr, Inhabited

/-- The process heap: arenas for the three object kinds plus the per-kind
label counters (`typeCounters`). -/
structure CState where
  pins : List PinRec
  nodes : List NodeRec
  comps : List CompRec
  typeCounters : List (String × Nat)
  deriving DecidableEq, Repr, Inhabited

/-- The empty heap of a fresh process. -/
def CState.empty : CState := ⟨[], [], [], []⟩

/-- The computation monad: state plus JS exceptions. -/
def M (α : Type) : Type := CState → Except String (α × CState)

instance : Monad M where
  pure a := fun s => Except.ok (a, s)
  bind x f := fun s =>
    match x s with
    | Except.ok (a, s') => f a s'
    | Except.error e => Except.error e

/-- `throw new Error(msg)` / a JS `TypeError`. -/
def mthrow {α : Type} (msg : String) : M α := fun _ => Except.error msg

def getS : M CState := fun s => Except.ok (s, s)

def setS (s : CState) : M Unit := fun _ => Except.ok ((), s)

def modifyS (f : CState → CState) : M Unit := fun s => Except.ok ((), f s)

theorem bind_def {α β : Type} (x : M α) (f : α → M β) (s : CState) :
    (x >>= f) s = match x s with
      | Except.ok (a, s') => f a s'
      | Except.error e => Except.error e := rfl

theorem pure_def {α : Type} (a : α) (s : CState) :
    (pure a : M α) s = Except.ok (a, s) := rfl

/-- `new Node(name)`: allocate a node with id `node_${++nodeCounter}`,
returning its arena reference. -/
def newNode (name : Option String) : M Nat := fun s =>
  Except.ok (s.nodes.length,
    { s with nodes := s.nodes ++ [⟨"node_" ++ decRepr (s.nodes.length + 1), name⟩] })

/-- `new Pin(name, direction)` with an owner reference (set by the
`Component` constructor via `setComponent`; `none` for free-floating pins). -/
def newPin (name : String) (dir : Option PinDir) (owner : Option Nat) : M Nat := fun s =>
  Except.ok (s.pins.length,
    { s with pins := s.pins ++
        [⟨"pin_" ++ decRepr (s.pins.length + 1), name, dir, none, owner⟩] })

/-- `pin.connectTo(node)`: unconditionally overwrite the binding. -/
def connectTo (p n : Nat) : M Unit := fun s =>
  match s.pins.get? p with
  | some pr => Except.ok ((), { s with pins := s.pins.set p { pr with pnode := some n } })
  | none => Except.error "invalid pin reference"

/-- `pin.disconnect()`. -/
def disconnect (p : Nat) : M Unit := fun s =>
  match s.pins.get? p with
  | some pr => Except.ok ((), { s with pins := s.pins.set p { pr with pnode := none } })
  | none => Except.error "invalid pin reference"

/-- Read a pin record. -/
def pinRec (s : CState) (p : Nat) : Option PinRec := s.pins.get? p

/-- `pin.isConnected()` -/
def pinConnected (s : CState) (p : Nat) : Bool :=
  match s.pins.get? p with
  | some pr => pr.pnode.isSome
  | none => false

/-- `pin.isConnectedTo(node)` -/
def pinConnectedTo (s : CState) (p n : Nat) : Bool :=
  match s.pins.get? p with
  | some pr => pr.pnode == some n
  | none => false

/-- `node.isGround()`: name equals the reserved literal `"GND"` or `"0"`. -/
def nodeIsGround (s : CState) (n : Nat) : Bool :=
  match s.nodes.get? n with
  | some nr => nr.nname == some "GND" || nr.nname == some "0"
  | none => false

/-- Pin names and directions a component variant creates (`createPins`). -/
structure PinSpec where
  psname : String
  psdir : Option PinDir
  deriving DecidableEq, Repr, Inhabited

/-- The data a concrete component class fixes: variant tag, base parameter
bag, subclass own fields, pin specs and the label-counter key
(`getTypePrefix`, or the explicit label for `PowerRail`). -/
structure CompTemplate where
  ttype : String
  tparams : Bag
  town : Bag
  tpins : List PinSpec
  deriving DecidableEq, Repr, Inhabited

/-- The shared `Component` constructor: mint `${type}_${++componentCounter}`,
auto-label from the per-kind counter (or take the explicit label), create
the pins and set their owner back-references. -/
def mkComponent (t : CompTemplate) (labelPref : String) (label : Option String) :
    M Nat := fun s =>
  let idx := s.comps.length
  let cid := t.ttype ++ "_" ++ decRepr (idx + 1)
  let (lbl, counters) : String × List (String × Nat) :=
    match label with
    | some l => (l, s.typeCounters)
    | none =>
      let k := (match s.typeCounters.find? (fun (e : String × Nat) => e.1 == labelPref) with
        | some e => e.2
        | none => 0) + 1
      (labelPref ++ decRepr k,
        if (s.typeCounters.find? (fun (e : String × Nat) => e.1 == labelPref)).isSome then
          s.typeCounters.map (fun (e : String × Nat) =>
            if e.1 == labelPref then (e.1, k) else e)
        else s.typeCounters ++ [(labelPref, k)])
  let firstPin := s.pins.length
  let newPins := t.tpins.enum.map (fun (e : Nat × PinSpec) =>
    (⟨"pin_" ++ decRepr (firstPin + e.1 + 1), e.2.psname, e.2.psdir, none,
      some idx⟩ : PinRec))
  Except.ok (idx,
    { s with
      pins := s.pins ++ newPins
      comps := s.comps ++
        [⟨cid, t.ttype, lbl, t.tparams, (List.range t.tpins.length).map (· + firstPin),
          t.town⟩]
      typeCounters := counters })

/-- Lift a pure `Except` computation into `M`. -/
def liftE {α : Type} (x : Except String α) : M α := fun s =>
  match x with
  | Except.ok a => Except.ok (a, s)
  | Except.error e => Except.error e

/-- JS truthiness of a `JVal`. -/
def jTruthy (v : JVal) : Bool :=
  match v with
  | JVal.num q => q != 0
  | JVal.str s => s != ""
  | JVal.jbool b => b
  | JVal.null => false
  | JVal.undef => false

/-! ## Component classes

Each concrete component class is embedded as its constructor: a
`CompTemplate` computed from the (runtime) constructor arguments, passed to
the shared `mkComponent`.  Arguments are `JVal`/`Bag` because the
regenerated source may pass arbitrary runtime values; the typed DSL factory
functions are thin wrappers. -/

/-- `new Resistor(resistance)` -/
def resistorCtor (v : JVal) : M Nat :=
  mkComponent ⟨"resistor", [("value", v), ("unit", JVal.str "Ω")], [],
    [⟨"1", none⟩, ⟨"2", none⟩]⟩ "R" none

/-- Factory `R(resistance)` -/
def R (v : ℚ) : M Nat := resistorCtor (JVal.num v)

/-- `new Capacitor(capacitance)` -/
def capacitorCtor (v : JVal) : M Nat :=
  mkComponent ⟨"capacitor", [("value", v), ("unit", JVal.str "F")], [],
    [⟨"1", none⟩, ⟨"2", none⟩]⟩ "C" none

/-- Factory `C(capacitance)` -/
def Cap (v : ℚ) : M Nat := capacitorCtor (JVal.num v)

/-- `new Inductor(inductance)` -/
def inductorCtor (v : JVal) : M Nat :=
  mkComponent ⟨"inductor", [("value", v), ("unit", JVal.str "H")], [],
    [⟨"1", none⟩, ⟨"2", none⟩]⟩ "L" none

/-- Factory `L(inductance)` -/
def Ind (v : ℚ) : M Nat := inductorCtor (JVal.num v)

/-- `new Diode(params)`: `value = params.forwardVoltage ?? 0.7`; own fields
`forwardVoltage`, `maxCurrent`, `partNumber` in assignment order. -/
def diodeCtor (params : Bag) : M Nat :=
  let fv := jcoal (bagGet params "forwardVoltage") (JVal.num (Rat.mk' 7 10))
  mkComponent ⟨"diode", [("value", fv), ("unit", JVal.str "V")],
    [("forwardVoltage", fv), ("maxCurrent", bagGet params "maxCurrent"),
      ("partNumber", bagGet params "partNumber")],
    [⟨"anode", none⟩, ⟨"cathode", none⟩]⟩ "D" none

/-- Factory `D("partNumber")` (string overload). -/
def Dstr (pn : String) : M Nat := diodeCtor [("partNumber", JVal.str pn)]

/-- Factory `D(params)` (object overload; `D()` is `Dobj []`). -/
def Dobj (params : Bag) : M Nat := diodeCtor params

/-- Typical forward voltages by LED color (`LED_FORWARD_VOLTAGES`). -/
def ledVfTable (c : String) : Option ℚ :=
  match c with
  | "red" => some (Rat.mk' 9 5)
  | "orange" => some 2
  | "yellow" => some (Rat.mk' 21 10)
  | "green" => some (Rat.mk' 11 5)
  | "blue" => some (Rat.mk' 16 5)
  | "white" => some (Rat.mk' 16 5)
  | "purple" => some (Rat.mk' 16 5)
  | "cyan" => some (Rat.mk' 16 5)
  | "pink" => some 3
  | "amber" => some 2
  | "infrared" => some (Rat.mk' 6 5)
  | "ultraviolet" => some (Rat.mk' 7 2)
  | _ => none

/-- `new LEDComponent(params)` on an already-normalized parameter bag. -/
def ledCtor (params : Bag) : M Nat :=
  let color := jcoal (bagGet params "color") (JVal.str "red")
  let tableVf : JVal :=
    match color with
    | JVal.str c => match ledVfTable c with
      | some q => JVal.num q
      | none => JVal.num 2
    | _ => JVal.num 2
  let fv := jcoal (bagGet params "forwardVoltage") tableVf
  let mc := jcoal (bagGet params "maxCurrent") (JVal.num (Rat.mk' 1 50))
  mkComponent ⟨"led", [("value", fv), ("unit", JVal.str "V"), ("color", color)],
    [("color", color), ("forwardVoltage", fv), ("maxCurrent", mc)],
    [⟨"anode", none⟩, ⟨"cathode", none⟩]⟩ "LED" none

/-- Factory `LED(color)` (string overload; `LED()` defaults to red). -/
def LEDstr (c : String) : M Nat := ledCtor [("color", JVal.str c)]

/-- `new VoltageSource(params)` on a normalized parameter bag. -/
def vsCtor (params : Bag) : M Nat :=
  let voltage := bagGet params "voltage"
  let st := jcoal (bagGet params "sourceType") (JVal.str "dc")
  mkComponent ⟨"voltage_source",
    [("value", voltage), ("unit", JVal.str "V"), ("sourceType", st)],
    [("voltage", voltage), ("sourceType", st), ("frequency", bagGet params "frequency")],
    [⟨"positive", some PinDir.output⟩, ⟨"negative", some PinDir.input⟩]⟩ "V" none

/-- Factory `DC(voltage)` -/
def DC (v : ℚ) : M Nat :=
  vsCtor [("voltage", JVal.num v), ("sourceType", JVal.str "dc")]

/-- Factory `AC(voltage, frequency)` -/
def AC (v f : ℚ) : M Nat :=
  vsCtor [("voltage", JVal.num v), ("sourceType", JVal.str "ac"),
    ("frequency", JVal.num f)]

/-- `new CurrentSource(params)` on a normalized parameter bag. -/
def csCtor (params : Bag) : M Nat :=
  let current := bagGet params "current"
  let st := jcoal (bagGet params "sourceType") (JVal.str "dc")
  mkComponent ⟨"current_source",
    [("value", current), ("unit", JVal.str "A"), ("sourceType", st)],
    [("current", current), ("sourceType", st), ("frequency", bagGet params "frequency")],
    [⟨"positive", some PinDir.output⟩, ⟨"negative", some PinDir.input⟩]⟩ "I" none

/-- Factory `IDC(current)` -/
def IDC (v : ℚ) : M Nat :=
  csCtor [("current", JVal.num v), ("sourceType", JVal.str "dc")]

/-- Factory `IAC(current, frequency)` -/
def IAC (v f : ℚ) : M Nat :=
  csCtor [("current", JVal.num v), ("sourceType", JVal.str "ac"),
    ("frequency", JVal.num f)]

/-- `new Ground()` / factory `GND()`.  The class field `_groundNode`
(initialized to `null`) is an own field and therefore ends up in the
reflected extras bag. -/
def GND : M Nat :=
  mkComponent ⟨"ground", [("value", JVal.num 0), ("unit", JVal.str "V")],
    [("_groundNode", JVal.null)], [⟨"gnd", none⟩]⟩ "GND" none

/-- `new PowerRail(voltage, name)`; the explicit label is the rail name. -/
def powerRailCtor (voltage : JVal) (name : String) : M Nat :=
  mkComponent ⟨"power_rail",
    [("value", voltage), ("unit", JVal.str "V"), ("railName", JVal.str name)],
    [("voltage", voltage), ("railName", JVal.str name)], [⟨"out", none⟩]⟩
    name (some name)

/-! ### Series terminals (`p1`/`p2`)

The base `Component` accessors return `pins[0]`/`pins[1]`; `VoltageSource`
and `CurrentSource` override them to `negative`/`positive` (`pins[1]` /
`pins[0]`); `PowerRail` overrides both to its single pin.  `Ground` does
NOT override them, so its `p2` is `pins[1]` — which does not exist. -/

def compP1 (c : CompRec) : Option Nat :=
  match c.ctype with
  | "voltage_source" => c.cpins.get? 1
  | "current_source" => c.cpins.get? 1
  | "power_rail" => c.cpins.get? 0
  | _ => c.cpins.get? 0

def compP2 (c : CompRec) : Option Nat :=
  match c.ctype with
  | "voltage_source" => c.cpins.get? 0
  | "current_source" => c.cpins.get? 0
  | "power_rail" => c.cpins.get? 0
  | _ => c.cpins.get? 1

/-! ## DSL helpers (`dsl.ts`) -/

/-- `ConnectionResult`.  The boundary pins are optional because `p2` of a
single-pin ground is `undefined`, which propagates into results. -/
structure ConnResult where
  rcomps : List Nat
  rnodes : List Nat
  rfirst : Option Nat
  rlast : Option Nat
  deriving DecidableEq, Repr, Inhabited

/-- A `Connectable`: component, raw pin, or nested result. -/
inductive Connectable where
  | comp (c : Nat)
  | pin (p : Nat)
  | res (r : ConnResult)
  deriving DecidableEq, Repr, Inhabited

structure Terminals where
  tfirst : Option Nat
  tlast : Option Nat
  tcomps : List Nat
  tnodes : List Nat
  deriving DecidableEq, Repr, Inhabited

/-- `getTerminals(item)` -/
def getTerminals (s : CState) : Connectable → Except String Terminals
  | Connectable.pin p => Except.ok ⟨some p, some p, [], []⟩
  | Connectable.comp c =>
    match s.comps.get? c with
    | some cr => Except.ok ⟨compP1 cr, compP2 cr, [c], []⟩
    | none => Except.error "invalid component reference"
  | Connectable.res r => Except.ok ⟨r.rfirst, r.rlast, r.rcomps, r.rnodes⟩

/-- The body of the `Series` loop: one recursive step per item, carrying
`firstPin`, `lastPin` and the accumulated component/node lists. -/
def seriesGo : List Connectable → Bool → Option Nat → Option Nat → List Nat → List Nat →
    M (List Nat × List Nat × Option Nat × Option Nat)
  | [], _, firstP, lastP, comps, nodes => pure (comps, nodes, firstP, lastP)
  | item :: rest, isFirst, firstP, lastP, comps, nodes => do
    let s ← getS
    let t ← liftE (getTerminals s item)
    let comps := comps ++ t.tcomps
    let nodes := nodes ++ t.tnodes
    let firstP := if isFirst then t.tfirst else firstP
    let nodes ←
      match isFirst, lastP with
      | false, some lp => do
        let n ← newNode none
        connectTo lp n
        match t.tfirst with
        | some fp => connectTo fp n
        | none => mthrow "TypeError: terminals.first is undefined"
        pure (nodes ++ [n])
      | _, _ => pure nodes
    seriesGo rest false firstP t.tlast comps nodes

/-- `Series(...items)` -/
def Series (items : List Connectable) : M ConnResult :=
  if items.length = 0 then mthrow "Series requires at least one component"
  else do
    let (comps, nodes, firstP, lastP) ← seriesGo items true none none [] []
    pure ⟨comps, nodes, firstP, lastP⟩

/-- The body of the `Parallel` loop. -/
def parallelGo : List Connectable → Nat → Nat → List Nat → List Nat →
    M (List Nat × List Nat)
  | [], _, _, comps, nodes => pure (comps, nodes)
  | item :: rest, startN, endN, comps, nodes => do
    let s ← getS
    let t ← liftE (getTerminals s item)
    let comps := comps ++ t.tcomps
    let nodes := nodes ++ t.tnodes
    match t.tfirst with
    | some fp => connectTo fp startN
    | none => mthrow "TypeError: terminals.first is undefined"
    match t.tlast with
    | some lp => connectTo lp endN
    | none => mthrow "TypeError: terminals.last is undefined"
    parallelGo rest startN endN comps nodes

/-- `Parallel(...items)` -/
def Parallel (items : List Connectable) : M ConnResult :=
  if items.length = 0 then mthrow "Parallel requires at least one component"
  else do
    let startN ← newNode none
    let endN ← newNode none
    let (comps, nodes) ← parallelGo items startN endN [] [startN, endN]
    let fp ← newPin "parallel_in" none none
    let lp ← newPin "parallel_out" none none
    connectTo fp startN
    connectTo lp endN
    pure ⟨comps, nodes, some fp, some lp⟩

/-- `wire(pin1, pin2)` -/
def wire (p1 p2 : Nat) : M Nat := do
  let n ← newNode none
  connectTo p1 n
  connectTo p2 n
  pure n

/-- `junction(...pins)` -/
def junction (pinsL : List Nat) : M Nat :=
  if pinsL.length < 2 then mthrow "Junction requires at least two pins"
  else do
    let n ← newNode none
    pinsL.forM (fun p => connectTo p n)
    pure n

/-! ## Schematic (graph container) -/

structure Schematic where
  sname : String
  scomps : List Nat
  snodes : List Nat
  sground : Option Nat
  deriving DecidableEq, Repr, Inhabited

def Schematic.new (name : String) : Schematic := ⟨name, [], [], none⟩

/-- `addComponent`: append-only, no dedup. -/
def Schematic.addComponent (sc : Schematic) (c : Nat) : Schematic :=
  { sc with scomps := sc.scomps ++ [c] }

/-- `addNode`: append, suppressing duplicates by reference. -/
def Schematic.addNode (sc : Schematic) (n : Nat) : Schematic :=
  if sc.snodes.contains n then sc else { sc with snodes := sc.snodes ++ [n] }

/-- `createNode(name?)`: allocate a fresh node and push it. -/
def Schematic.createNode (sc : Schematic) (name : Option String) :
    M (Nat × Schematic) := do
  let n ← newNode name
  pure (n, { sc with snodes := sc.snodes ++ [n] })

/-- `connect(pin, node)`: bind and auto-register the node. -/
def Schematic.connect (sc : Schematic) (p n : Nat) : M Schematic := do
  connectTo p n
  pure (sc.addNode n)

/-- The variant tag of a referenced component. -/
def compTypeOf (s : CState) (c : Nat) : Option String :=
  (s.comps.get? c).map CompRec.ctype

/-- `getPinsAtNode(node)` -/
def getPinsAtNode (s : CState) (sc : Schematic) (n : Nat) : List Nat :=
  sc.scomps.flatMap (fun c =>
    match s.comps.get? c with
    | some cr => cr.cpins.filter (fun p => pinConnectedTo s p n)
    | none => [])

/-- `getUnconnectedPins()` -/
def getUnconnectedPins (s : CState) (sc : Schematic) : List Nat :=
  sc.scomps.flatMap (fun c =>
    match s.comps.get? c with
    | some cr => cr.cpins.filter (fun p => !pinConnected s p)
    | none => [])

/-- The base `Component.validate()`: negative primary value. -/
def baseValidate (c : CompRec) : List String :=
  match bagGet c.cparams "value" with
  | JVal.num q => if q < 0 then [c.ctype ++ ": Value cannot be negative"] else []
  | _ => []

/-- Per-class `validate()`.  `Ground` and `PowerRail` override without
calling `super`; the others extend the base rule. -/
def compValidate (c : CompRec) : List String :=
  match c.ctype with
  | "ground" => []
  | "power_rail" => []
  | "resistor" =>
    baseValidate c ++
      (if bagGet c.cparams "value" == JVal.num 0 then
        ["Resistor: Resistance cannot be zero (use a wire/short instead)"] else [])
  | "capacitor" =>
    baseValidate c ++
      (if bagGet c.cparams "value" == JVal.num 0 then
        ["Capacitor: Capacitance cannot be zero"] else [])
  | "inductor" =>
    baseValidate c ++
      (if bagGet c.cparams "value" == JVal.num 0 then
        ["Inductor: Inductance cannot be zero"] else [])
  | "diode" =>
    baseValidate c ++
      (match bagGet c.cown "forwardVoltage" with
        | JVal.num q => if q ≤ 0 then ["Diode: Forward voltage must be positive"] else []
        | _ => []) ++
      (match bagGet c.cown "maxCurrent" with
        | JVal.num q => if q ≤ 0 then ["Diode: Maximum current must be positive"] else []
        | _ => [])
  | "led" =>
    baseValidate c ++
      (match bagGet c.cown "forwardVoltage" with
        | JVal.num q => if q ≤ 0 then ["LED: Forward voltage must be positive"] else []
        | _ => []) ++
      (match bagGet c.cown "maxCurrent" with
        | JVal.num q => if q ≤ 0 then ["LED: Maximum current must be positive"] else []
        | _ => [])
  | "voltage_source" =>
    baseValidate c ++
      (if bagGet c.cown "sourceType" == JVal.str "ac" &&
          !jTruthy (bagGet c.cown "frequency") then
        ["VoltageSource: AC source requires frequency"] else []) ++
      (match bagGet c.cown "frequency" with
        | JVal.num q => if q ≤ 0 then ["VoltageSource: Frequency must be positive"] else []
        | _ => [])
  | "current_source" =>
    baseValidate c ++
      (if bagGet c.cown "sourceType" == JVal.str "ac" &&
          !jTruthy (bagGet c.cown "frequency") then
        ["CurrentSource: AC source requires frequency"] else []) ++
      (match bagGet c.cown "frequency" with
        | JVal.num q => if q ≤ 0 then ["CurrentSource: Frequency must be positive"] else []
        | _ => [])
  | _ => baseValidate c

structure ValidationResult where
  valid : Bool
  errors : List String
  warnings : List String
  deriving DecidableEq, Repr, Inhabited

/-- `node.toString()` -/
def nodeToString (s : CState) (n : Nat) : String :=
  match s.nodes.get? n with
  | some nr =>
    match nr.nname with
    | some nm => "Node(" ++ nm ++ ")"
    | none => "Node(" ++ nr.nid ++ ")"
  | none => "Node(?)"

/-- The pin name of a referenced pin (for diagnostics). -/
def pinNameOf (s : CState) (p : Nat) : String :=
  match s.pins.get? p with
  | some pr => pr.pname
  | none => "?"

/-- `Schematic.validate()` -/
def Schematic.validate (s : CState) (sc : Schematic) : ValidationResult :=
  let errors :=
    sc.scomps.flatMap (fun c =>
      match s.comps.get? c with
      | some cr => compValidate cr
      | none => []) ++
    (if sc.scomps.length = 0 then ["Circuit has no components"] else [])
  let warnings :=
    (getUnconnectedPins s sc).map (fun p => "Unconnected pin: " ++ pinNameOf s p) ++
    sc.snodes.flatMap (fun n =>
      if (getPinsAtNode s sc n).length = 1 && !nodeIsGround s n then
        ["Node " ++ nodeToString s n ++ " has only one connection"]
      else []) ++
    (if !(sc.snodes.any (nodeIsGround s) ||
        sc.scomps.any (fun c => compTypeOf s c == some "ground")) then
      ["Circuit has no ground reference"] else [])
  ⟨errors.isEmpty, errors, warnings⟩

/-- The ground-type components of a container, in insertion order. -/
def groundComps (s : CState) (sc : Schematic) : List Nat :=
  sc.scomps.filter (fun c => compTypeOf s c == some "ground")

/-- Repoint every pin of the given components that is bound to `oldN`
onto `newN` (disconnect-then-reconnect, in scan order). -/
def repointPins : List Nat → Nat → Nat → M Unit
  | [], _, _ => pure ()
  | p :: rest, oldN, newN => do
    let s ← getS
    if pinConnectedTo s p oldN then do
      disconnect p
      connectTo p newN
    repointPins rest oldN newN

def repointComps : List Nat → Nat → Nat → M Unit
  | [], _, _ => pure ()
  | c :: rest, oldN, newN => do
    let s ← getS
    match s.comps.get? c with
    | some cr => repointPins cr.cpins oldN newN
    | none => pure ()
    repointComps rest oldN newN

/-- One iteration of the `mergeGrounds` loop over the non-master ground
components. -/
def mergeOne (sc : Schematic) (masterNode : Nat) (g : Nat) : M Schematic := do
  let s ← getS
  let some cr := s.comps.get? g | mthrow "invalid component reference"
  let some gp := cr.cpins.get? 0 | mthrow "TypeError: gndComponent.pins[0] is undefined"
  match (s.pins.get? gp).bind PinRec.pnode with
  | some oldNode => do
    repointComps sc.scomps oldNode masterNode
    pure { sc with snodes := sc.snodes.erase oldNode }
  | none => do
    connectTo gp masterNode
    pure sc

def mergeRest (masterNode : Nat) : Schematic → List Nat → M Schematic
  | sc, [] => pure sc
  | sc, g :: rest => do
    let sc' ← mergeOne sc masterNode g
    mergeRest masterNode sc' rest

/-- `mergeGrounds()` -/
def mergeGrounds (sc : Schematic) : M Schematic := do
  let s ← getS
  let grounds := groundComps s sc
  if grounds.length ≤ 1 then pure sc
  else
    match grounds with
    | [] => pure sc
    | master :: rest => do
      let some cr := s.comps.get? master | mthrow "invalid component reference"
      let some mp := cr.cpins.get? 0 | mthrow "TypeError: masterGnd.pins[0] is undefined"
      match (s.pins.get? mp).bind PinRec.pnode with
      | none => pure sc
      | some masterNode => mergeRest masterNode sc rest

/-- Find a component's pin by name (`pins.find(p => p.name === nm)`). -/
def findPinNamed (s : CState) (cr : CompRec) (nm : String) : Option Nat :=
  cr.cpins.find? (fun p =>
    match s.pins.get? p with
    | some pr => pr.pname == nm
    | none => false)

structure AcgResult where
  connected : List Nat
  warnings : List String
  deriving DecidableEq, Repr, Inhabited

/-- The source loop of `autoConnectGrounds`. -/
def acgLoop : List Nat → Nat → List Nat → M (List Nat)
  | [], _, acc => pure acc
  | c :: rest, gndNode, acc => do
    let s ← getS
    match s.comps.get? c with
    | none => acgLoop rest gndNode acc
    | some cr =>
      match findPinNamed s cr "negative" with
      | some np =>
        if !pinConnected s np then do
          connectTo np gndNode
          acgLoop rest gndNode (acc ++ [np])
        else acgLoop rest gndNode acc
      | none => acgLoop rest gndNode acc

/-- `autoConnectGrounds()` -/
def autoConnectGrounds (sc : Schematic) : M (Schematic × AcgResult) := do
  let sc ← mergeGrounds sc
  let s ← getS
  let grounds := groundComps s sc
  match grounds with
  | [] => pure (sc, ⟨[], ["No GND component found - cannot auto-connect source negatives"]⟩)
  | g :: _ => do
    let some cr := s.comps.get? g | mthrow "invalid component reference"
    let some gp := cr.cpins.get? 0 | mthrow "TypeError: gndComponent.pins[0] is undefined"
    match (s.pins.get? gp).bind PinRec.pnode with
    | none => pure (sc, ⟨[], ["GND component is not connected to any node"]⟩)
    | some gndNode => do
      let sources := sc.scomps.filter (fun c =>
        compTypeOf s c == some "voltage_source" || compTypeOf s c == some "current_source")
      let connected ← acgLoop sources gndNode []
      pure (sc, ⟨connected, []⟩)

/-- `applyToCircuit(schematic, result)` -/
def applyToCircuit (sc : Schematic) (r : ConnResult) : Schematic :=
  (r.rnodes.foldl Schematic.addNode (r.rcomps.foldl Schematic.addComponent sc))

/-- `Circuit(name, ...items)` — the flat (legacy) form, with the
`autoGround` option (default `true`). -/
def Circuit (name : String) (autoGround : Bool) (items : List Connectable) :
    M Schematic := do
  let r ← Series items
  let sc := applyToCircuit (Schematic.new name) r
  if autoGround then do
    let (sc, _) ← autoConnectGrounds sc
    pure sc
  else pure sc

/-! ## Portable document (`db.ts`) -/

structure DbPin where
  dpid : String
  dpname : String
  dpdir : Option PinDir
  dpnode : Option String
  deriving DecidableEq, Repr, Inhabited

structure DbComponent where
  dcid : String
  dctype : String
  dclabel : Option String
  dcparams : Bag
  dcpins : List DbPin
  dcextras : Option Bag
  deriving DecidableEq, Repr, Inhabited

structure DbNode where
  dnid : String
  dnname : Option String
  dnground : Bool
  deriving DecidableEq, Repr, Inhabited

structure WireLangDb where
  wschema : String
  wname : String
  wcomps : List DbComponent
  wnodes : List DbNode
  deriving DecidableEq, Repr, Inhabited

/-- `extractExtras`: the component's own fields outside the base key set —
in this embedding exactly `cown`, kept separate by construction —
`undefined` when empty. -/
def extractExtras (c : CompRec) : Option Bag :=
  if c.cown.isEmpty then none else some c.cown

/-- The pin record `compileDslToDb` emits (`nodeId` is `pin.node?.id`). -/
def compilePin (s : CState) (p : Nat) : DbPin :=
  match s.pins.get? p with
  | some pr =>
    ⟨pr.pid, pr.pname, pr.pdir, pr.pnode.bind (fun n => (s.nodes.get? n).map NodeRec.nid)⟩
  | none => ⟨"", "", none, none⟩

def compileComp (s : CState) (c : Nat) : DbComponent :=
  match s.comps.get? c with
  | some cr =>
    ⟨cr.cid, cr.ctype, some cr.clabel, cr.cparams, cr.cpins.map (compilePin s),
      extractExtras cr⟩
  | none => ⟨"", "", none, [], [], none⟩

def compileNode (s : CState) (n : Nat) : DbNode :=
  match s.nodes.get? n with
  | some nr => ⟨nr.nid, nr.nname, nr.nname == some "GND" || nr.nname == some "0"⟩
  | none => ⟨"", none, false⟩

/-- `compileDslToDb(schematic)`: a pure, order-preserving projection. -/
def compileDslToDb (s : CState) (sc : Schematic) : WireLangDb :=
  ⟨"wirelang-db@v1", sc.sname, sc.scomps.map (compileComp s),
    sc.snodes.map (compileNode s)⟩

/-! ### Literal rendering (`toLiteral` / `toObjectLiteral`) -/

def hexDigit (n : Nat) : Char :=
  if n < 10 then Char.ofNat (48 + n) else Char.ofNat (87 + n)

/-- JSON string escaping of one character. -/
def jsonEscChar (c : Char) : List Char :=
  if c = '"' then ['\\', '"']
  else if c = '\\' then ['\\', '\\']
  else if c = '\n' then ['\\', 'n']
  else if c = '\r' then ['\\', 'r']
  else if c = '\t' then ['\\', 't']
  else if c.toNat < 32 then
    ['\\', 'u', '0', '0', hexDigit (c.toNat / 16), hexDigit (c.toNat % 16)]
  else [c]

/-- `JSON.stringify` of a string. -/
def jsonStr (s : String) : String :=
  "\"" ++ String.mk (s.data.flatMap jsonEscChar) ++ "\""

/-- `JSON.stringify` of a number.  Faithful for integers and numbers with a
terminating decimal expansion (every numeric literal the repository
produces); other rationals have no float counterpart. -/
def jsonNum (q : ℚ) : String :=
  if q.den = 1 then
    (if q.num < 0 then "-" else "") ++ decRepr q.num.natAbs
  else
    match (List.range 40).find? (fun k => (10 ^ k) % q.den == 0) with
    | some k =>
      let m := q.num.natAbs * (10 ^ k) / q.den
      let ds := decRepr m
      let ds := if ds.length ≤ k then
          String.mk (List.replicate (k + 1 - ds.length) '0') ++ ds
        else ds
      (if q.num < 0 then "-" else "") ++
        ds.take (ds.length - k) ++ "." ++ ds.drop (ds.length - k)
    | none => "NaN"

/-- `String(v)` coercion (used in error messages). -/
def jsToString (v : JVal) : String :=
  match v with
  | JVal.num q => jsonNum q
  | JVal.str s => s
  | JVal.jbool b => if b then "true" else "false"
  | JVal.null => "null"
  | JVal.undef => "undefined"

/-- `toLiteral(value)`: `"undefined"` for `undefined`, `JSON.stringify`
otherwise. -/
def toLiteral (v : JVal) : String :=
  match v with
  | JVal.undef => "undefined"
  | JVal.num q => jsonNum q
  | JVal.str s => jsonStr s
  | JVal.jbool b => if b then "true" else "false"
  | JVal.null => "null"

/-- `toObjectLiteral(obj)`: drop `undefined` entries, `{}` when empty. -/
def toObjectLiteral (b : Bag) : String :=
  let entries := b.filter (fun e => isDef e.2)
  if entries.isEmpty then "\x7b\x7d"
  else
    "\x7b " ++ String.intercalate ", "
      (entries.map (fun e => e.1 ++ ": " ++ toLiteral e.2)) ++ " \x7d"

/-! ### Safe identifiers (`toSafeIdentifier`) -/

def isIdentChar (c : Char) : Bool :=
  ('A' ≤ c && c ≤ 'Z') || ('a' ≤ c && c ≤ 'z') || ('0' ≤ c && c ≤ '9') || c = '_'

def reservedWords : List String :=
  ["break", "case", "catch", "class", "const", "continue", "debugger", "default",
   "delete", "do", "else", "export", "extends", "false", "finally", "for", "function",
   "if", "import", "in", "instanceof", "new", "null", "return", "super", "switch",
   "this", "throw", "true", "try", "typeof", "var", "void", "while", "with", "yield"]

/-- The de-collision loop (`while used.has(candidate)`), fuelled: `used` is
finite and candidates are fresh per suffix, so fuel `used.length + 1`
always reaches a free name. -/
def pickFreshGo (name : String) (used : List String) : Nat → String → Nat → String
  | 0, cand, _ => cand
  | fuel + 1, cand, suffix =>
    if used.contains cand then
      pickFreshGo name used fuel (name ++ "_" ++ decRepr suffix) (suffix + 1)
    else cand

/-- `toSafeIdentifier(raw, fallback, used)`, returning the chosen name and
the updated used set. -/
def toSafeIdentifier (raw fallback : String) (used : List String) :
    String × List String :=
  let sanitized := String.mk (raw.data.map (fun c => if isIdentChar c then c else '_'))
  let name := if sanitized.length > 0 then sanitized else fallback
  let name := match name.data with
    | c :: _ => if '0' ≤ c && c ≤ '9' then fallback ++ "_" ++ name else name
    | [] => name
  let name := if reservedWords.contains name then name ++ "_" else name
  let cand := pickFreshGo name used (used.length + 1) name 2
  (cand, used ++ [cand])

/-! ### `buildComponentExpression` -/

/-- Insertion-ordered set add (`Set.add`). -/
def addImport (l : List String) (x : String) : List String :=
  if l.contains x then l else l ++ [x]

def addImports (l : List String) (xs : List String) : List String :=
  xs.foldl addImport l

/-- The diode parameter bag the reverse transform assembles. -/
def diodeRevParams (params extras : Bag) : Bag :=
  (if isDef (bagGet extras "forwardVoltage") then
    [("forwardVoltage", bagGet extras "forwardVoltage")]
  else if isDef (bagGet params "value") then
    [("forwardVoltage", bagGet params "value")]
  else []) ++
  (if isDef (bagGet extras "maxCurrent") then
    [("maxCurrent", bagGet extras "maxCurrent")] else []) ++
  (if isDef (bagGet extras "partNumber") then
    [("partNumber", bagGet extras "partNumber")] else [])

/-- The LED parameter bag the reverse transform assembles. -/
def ledRevParams (params extras : Bag) : Bag :=
  (if isDef (bagGet params "color") then [("color", bagGet params "color")] else []) ++
  (if isDef (bagGet extras "forwardVoltage") then
    [("forwardVoltage", bagGet extras "forwardVoltage")]
  else if isDef (bagGet params "value") then
    [("forwardVoltage", bagGet params "value")]
  else []) ++
  (if isDef (bagGet extras "maxCurrent") then
    [("maxCurrent", bagGet extras "maxCurrent")] else [])

/-- The BJT/MOSFET option bag (shared shape, different field names). -/
def transistorRevParams (params extras : Bag) (fields : List String) : Bag :=
  (if isDef (jcoal (bagGet extras "model") (bagGet params "model")) then
    [("model", jcoal (bagGet extras "model") (bagGet params "model"))] else []) ++
  fields.flatMap (fun f =>
    if isDef (bagGet extras f) then [(f, bagGet extras f)] else [])

def gateMap (g : String) : Option String :=
  match g with
  | "NOT" => some "NOT"
  | "AND" => some "AND"
  | "OR" => some "OR"
  | "XOR" => some "XOR"
  | "NAND" => some "NAND"
  | "NOR" => some "NOR"
  | _ => none

/-- `buildComponentExpression(component)`: the factory-call expression
and import list for one component record.  Variant tags for the transistor
and IC classes (`bjt`, `mosfet`, `op_amp`, `logic_gate`) are modelled from
the class files and the spec; the snapshot's enum omits those members. -/
def buildComponentExpression (c : DbComponent) : Except String (String × List String) :=
  let params := c.dcparams
  let extras := c.dcextras.getD []
  match c.dctype with
  | "resistor" => Except.ok ("R(" ++ toLiteral (bagGet params "value") ++ ")", ["R"])
  | "capacitor" => Except.ok ("C(" ++ toLiteral (bagGet params "value") ++ ")", ["C"])
  | "inductor" => Except.ok ("L(" ++ toLiteral (bagGet params "value") ++ ")", ["L"])
  | "diode" =>
    let dp := diodeRevParams params extras
    if isDef (bagGet dp "partNumber") && dp.length = 1 then
      Except.ok ("D(" ++ toLiteral (bagGet dp "partNumber") ++ ")", ["D"])
    else Except.ok ("D(" ++ toObjectLiteral dp ++ ")", ["D"])
  | "led" =>
    let lp := ledRevParams params extras
    if lp.length = 1 && (lp.map Prod.fst) = ["color"] then
      Except.ok ("LED(" ++ toLiteral (bagGet lp "color") ++ ")", ["LED"])
    else Except.ok ("LED(" ++ toObjectLiteral lp ++ ")", ["LED"])
  | "voltage_source" =>
    let st := jcoal (bagGet params "sourceType") (bagGet extras "sourceType")
    let voltage := bagGet params "value"
    if st == JVal.str "ac" then
      match bagGet extras "frequency" with
      | JVal.num f =>
        Except.ok ("AC(" ++ toLiteral voltage ++ ", " ++ toLiteral (JVal.num f) ++ ")",
          ["AC"])
      | _ =>
        Except.ok ("new VoltageSource(\x7b voltage: " ++ toLiteral voltage ++
          ", sourceType: SourceType.AC \x7d)", ["VoltageSource", "SourceType"])
    else Except.ok ("DC(" ++ toLiteral voltage ++ ")", ["DC"])
  | "current_source" =>
    let st := jcoal (bagGet params "sourceType") (bagGet extras "sourceType")
    let current := bagGet params "value"
    if st == JVal.str "ac" then
      match bagGet extras "frequency" with
      | JVal.num f =>
        Except.ok ("IAC(" ++ toLiteral current ++ ", " ++ toLiteral (JVal.num f) ++ ")",
          ["IAC"])
      | _ =>
        Except.ok ("new CurrentSource(\x7b current: " ++ toLiteral current ++
          ", sourceType: SourceType.AC \x7d)", ["CurrentSource", "SourceType"])
    else Except.ok ("IDC(" ++ toLiteral current ++ ")", ["IDC"])
  | "ground" => Except.ok ("GND()", ["GND"])
  | "power_rail" =>
    let railName := bagGet params "railName"
    let voltage := bagGet params "value"
    if railName == JVal.str "VCC" then
      Except.ok ("VCC(" ++ toLiteral voltage ++ ")", ["VCC"])
    else if railName == JVal.str "VDD" then
      Except.ok ("VDD(" ++ toLiteral voltage ++ ")", ["VDD"])
    else if railName == JVal.str "V+" then
      Except.ok ("VPOS(" ++ toLiteral voltage ++ ")", ["VPOS"])
    else if railName == JVal.str "V-" then
      Except.ok ("VNEG(" ++ toLiteral voltage ++ ")", ["VNEG"])
    else
      Except.ok ("new PowerRail(" ++ toLiteral voltage ++ ", " ++ toLiteral railName ++ ")",
        ["PowerRail"])
  | "bjt" =>
    let bp := transistorRevParams params extras ["hfe", "vce_sat", "vbe"]
    if bagGet params "transistorType" == JVal.str "PNP" then
      if bp.length = 0 then Except.ok ("PNP()", ["PNP"])
      else if bp.length = 1 && isDef (bagGet bp "model") then
        Except.ok ("PNP(" ++ toLiteral (bagGet bp "model") ++ ")", ["PNP"])
      else Except.ok ("PNP(" ++ toObjectLiteral bp ++ ")", ["PNP"])
    else
      if bp.length = 0 then Except.ok ("NPN()", ["NPN"])
      else if bp.length = 1 && isDef (bagGet bp "model") then
        Except.ok ("NPN(" ++ toLiteral (bagGet bp "model") ++ ")", ["NPN"])
      else Except.ok ("NPN(" ++ toObjectLiteral bp ++ ")", ["NPN"])
  | "mosfet" =>
    let fp := transistorRevParams params extras ["vth", "rds_on", "id_max"]
    if bagGet params "transistorType" == JVal.str "PMOS" then
      if fp.length = 0 then Except.ok ("PMOS()", ["PMOS"])
      else if fp.length = 1 && isDef (bagGet fp "model") then
        Except.ok ("PMOS(" ++ toLiteral (bagGet fp "model") ++ ")", ["PMOS"])
      else Except.ok ("PMOS(" ++ toObjectLiteral fp ++ ")", ["PMOS"])
    else
      if fp.length = 0 then Except.ok ("NMOS()", ["NMOS"])
      else if fp.length = 1 && isDef (bagGet fp "model") then
        Except.ok ("NMOS(" ++ toLiteral (bagGet fp "model") ++ ")", ["NMOS"])
      else Except.ok ("NMOS(" ++ toObjectLiteral fp ++ ")", ["NMOS"])
  | "op_amp" =>
    let partNumber := jcoal (bagGet extras "partNumber") (bagGet params "partNumber")
    let gain := bagGet extras "gain"
    let isThreePin := c.dcpins.length = 3
    if isDef gain || isDef partNumber then
      let op := (if isDef partNumber then [("partNumber", partNumber)] else []) ++
        (if isDef gain then [("gain", gain)] else [])
      if isDef gain then
        let ctor := if isThreePin then "OpAmp3Component" else "OpAmpComponent"
        Except.ok ("new " ++ ctor ++ "(" ++ toObjectLiteral op ++ ")", [ctor])
      else
        let factory := if isThreePin then "OpAmp3" else "OpAmp"
        Except.ok (factory ++ "(" ++ toLiteral partNumber ++ ")", [factory])
    else
      let factory := if isThreePin then "OpAmp3" else "OpAmp"
      Except.ok (factory ++ "()", [factory])
  | "logic_gate" =>
    let gateType := bagGet params "gateType"
    let family := bagGet params "family"
    let factory := match gateType with
      | JVal.str g => gateMap g
      | _ => none
    match factory with
    | none => Except.error ("Unsupported logic gate type: " ++ jsToString gateType)
    | some f =>
      if isDef family then Except.ok (f ++ "(" ++ toLiteral family ++ ")", [f])
      else Except.ok (f ++ "()", [f])
  | "logic_high" => Except.ok ("HIGH()", ["HIGH"])
  | "logic_low" => Except.ok ("LOW()", ["LOW"])
  | "clock" =>
    let frequency := bagGet params "value"
    let dutyCycle := jcoal (bagGet params "dutyCycle") (bagGet extras "dutyCycle")
    if isDef dutyCycle then
      Except.ok ("CLK(" ++ toLiteral frequency ++ ", " ++ toLiteral dutyCycle ++ ")",
        ["CLK"])
    else Except.ok ("CLK(" ++ toLiteral frequency ++ ")", ["CLK"])
  | _ => Except.error ("Unsupported component type: " ++ c.dctype)

/-! ### `reverseDbToDsl` — emission of the regenerated source -/

structure DbOpts where
  moduleImport : Option String
  exportName : Option String
  preserveIds : Option Bool
  deriving DecidableEq, Repr, Inhabited

/-- `reverseDbToDsl(db)` with no options object. -/
def defaultOpts : DbOpts := ⟨none, none, none⟩

/-- `Map.get`: the last `set` for a key wins. -/
def lookupLast {β : Type} (l : List (String × β)) (k : String) : Option β :=
  match l.reverse.find? (fun e => e.1 == k) with
  | some e => some e.2
  | none => none

/-- JS object property update: overwrite in place or append. -/
def setAssoc {β : Type} (l : List (String × β)) (k : String) (v : β) :
    List (String × β) :=
  if (l.find? (fun e => e.1 == k)).isSome then
    l.map (fun e => if e.1 == k then (k, v) else e)
  else l ++ [(k, v)]

/-- First pass over components: allocate variable names (keyed by record
id), collect imports, and fail on an unsupported variant. -/
def compVarsGo : List DbComponent → List String → List (String × String) →
    List String → Except String (List String × List (String × String) × List String)
  | [], used, vars, imports => Except.ok (used, vars, imports)
  | c :: rest, used, vars, imports => do
    let baseName := match c.dclabel with
      | some l => l
      | none => c.dcid
    let (varName, used) := toSafeIdentifier baseName "component" used
    let (_, cimports) ← buildComponentExpression c
    compVarsGo rest used (vars ++ [(c.dcid, varName)]) (addImports imports cimports)

/-- Second pass: node variable names. -/
def nodeVarsGo : List DbNode → List String → List (String × String) →
    List String × List (String × String)
  | [], used, vars => (used, vars)
  | n :: rest, used, vars =>
    let baseName := match n.dnname with
      | some s => s
      | none => n.dnid
    let (varName, used) := toSafeIdentifier ("node_" ++ baseName) "node" used
    nodeVarsGo rest used (vars ++ [(n.dnid, varName)])

/-- Insertion sort by string order (JS default `Array.sort`). -/
def insertSorted (x : String) : List String → List String
  | [] => [x]
  | y :: ys => if decide (x ≤ y) then x :: y :: ys else y :: insertSorted x ys

def sortStrings (l : List String) : List String := l.foldr insertSorted []

/-- The `pinIds` object of an identity record: name-keyed pin ids, for pins
with a truthy id. -/
def pinIdsOf (c : DbComponent) : List (String × String) :=
  c.dcpins.foldl (fun acc p =>
    if strTruthy p.dpid then setAssoc acc p.dpname p.dpid else acc) []

/-- The rendered fields of an `applyComponentIdentity` literal. -/
def identityParts (c : DbComponent) (pinIds : List (String × String)) : List String :=
  (if strTruthy c.dcid then ["id: " ++ jsonStr c.dcid] else []) ++
  (if optTruthy c.dclabel then ["label: " ++ jsonStr (c.dclabel.getD "")] else []) ++
  (if pinIds.isEmpty then [] else
    ["pinIds: " ++ "\x7b" ++
      String.intercalate "," (pinIds.map (fun e => jsonStr e.1 ++ ":" ++ jsonStr e.2)) ++
      "\x7d"])

/-- The component-construction (and identity) lines. -/
def compLinesGo (preserveIds : Bool) (vars : List (String × String)) :
    List DbComponent → Except String (List String)
  | [] => Except.ok []
  | c :: rest => do
    let varName := (lookupLast vars c.dcid).getD "undefined"
    let (expr, _) ← buildComponentExpression c
    let idLines :=
      if preserveIds then
        let parts := identityParts c (pinIdsOf c)
        if parts.isEmpty then []
        else ["applyComponentIdentity(" ++ varName ++ ", \x7b " ++
          String.intercalate ", " parts ++ " \x7d);"]
      else []
    let restLines ← compLinesGo preserveIds vars rest
    Except.ok (("const " ++ varName ++ " = " ++ expr ++ ";") :: (idLines ++ restLines))

/-- The node-creation (and identity) lines. -/
def nodeLines (preserveIds : Bool) (nvars : List (String × String))
    (ns : List DbNode) : List String :=
  ns.flatMap (fun n =>
    let varName := (lookupLast nvars n.dnid).getD "undefined"
    let nodeName := match n.dnname with
      | some s => s
      | none => n.dnid
    ("const " ++ varName ++ " = s.createNode(" ++ jsonStr nodeName ++ ");") ::
    (if preserveIds && strTruthy n.dnid then
      ["applyNodeIdentity(" ++ varName ++ ", " ++ jsonStr n.dnid ++ ");"] else []))

/-- The connection statement one pin record contributes: nothing when its
`nodeId` is absent or falsy (`if (!pin.nodeId) continue`), and nothing —
silently — when the `nodeId` resolves to no node variable. -/
def pinConnectLine (nvars : List (String × String)) (compVar : String)
    (p : DbPin) : List String :=
  match p.dpnode with
  | none => []
  | some nid =>
    if strTruthy nid then
      match lookupLast nvars nid with
      | some nodeVar =>
        ["s.connect(" ++ compVar ++ ".pin(" ++ jsonStr p.dpname ++ "), " ++
          nodeVar ++ ");"]
      | none => []
    else []

/-- The pin-connection lines, in component-then-pin order. -/
def connectLines (vars nvars : List (String × String))
    (cs : List DbComponent) : List String :=
  cs.flatMap (fun c =>
    c.dcpins.flatMap (pinConnectLine nvars ((lookupLast vars c.dcid).getD "undefined")))

/-- `reverseDbToDsl(db, options)`, producing the emitted lines. -/
def reverseLines (db : WireLangDb) (opts : DbOpts) : Except String (List String) := do
  let moduleImport := opts.moduleImport.getD "wirelang"
  let exportName := opts.exportName.getD "default"
  let preserveIds := opts.preserveIds.getD true
  let imports0 := addImports ["createSchematic"]
    (if preserveIds then ["applyComponentIdentity", "applyNodeIdentity"] else [])
  let (used, cvars, imports) ← compVarsGo db.wcomps [] [] imports0
  let (_, nvars) := nodeVarsGo db.wnodes used []
  let clines ← compLinesGo preserveIds cvars db.wcomps
  Except.ok (
    ("import \x7b " ++ String.intercalate ", " (sortStrings imports) ++
      " \x7d from " ++ jsonStr moduleImport ++ ";") ::
    "" ::
    ("const s = createSchematic(" ++ jsonStr db.wname ++ ");") ::
    "" ::
    clines ++
    (if db.wcomps.length > 0 then
      ["", "s.addComponents(" ++ String.intercalate ", "
        (db.wcomps.map (fun c => (lookupLast cvars c.dcid).getD "undefined")) ++ ");"]
    else []) ++
    (if db.wnodes.length > 0 then [""] else []) ++
    nodeLines preserveIds nvars db.wnodes ++
    (if db.wnodes.length > 0 then [""] else []) ++
    connectLines cvars nvars db.wcomps ++
    [""] ++
    [if exportName == "default" then "export default s;"
     else "export const " ++ exportName ++ " = s;"])

/-- `reverseDbToDsl` as the final source text. -/
def reverseDbToDsl (db : WireLangDb) (opts : DbOpts) : Except String String :=
  (reverseLines db opts).map (String.intercalate "\n")

/-! ## Identity helpers (`identity.ts`) -/

/-- The `pinIds` part of `applyComponentIdentity`. -/
def applyPinIds : List Nat → List (String × String) → M Unit
  | [], _ => pure ()
  | p :: rest, pinIds => do
    let s ← getS
    match s.pins.get? p with
    | some pr =>
      match (pinIds.find? (fun e => e.1 == pr.pname)).map Prod.snd with
      | some tid =>
        if strTruthy tid then
          setS { s with pins := s.pins.set p { pr with pid := tid } }
        else pure ()
      | none => pure ()
    | none => pure ()
    applyPinIds rest pinIds

/-- `applyComponentIdentity(component, identity)`: force id, label and pin
ids (each only when truthy/present). -/
def applyComponentIdentity (cref : Nat) (idv labelv : Option String)
    (pinIds : List (String × String)) : M Unit := do
  let s ← getS
  match s.comps.get? cref with
  | none => mthrow "invalid component reference"
  | some cr => do
    let cr := match idv with
      | some i => if strTruthy i then { cr with cid := i } else cr
      | none => cr
    let cr := match labelv with
      | some l => if strTruthy l then { cr with clabel := l } else cr
      | none => cr
    setS { s with comps := s.comps.set cref cr }
    applyPinIds cr.cpins pinIds

/-- `applyNodeIdentity(node, id)` -/
def applyNodeIdentity (nref : Nat) (idv : Option String) : M Unit := do
  let s ← getS
  match s.nodes.get? nref with
  | none => mthrow "invalid node reference"
  | some nr =>
    match idv with
    | some i =>
      if strTruthy i then setS { s with nodes := s.nodes.set nref { nr with nid := i } }
      else pure ()
    | none => pure ()

/-! ## Executing the regenerated source

`reverseDbToDsl` regenerates source text; executing that text (in a fresh
process) performs, statement by statement, the semantic actions below.
`execFactory` evaluates the emitted factory-call expression — its branch
structure mirrors `buildComponentExpression` — for the component classes
embedded in this file (the transistor/IC classes are outside the scope of
the embedded class set and fail explicitly). -/

def execFactory (c : DbComponent) : M Nat :=
  let params := c.dcparams
  let extras := c.dcextras.getD []
  match c.dctype with
  | "resistor" => resistorCtor (bagGet params "value")
  | "capacitor" => capacitorCtor (bagGet params "value")
  | "inductor" => inductorCtor (bagGet params "value")
  | "diode" =>
    let dp := diodeRevParams params extras
    if isDef (bagGet dp "partNumber") && dp.length = 1 then
      match bagGet dp "partNumber" with
      | JVal.str pn => Dstr pn
      | JVal.null => mthrow "TypeError: Cannot read properties of null"
      | _ => diodeCtor []
    else diodeCtor dp
  | "led" =>
    let lp := ledRevParams params extras
    if lp.length = 1 && (lp.map Prod.fst) = ["color"] then
      match bagGet lp "color" with
      | JVal.str col => LEDstr col
      | JVal.null => mthrow "TypeError: Cannot read properties of null"
      | _ => ledCtor []
    else ledCtor lp
  | "voltage_source" =>
    let st := jcoal (bagGet params "sourceType") (bagGet extras "sourceType")
    let voltage := bagGet params "value"
    if st == JVal.str "ac" then
      match bagGet extras "frequency" with
      | JVal.num f =>
        vsCtor [("voltage", voltage), ("sourceType", JVal.str "ac"),
          ("frequency", JVal.num f)]
      | _ => vsCtor [("voltage", voltage), ("sourceType", JVal.str "ac")]
    else vsCtor [("voltage", voltage), ("sourceType", JVal.str "dc")]
  | "current_source" =>
    let st := jcoal (bagGet params "sourceType") (bagGet extras "sourceType")
    let current := bagGet params "value"
    if st == JVal.str "ac" then
      match bagGet extras "frequency" with
      | JVal.num f =>
        csCtor [("current", current), ("sourceType", JVal.str "ac"),
          ("frequency", JVal.num f)]
      | _ => csCtor [("current", current), ("sourceType", JVal.str "ac")]
    else csCtor [("current", current), ("sourceType", JVal.str "dc")]
  | "ground" => GND
  | "power_rail" =>
    let railName := bagGet params "railName"
    let voltage := bagGet params "value"
    if railName == JVal.str "VCC" then powerRailCtor voltage "VCC"
    else if railName == JVal.str "VDD" then powerRailCtor voltage "VDD"
    else if railName == JVal.str "V+" then powerRailCtor voltage "V+"
    else if railName == JVal.str "V-" then powerRailCtor voltage "V-"
    else
      match railName with
      | JVal.undef => powerRailCtor voltage "VCC"
      | JVal.str s => powerRailCtor voltage s
      | v => powerRailCtor voltage (jsToString v)
  | t => mthrow ("component class not modelled in this embedding: " ++ t)

/-- Execute the component construction and identity statements, in order. -/
def execComps (preserveIds : Bool) : List DbComponent → M (List Nat)
  | [] => pure []
  | c :: rest => do
    let ref ← execFactory c
    let idv := if strTruthy c.dcid then some c.dcid else none
    let labelv := if optTruthy c.dclabel then c.dclabel else none
    let pinIds := pinIdsOf c
    if preserveIds && (idv.isSome || labelv.isSome || !pinIds.isEmpty) then
      applyComponentIdentity ref idv labelv pinIds
    else pure ()
    let rest' ← execComps preserveIds rest
    pure (ref :: rest')

/-- Execute the node creation and identity statements, in order; returns
the node-variable environment keyed by document node id. -/
def execNodes (preserveIds : Bool) : Schematic → List DbNode →
    M (Schematic × List (String × Nat))
  | sc, [] => pure (sc, [])
  | sc, n :: rest => do
    let nodeName := match n.dnname with
      | some s => s
      | none => n.dnid
    let (nref, sc) ← sc.createNode (some nodeName)
    if preserveIds && strTruthy n.dnid then applyNodeIdentity nref (some n.dnid)
    else pure ()
    let (sc, nvars) ← execNodes preserveIds sc rest
    pure (sc, (n.dnid, nref) :: nvars)

/-- `component.pin(name)`: lookup by name, throwing when absent. -/
def compPinNamed (s : CState) (cref : Nat) (nm : String) : Except String Nat :=
  match s.comps.get? cref with
  | none => Except.error "invalid component reference"
  | some cr =>
    match findPinNamed s cr nm with
    | some p => Except.ok p
    | none => Except.error ("Pin \"" ++ nm ++ "\" not found on component " ++ cr.clabel)

/-- Execute the connection statements of one component record. -/
def execConnectPins (nvars : List (String × Nat)) :
    Schematic → Nat → List DbPin → M Schematic
  | sc, _, [] => pure sc
  | sc, cref, p :: rest => do
    let sc ←
      match p.dpnode with
      | some nid =>
        if strTruthy nid then
          match lookupLast nvars nid with
          | some nref => do
            let s ← getS
            let pin ← liftE (compPinNamed s cref p.dpname)
            Schematic.connect sc pin nref
          | none => pure sc
        else pure sc
      | none => pure sc
    execConnectPins nvars sc cref rest

def execConnects (nvars : List (String × Nat)) :
    Schematic → List (DbComponent × Nat) → M Schematic
  | sc, [] => pure sc
  | sc, (c, cref) :: rest => do
    let sc ← execConnectPins nvars sc cref c.dcpins
    execConnects nvars sc rest

/-- Execute the source regenerated from `db` (in a fresh module scope):
construct and identity-override the components, add them, create and
identity-override the nodes, emit the connections, export the schematic. -/
def execReverse (db : WireLangDb) (opts : DbOpts) : M Schematic := do
  let preserveIds := opts.preserveIds.getD true
  let refs ← execComps preserveIds db.wcomps
  let sc := refs.foldl Schematic.addComponent (Schematic.new db.wname)
  let (sc, nvars) ← execNodes preserveIds sc db.wnodes
  execConnects nvars sc (db.wcomps.zip refs)

/-! ## Concrete scenarios used by the claims -/

/-- The current node binding of a pin reference. -/
def bindingOf (s : CState) (p : Nat) : Option Nat :=
  (s.pins.get? p).bind PinRec.pnode

/-- `Circuit("LED", DC(5), R(330), LED(RED), GND())` with default options,
run in a fresh process (arguments evaluate left to right before `Circuit`). -/
def demoRun : Except String (Schematic × CState) :=
  (do
    let a ← DC 5
    let b ← R 330
    let c ← LEDstr "red"
    let d ← GND
    Circuit "LED" true
      [Connectable.comp a, Connectable.comp b, Connectable.comp c,
        Connectable.comp d]) CState.empty

/-!
Literal snapshots of the demo run's intermediate heaps (checked against
the definitions by `rfl` step lemmas below): after `DC(5)`, `R(330)`,
`LED(RED)` and `GND()`, after the internal `Series`, and the final
container/heap.
-/

def dSt1 : CState :=
  ⟨[⟨"pin_1", "positive", some (PinDir.output), none, some (0)⟩, ⟨"pin_2", "negative", some (PinDir.input), none, some (0)⟩],
  [],
  [⟨"voltage_source_1", "voltage_source", "V1", [("value", JVal.num ((5 : ℚ))), ("unit", JVal.str "V"), ("sourceType", JVal.str "dc")], [0, 1], [("voltage", JVal.num ((5 : ℚ))), ("sourceType", JVal.str "dc"), ("frequency", JVal.undef)]⟩],
  [("V", 1)]⟩
def dSt2 : CState :=
  ⟨[⟨"pin_1", "positive", some (PinDir.output), none, some (0)⟩, ⟨"pin_2", "negative", some (PinDir.input), none, some (0)⟩, ⟨"pin_3", "1", none, none, some (1)⟩, ⟨"pin_4", "2", none, none, some (1)⟩],
  [],
  [⟨"voltage_source_1", "voltage_source", "V1", [("value", JVal.num ((5 : ℚ))), ("unit", JVal.str "V"), ("sourceType", JVal.str "dc")], [0, 1], [("voltage", JVal.num ((5 : ℚ))), ("sourceType", JVal.str "dc"), ("frequency", JVal.undef)]⟩, ⟨"resistor_2", "resistor", "R1", [("value", JVal.num ((330 : ℚ))), ("unit", JVal.str "Ω")], [2, 3], []⟩],
  [("V", 1), ("R", 1)]⟩
def dSt3 : CState :=
  ⟨[⟨"pin_1", "positive", some (PinDir.output), none, some (0)⟩, ⟨"pin_2", "negative", some (PinDir.input), none, some (0)⟩, ⟨"pin_3", "1", none, none, some (1)⟩, ⟨"pin_4", "2", none, none, some (1)⟩, ⟨"pin_5", "anode", none, none, some (2)⟩, ⟨"pin_6", "cathode", none, none, some (2)⟩],
  [],
  [⟨"voltage_source_1", "voltage_source", "V1", [("value", JVal.num ((5 : ℚ))), ("unit", JVal.str "V"), ("sourceType", JVal.str "dc")], [0, 1], [("voltage", JVal.num ((5 : ℚ))), ("sourceType", JVal.str "dc"), ("frequency", JVal.undef)]⟩, ⟨"resistor_2", "resistor", "R1", [("value", JVal.num ((330 : ℚ))), ("unit", JVal.str "Ω")], [2, 3], []⟩, ⟨"led_3", "led", "LED1", [("value", JVal.num (Rat.mk' 9 5)), ("unit", JVal.str "V"), ("color", JVal.str "red")], [4, 5], [("color", JVal.str "red"), ("forwardVoltage", JVal.num (Rat.mk' 9 5)), ("maxCurrent", JVal.num (Rat.mk' 1 50))]⟩],
  [("V", 1), ("R", 1), ("LED", 1)]⟩
def dSt4 : CState :=
  ⟨[⟨"pin_1", "positive", some (PinDir.output), none, some (0)⟩, ⟨"pin_2", "negative", some (PinDir.input), none, some (0)⟩, ⟨"pin_3", "1", none, none, some (1)⟩, ⟨"pin_4", "2", none, none, some (1)⟩, ⟨"pin_5", "anode", none, none, some (2)⟩, ⟨"pin_6", "cathode", none, none, some (2)⟩, ⟨"pin_7", "gnd", none, none, some (3)⟩],
  [],
  [⟨"voltage_source_1", "voltage_source", "V1", [("value", JVal.num ((5 : ℚ))), ("unit", JVal.str "V"), ("sourceType", JVal.str "dc")], [0, 1], [("voltage", JVal.num ((5 : ℚ))), ("sourceType", JVal.str "dc"), ("frequency", JVal.undef)]⟩, ⟨"resistor_2", "resistor", "R1", [("value", JVal.num ((330 : ℚ))), ("unit", JVal.str "Ω")], [2, 3], []⟩, ⟨"led_3", "led", "LED1", [("value", JVal.num (Rat.mk' 9 5)), ("unit", JVal.str "V"), ("color", JVal.str "red")], [4, 5], [("color", JVal.str "red"), ("forwardVoltage", JVal.num (Rat.mk' 9 5)), ("maxCurrent", JVal.num (Rat.mk' 1 50))]⟩, ⟨"ground_4", "ground", "GND1", [("value", JVal.num ((0 : ℚ))), ("unit", JVal.str "V")], [6], [("_groundNode", JVal.null)]⟩],
  [("V", 1), ("R", 1), ("LED", 1), ("GND", 1)]⟩
def demoResL : ConnResult := ⟨[0, 1, 2, 3], [0, 1, 2], some (1), none⟩
def dSt5 : CState :=
  ⟨[⟨"pin_1", "positive", some (PinDir.output), some (0), some (0)⟩, ⟨"pin_2", "negative", some (PinDir.input), none, some (0)⟩, ⟨"pin_3", "1", none, some (0), some (1)⟩, ⟨"pin_4", "2", none, some (1), some (1)⟩, ⟨"pin_5", "anode", none, some (1), some (2)⟩, ⟨"pin_6", "cathode", none, some (2), some (2)⟩, ⟨"pin_7", "gnd", none, some (2), some (3)⟩],
  [⟨"node_1", none⟩, ⟨"node_2", none⟩, ⟨"node_3", none⟩],
  [⟨"voltage_source_1", "voltage_source", "V1", [("value", JVal.num ((5 : ℚ))), ("unit", JVal.str "V"), ("sourceType", JVal.str "dc")], [0, 1], [("voltage", JVal.num ((5 : ℚ))), ("sourceType", JVal.str "dc"), ("frequency", JVal.undef)]⟩, ⟨"resistor_2", "resistor", "R1", [("value", JVal.num ((330 : ℚ))), ("unit", JVal.str "Ω")], [2, 3], []⟩, ⟨"led_3", "led", "LED1", [("value", JVal.num (Rat.mk' 9 5)), ("unit", JVal.str "V"), ("color", JVal.str "red")], [4, 5], [("color", JVal.str "red"), ("forwardVoltage", JVal.num (Rat.mk' 9 5)), ("maxCurrent", JVal.num (Rat.mk' 1 50))]⟩, ⟨"ground_4", "ground", "GND1", [("value", JVal.num ((0 : ℚ))), ("unit", JVal.str "V")], [6], [("_groundNode", JVal.null)]⟩],
  [("V", 1), ("R", 1), ("LED", 1), ("GND", 1)]⟩
def demoScMid : Schematic := ⟨"LED", [0, 1, 2, 3], [0, 1, 2], none⟩
def demoAcgRes : AcgResult := ⟨[1], []⟩
def demoScL : Schematic := ⟨"LED", [0, 1, 2, 3], [0, 1, 2], none⟩
def demoStL : CState :=
  ⟨[⟨"pin_1", "positive", some (PinDir.output), some (0), some (0)⟩, ⟨"pin_2", "negative", some (PinDir.input), some (2), some (0)⟩, ⟨"pin_3", "1", none, some (0), some (1)⟩, ⟨"pin_4", "2", none, some (1), some (1)⟩, ⟨"pin_5", "anode", none, some (1), some (2)⟩, ⟨"pin_6", "cathode", none, some (2), some (2)⟩, ⟨"pin_7", "gnd", none, some (2), some (3)⟩],
  [⟨"node_1", none⟩, ⟨"node_2", none⟩, ⟨"node_3", none⟩],
  [⟨"voltage_source_1", "voltage_source", "V1", [("value", JVal.num ((5 : ℚ))), ("unit", JVal.str "V"), ("sourceType", JVal.str "dc")], [0, 1], [("voltage", JVal.num ((5 : ℚ))), ("sourceType", JVal.str "dc"), ("frequency", JVal.undef)]⟩, ⟨"resistor_2", "resistor", "R1", [("value", JVal.num ((330 : ℚ))), ("unit", JVal.str "Ω")], [2, 3], []⟩, ⟨"led_3", "led", "LED1", [("value", JVal.num (Rat.mk' 9 5)), ("unit", JVal.str "V"), ("color", JVal.str "red")], [4, 5], [("color", JVal.str "red"), ("forwardVoltage", JVal.num (Rat.mk' 9 5)), ("maxCurrent", JVal.num (Rat.mk' 1 50))]⟩, ⟨"ground_4", "ground", "GND1", [("value", JVal.num ((0 : ℚ))), ("unit", JVal.str "V")], [6], [("_groundNode", JVal.null)]⟩],
  [("V", 1), ("R", 1), ("LED", 1), ("GND", 1)]⟩

/-- The DC source's pin named `negative` in the demo circuit. -/
def demoDCneg : Option Nat := do
  let c ← demoScL.scomps.get? 0
  let cr ← demoStL.comps.get? c
  findPinNamed demoStL cr "negative"

/-- The ground component's single pin in the demo circuit. -/
def demoGndPin : Option Nat := do
  let c ← demoScL.scomps.get? 3
  let cr ← demoStL.comps.get? c
  cr.cpins.get? 0

/-- A freshly constructed `Ground` component record (`GND()`). -/
def gndCompRec : CompRec :=
  match GND CState.empty with
  | Except.ok (r, st) => (st.comps.get? r).getD default
  | Except.error _ => default

/-- A freshly constructed `VoltageSource` record (`DC(5)`) with its state. -/
def dcRunSt : CState :=
  match DC 5 CState.empty with
  | Except.ok (_, st) => st
  | Except.error _ => default

def dcCompRec : CompRec :=
  match DC 5 CState.empty with
  | Except.ok (r, st) => (st.comps.get? r).getD default
  | Except.error _ => default

/-- `Series(R(100), somePin, R(200))`: a raw pin shared between the two
adjacent pairs.  Returns the two resistors, the pin, the result and the
final state. -/
def c2run : Except String ((Nat × Nat × Nat × ConnResult) × CState) :=
  (do
    let r1 ← R 100
    let p ← newPin "x" none none
    let r2 ← R 200
    let res ← Series [Connectable.comp r1, Connectable.pin p, Connectable.comp r2]
    pure (r1, p, r2, res)) CState.empty

/-- Literal snapshots of the `c2run` heaps. -/

def c2St1 : CState :=
  ⟨[⟨"pin_1", "1", none, none, some (0)⟩, ⟨"pin_2", "2", none, none, some (0)⟩],
  [],
  [⟨"resistor_1", "resistor", "R1", [("value", JVal.num ((100 : ℚ))), ("unit", JVal.str "Ω")], [0, 1], []⟩],
  [("R", 1)]⟩
def c2St2 : CState :=
  ⟨[⟨"pin_1", "1", none, none, some (0)⟩, ⟨"pin_2", "2", none, none, some (0)⟩, ⟨"pin_3", "x", none, none, none⟩],
  [],
  [⟨"resistor_1", "resistor", "R1", [("value", JVal.num ((100 : ℚ))), ("unit", JVal.str "Ω")], [0, 1], []⟩],
  [("R", 1)]⟩
def c2St3 : CState :=
  ⟨[⟨"pin_1", "1", none, none, some (0)⟩, ⟨"pin_2", "2", none, none, some (0)⟩, ⟨"pin_3", "x", none, none, none⟩, ⟨"pin_4", "1", none, none, some (1)⟩, ⟨"pin_5", "2", none, none, some (1)⟩],
  [],
  [⟨"resistor_1", "resistor", "R1", [("value", JVal.num ((100 : ℚ))), ("unit", JVal.str "Ω")], [0, 1], []⟩, ⟨"resistor_2", "resistor", "R2", [("value", JVal.num ((200 : ℚ))), ("unit", JVal.str "Ω")], [3, 4], []⟩],
  [("R", 2)]⟩
def c2Res : ConnResult := ⟨[0, 1], [0, 1], some (0), some (4)⟩
def c2StF : CState :=
  ⟨[⟨"pin_1", "1", none, none, some (0)⟩, ⟨"pin_2", "2", none, some (0), some (0)⟩, ⟨"pin_3", "x", none, some (1), none⟩, ⟨"pin_4", "1", none, some (1), some (1)⟩, ⟨"pin_5", "2", none, none, some (1)⟩],
  [⟨"node_1", none⟩, ⟨"node_2", none⟩],
  [⟨"resistor_1", "resistor", "R1", [("value", JVal.num ((100 : ℚ))), ("unit", JVal.str "Ω")], [0, 1], []⟩, ⟨"resistor_2", "resistor", "R2", [("value", JVal.num ((200 : ℚ))), ("unit", JVal.str "Ω")], [3, 4], []⟩],
  [("R", 2)]⟩


/-- The variant tags the reverse transform's `switch` recognizes. -/
def supportedTags : List String :=
  ["resistor", "capacitor", "inductor", "diode", "led", "voltage_source",
   "current_source", "ground", "power_rail", "bjt", "mosfet", "op_amp",
   "logic_gate", "logic_high", "logic_low", "clock"]

/-- A document containing a component record with an unrecognized variant
tag. -/
def badTagDb : WireLangDb :=
  ⟨"wirelang-db@v1", "X", [⟨"x_1", "banana", some "X1", [], [], none⟩], []⟩

/-- A diode record whose only part-specific extra is a `partNumber` (its
base params carry the usual primary value). -/
def c8diode : DbComponent :=
  ⟨"diode_1", "diode", some "D1",
    [("value", JVal.num 1), ("unit", JVal.str "V")],
    [⟨"pin_1", "anode", none, none⟩, ⟨"pin_2", "cathode", none, none⟩],
    some [("partNumber", JVal.str "1N4148")]⟩

/-- A diode record with a part number and no primary value anywhere. -/
def c8diodeBare : DbComponent :=
  ⟨"diode_1", "diode", some "D1", [("unit", JVal.str "V")],
    [⟨"pin_1", "anode", none, none⟩, ⟨"pin_2", "cathode", none, none⟩],
    some [("partNumber", JVal.str "1N4148")]⟩

/-- The first ground component's pin of a container. -/
def firstGroundPin (s : CState) (sc : Schematic) : Option Nat := do
  let g ← (groundComps s sc).head?
  let cr ← s.comps.get? g
  cr.cpins.get? 0

/-- Does a pin record emit a connection statement in the reverse
transform?  Exactly when its `nodeId` is truthy and names some node record
of the document. -/
def pinEmitsConnect (db : WireLangDb) (p : DbPin) : Bool :=
  match p.dpnode with
  | some nid => strTruthy nid && (db.wnodes.map DbNode.dnid).contains nid
  | none => false


/-- A document with one matching-connected pin, one pin with absent
`nodeId` and one pin with a dangling `nodeId` (for the C10 witness). -/
def c10db : WireLangDb :=
  ⟨"wirelang-db@v1", "W",
    [⟨"resistor_1", "resistor", some "R1",
      [("value", JVal.num 1), ("unit", JVal.str "Ω")],
      [⟨"pin_1", "1", none, some "node_1"⟩, ⟨"pin_2", "2", none, none⟩,
        ⟨"pin_3", "3", none, some "node_ghost"⟩], none⟩],
    [⟨"node_1", none, false⟩]⟩


/-- Is `p` a pin of one of the listed components (scan as `mergeGrounds`
does)? -/
def pinInComps (s : CState) (cs : List Nat) (p : Nat) : Bool :=
  cs.any (fun c =>
    match s.comps.get? c with
    | some cr => cr.cpins.contains p
    | none => false)

/-- Erase each of `xs` (first occurrence) from `l`, in order. -/
def eraseAll (l : List Nat) (xs : List Nat) : List Nat :=
  xs.foldl List.erase l

def remapB (b : Option Nat) (ms : List Nat) (n0 : Nat) : Option Nat :=
  match b with
  | some n => if n ∈ ms then some n0 else some n
  | none => none

def groundsBound (st : CState) : List Nat → List Nat → Bool
  | [], [] => true
  | g :: gs, n :: ns =>
    (match st.comps.get? g with
     | some cg =>
       match cg.cpins.get? 0 with
       | some pg => bindingOf st pg == some n
       | none => false
     | none => false) && groundsBound st gs ns
  | _, _ => false

def c3St : CState :=
  ⟨[⟨"pin_1", "gnd", none, some 0, some 0⟩,
    ⟨"pin_2", "gnd", none, some 1, some 1⟩,
    ⟨"pin_3", "1", none, some 1, some 2⟩,
    ⟨"pin_4", "2", none, some 0, some 2⟩],
  [⟨"node_1", none⟩, ⟨"node_2", none⟩],
  [⟨"ground_1", "ground", "GND1", [], [0], []⟩,
    ⟨"ground_2", "ground", "GND2", [], [1], []⟩,
    ⟨"resistor_3", "resistor", "R1", [], [2, 3], []⟩],
  []⟩

def c3Sc : Schematic := ⟨"c3", [0, 1, 2], [0, 1], none⟩

def c3Sc1 : Schematic := ⟨"c3b", [2], [], none⟩

/-- The boundary pins `Series` binds, pair by pair: left (outgoing) pins
`as` against right (incoming) pins `bs`, in connection order. -/
def pairPins : List Nat → List Nat → List Nat
  | a :: as, b :: bs => a :: b :: pairPins as bs
  | _, _ => []

/-- No pin is a boundary pin of two distinct adjacent pairs (the two pins
of one pair may coincide). -/
def pairsDisj : List Nat → List Nat → Bool
  | a :: as, b :: bs =>
    (!(pairPins as bs).contains a) && (!(pairPins as bs).contains b) &&
    pairsDisj as bs
  | _, _ => true

/-- Series-terminal shape of the non-initial items: every one has a defined
incoming terminal (`fs`), every non-final one a defined outgoing terminal
(`ls`); `lOpt` is the final item's (possibly undefined) outgoing terminal. -/
def seriesTail (st : CState) : List Connectable → List Nat → List Nat →
    Option Nat → Bool
  | [it], [f], [], lOpt =>
    (match getTerminals st it with
     | Except.ok t => t.tfirst == some f && t.tlast == lOpt
     | Except.error _ => false)
  | it :: rest, f :: fs, l :: ls, lOpt =>
    (match getTerminals st it with
     | Except.ok t => t.tfirst == some f && t.tlast == some l
     | Except.error _ => false) && seriesTail st rest fs ls lOpt
  | _, _, _, _ => false

/-- Series-terminal shape of a whole item list: `fOpt` and `lOpt` are the
first item's incoming and the last item's outgoing terminals (either may be
undefined, e.g. `p2` of a trailing single-pin component), `ls`/`fs` the
defined outgoing/incoming terminals of the non-final/non-initial items. -/
def seriesShape (st : CState) : List Connectable → Option Nat → Option Nat →
    List Nat → List Nat → Bool
  | [it], fOpt, lOpt, [], [] =>
    (match getTerminals st it with
     | Except.ok t => t.tfirst == fOpt && t.tlast == lOpt
     | Except.error _ => false)
  | it :: rest, fOpt, lOpt, fs, l1 :: ls =>
    (match getTerminals st it with
     | Except.ok t => t.tfirst == fOpt && t.tlast == some l1
     | Except.error _ => false) && seriesTail st rest fs ls lOpt
  | _, _, _, _, _ => false

/-- The heap after one `Series` pair connection: fresh unnamed node, both
pair pins repointed to it. -/
def connSt (st : CState) (lp : Nat) (pr : PinRec) (f : Nat) (prf : PinRec) : CState :=
  ⟨(st.pins.set lp { pr with pnode := some st.nodes.length }).set f
      { prf with pnode := some st.nodes.length },
    st.nodes ++ [⟨"node_" ++ decRepr (st.nodes.length + 1), none⟩],
    st.comps, st.typeCounters⟩

/-- Pin shapes of a document component against a class pin-spec list. -/
def pinsShapeOK : List DbPin → List PinSpec → Bool
  | [], [] => true
  | p :: ps, s :: specs =>
    p.dpname == s.psname && p.dpdir == s.psdir && pinsShapeOK ps specs
  | _, _ => false

/-- The document-component shapes the embedded component classes produce
(params/extras bags and pin lists as built by the factory constructors). -/
def classOK (c : DbComponent) : Bool :=
  if c.dctype == "resistor" then
    c.dcparams == [("value", bagGet c.dcparams "value"), ("unit", JVal.str "Ω")] &&
    c.dcextras == none &&
    pinsShapeOK c.dcpins [⟨"1", none⟩, ⟨"2", none⟩]
  else if c.dctype == "capacitor" then
    c.dcparams == [("value", bagGet c.dcparams "value"), ("unit", JVal.str "F")] &&
    c.dcextras == none &&
    pinsShapeOK c.dcpins [⟨"1", none⟩, ⟨"2", none⟩]
  else if c.dctype == "inductor" then
    c.dcparams == [("value", bagGet c.dcparams "value"), ("unit", JVal.str "H")] &&
    c.dcextras == none &&
    pinsShapeOK c.dcpins [⟨"1", none⟩, ⟨"2", none⟩]
  else if c.dctype == "diode" then
    c.dcparams == [("value", bagGet c.dcparams "value"), ("unit", JVal.str "V")] &&
    c.dcextras == some [("forwardVoltage", bagGet c.dcparams "value"),
      ("maxCurrent", bagGet (c.dcextras.getD []) "maxCurrent"),
      ("partNumber", bagGet (c.dcextras.getD []) "partNumber")] &&
    !(isNullish (bagGet c.dcparams "value")) &&
    pinsShapeOK c.dcpins [⟨"anode", none⟩, ⟨"cathode", none⟩]
  else if c.dctype == "led" then
    c.dcparams == [("value", bagGet c.dcparams "value"), ("unit", JVal.str "V"),
      ("color", bagGet c.dcparams "color")] &&
    c.dcextras == some [("color", bagGet c.dcparams "color"),
      ("forwardVoltage", bagGet c.dcparams "value"),
      ("maxCurrent", bagGet (c.dcextras.getD []) "maxCurrent")] &&
    !(isNullish (bagGet c.dcparams "color")) &&
    !(isNullish (bagGet c.dcparams "value")) &&
    !(isNullish (bagGet (c.dcextras.getD []) "maxCurrent")) &&
    pinsShapeOK c.dcpins [⟨"anode", none⟩, ⟨"cathode", none⟩]
  else if c.dctype == "voltage_source" then
    (bagGet c.dcparams "sourceType" == JVal.str "dc" ||
      bagGet c.dcparams "sourceType" == JVal.str "ac") &&
    c.dcparams == [("value", bagGet c.dcparams "value"), ("unit", JVal.str "V"),
      ("sourceType", bagGet c.dcparams "sourceType")] &&
    c.dcextras == some [("voltage", bagGet c.dcparams "value"),
      ("sourceType", bagGet c.dcparams "sourceType"),
      ("frequency", bagGet (c.dcextras.getD []) "frequency")] &&
    (if bagGet c.dcparams "sourceType" == JVal.str "ac" then
      (match bagGet (c.dcextras.getD []) "frequency" with
       | JVal.num _ => true
       | _ => false)
    else bagGet (c.dcextras.getD []) "frequency" == JVal.undef) &&
    pinsShapeOK c.dcpins [⟨"positive", some PinDir.output⟩, ⟨"negative", some PinDir.input⟩]
  else if c.dctype == "current_source" then
    (bagGet c.dcparams "sourceType" == JVal.str "dc" ||
      bagGet c.dcparams "sourceType" == JVal.str "ac") &&
    c.dcparams == [("value", bagGet c.dcparams "value"), ("unit", JVal.str "A"),
      ("sourceType", bagGet c.dcparams "sourceType")] &&
    c.dcextras == some [("current", bagGet c.dcparams "value"),
      ("sourceType", bagGet c.dcparams "sourceType"),
      ("frequency", bagGet (c.dcextras.getD []) "frequency")] &&
    (if bagGet c.dcparams "sourceType" == JVal.str "ac" then
      (match bagGet (c.dcextras.getD []) "frequency" with
       | JVal.num _ => true
       | _ => false)
    else bagGet (c.dcextras.getD []) "frequency" == JVal.undef) &&
    pinsShapeOK c.dcpins [⟨"positive", some PinDir.output⟩, ⟨"negative", some PinDir.input⟩]
  else if c.dctype == "ground" then
    c.dcparams == [("value", JVal.num 0), ("unit", JVal.str "V")] &&
    c.dcextras == some [("_groundNode", JVal.null)] &&
    pinsShapeOK c.dcpins [⟨"gnd", none⟩]
  else if c.dctype == "power_rail" then
    c.dcparams == [("value", bagGet c.dcparams "value"), ("unit", JVal.str "V"),
      ("railName", bagGet c.dcparams "railName")] &&
    (match bagGet c.dcparams "railName" with
     | JVal.str _ => true
     | _ => false) &&
    c.dcextras == some [("voltage", bagGet c.dcparams "value"),
      ("railName", bagGet c.dcparams "railName")] &&
    pinsShapeOK c.dcpins [⟨"out", none⟩]
  else false

/-- A document pin reference is absent or a truthy id of a document node. -/
def dbPinOK (ids : List String) (p : DbPin) : Bool :=
  strTruthy p.dpid &&
  (match p.dpnode with
   | none => true
   | some nid => strTruthy nid && ids.contains nid)

def dbCompOK (ids : List String) (c : DbComponent) : Bool :=
  strTruthy c.dcid && optTruthy c.dclabel && classOK c &&
  c.dcpins.all (dbPinOK ids)

def dbNodeOK (n : DbNode) : Bool :=
  strTruthy n.dnid && !(n.dnid == "GND") && !(n.dnid == "0") &&
  (n.dnground == (match n.dnname with
    | some s => s == "GND" || s == "0"
    | none => false))

def distinctB : List String → Bool
  | [] => true
  | x :: xs => !(xs.contains x) && distinctB xs

/-- The invariants `compileDslToDb` documents carry when the source
container was assembled by the embedded component classes and topology
builders. -/
def dbWF (db : WireLangDb) : Bool :=
  db.wschema == "wirelang-db@v1" &&
  db.wcomps.all (dbCompOK (db.wnodes.map DbNode.dnid)) &&
  db.wnodes.all dbNodeOK &&
  distinctB (db.wnodes.map DbNode.dnid)

/-- The final pin records re-execution produces for one document component
(ids overridden, initially unconnected). -/
def revPins (c : DbComponent) (cref : Nat) : List PinRec :=
  c.dcpins.map (fun p => ⟨p.dpid, p.dpname, p.dpdir, none, some cref⟩)

/-- The final component record re-execution produces (id and label
overridden). -/
def revComp (c : DbComponent) (pinBase : Nat) : CompRec :=
  ⟨c.dcid, c.dctype, c.dclabel.getD "", c.dcparams,
    (List.range c.dcpins.length).map (· + pinBase), c.dcextras.getD []⟩

/-- One `applyPinIds` update on a pin record. -/
def pidUpd (pinIds : List (String × String)) (pr : PinRec) : PinRec :=
  match (pinIds.find? (fun e => e.1 == pr.pname)).map Prod.snd with
  | some tid => if strTruthy tid then { pr with pid := tid } else pr
  | none => pr

def revCompList : List DbComponent → Nat → List CompRec
  | [], _ => []
  | c :: rest, pinBase => revComp c pinBase :: revCompList rest (pinBase + c.dcpins.length)

def revPinList : List DbComponent → Nat → List PinRec
  | [], _ => []
  | c :: rest, cref => revPins c cref ++ revPinList rest (cref + 1)

/-- The pin records a factory call mints for one document component
(fresh ids, owner back-references set). -/
def revPins0 (c : DbComponent) (pinBase cref : Nat) : List PinRec :=
  (c.dcpins.map (fun p => (⟨p.dpname, p.dpdir⟩ : PinSpec))).enum.map
    (fun e => ⟨"pin_" ++ decRepr (pinBase + e.1 + 1), e.2.psname, e.2.psdir, none,
      some cref⟩)

/-- The component record a factory call mints (before identity overrides). -/
def revComp0 (c : DbComponent) (lbl : String) (cref pinBase : Nat) : CompRec :=
  ⟨c.dctype ++ "_" ++ decRepr (cref + 1), c.dctype, lbl, c.dcparams,
    (List.range (c.dcpins.map (fun p => (⟨p.dpname, p.dpdir⟩ : PinSpec))).length).map
      (· + pinBase),
    c.dcextras.getD []⟩

/-- The pin-index list a freshly minted component record carries. -/
def ps0of (c : DbComponent) (pinBase : Nat) : List Nat :=
  (List.range (c.dcpins.map (fun p => (⟨p.dpname, p.dpdir⟩ : PinSpec))).length).map
    (· + pinBase)

/-- The component record after the id and label overrides. -/
def revComp2 (c : DbComponent) (lab : String) (pinBase : Nat) : CompRec :=
  ⟨c.dcid, c.dctype, lab, c.dcparams, ps0of c pinBase, c.dcextras.getD []⟩

/-- The node name re-execution passes to `createNode`. -/
def nodeNameOf (n : DbNode) : String :=
  match n.dnname with
  | some s => s
  | none => n.dnid

/-- The node record as minted by `createNode` (before the identity override). -/
def revNode0 (n : DbNode) (idx : Nat) : NodeRec :=
  ⟨"node_" ++ decRepr (idx + 1), some (nodeNameOf n)⟩

/-- The node record after the id override. -/
def revNode (n : DbNode) : NodeRec :=
  ⟨n.dnid, some (nodeNameOf n)⟩

/-- The node-variable environment re-execution builds. -/
def nvarsOf : List DbNode → Nat → List (String × Nat)
  | [], _ => []
  | n :: rest, base => (n.dnid, base) :: nvarsOf rest (base + 1)

/-- The node reference a connection statement for one document pin resolves
to (absent when the pin is unbound, the id is falsy, or the id is not in
the node-variable environment). -/
def effNode (nvars : List (String × Nat)) (p : DbPin) : Option Nat :=
  match p.dpnode with
  | some nid => if strTruthy nid then lookupLast nvars nid else none
  | none => none

/-- The final pin record after the connection statements. -/
def connPin (nvars : List (String × Nat)) (cref : Nat) (p : DbPin) : PinRec :=
  ⟨p.dpid, p.dpname, p.dpdir, effNode nvars p, some cref⟩

/-- The final pin arena contents after all connection statements. -/
def revPinListC (nvars : List (String × Nat)) : List DbComponent → Nat → List PinRec
  | [], _ => []
  | c :: rest, cref => c.dcpins.map (connPin nvars cref) ++ revPinListC nvars rest (cref + 1)

/-- Total pin count of a document component list. -/
def pinCount : List DbComponent → Nat
  | [] => 0
  | c :: rest => c.dcpins.length + pinCount rest

/-- The pin record right after its connection statement ran. -/
def pSet (p : DbPin) (nr cref : Nat) : PinRec :=
  ⟨p.dpid, p.dpname, p.dpdir, some nr, some cref⟩

/-! # Theorems

Step lemmas first: each checks one heap-transforming call against its
literal snapshot, so that concrete scenario equations assemble by
rewriting instead of one monolithic reduction. -/

theorem dStep1 : DC 5 CState.empty = Except.ok (0, dSt1) := rfl

theorem dStep2 : R 330 dSt1 = Except.ok (1, dSt2) := rfl

theorem dStep3 : LEDstr "red" dSt2 = Except.ok (2, dSt3) := rfl

theorem dStep4 : GND dSt3 = Except.ok (3, dSt4) := rfl

theorem dStep5a :
    Series [Connectable.comp 0, Connectable.comp 1, Connectable.comp 2,
      Connectable.comp 3] dSt4 = Except.ok (demoResL, dSt5) := rfl

theorem dStep5b : applyToCircuit (Schematic.new "LED") demoResL = demoScMid := rfl

theorem dStep5c :
    autoConnectGrounds demoScMid dSt5 = Except.ok ((demoScL, demoAcgRes), demoStL) := rfl

theorem dStep5 :
    Circuit "LED" true [Connectable.comp 0, Connectable.comp 1, Connectable.comp 2,
      Connectable.comp 3] dSt4 = Except.ok (demoScL, demoStL) := by
  simp only [Circuit, bind_def, pure_def, dStep5a, dStep5b, dStep5c, if_true]

theorem demoRun_eq : demoRun = Except.ok (demoScL, demoStL) := by
  simp only [demoRun, bind_def, pure_def, dStep1, dStep2, dStep3, dStep4, dStep5]

theorem c2Step1 : R 100 CState.empty = Except.ok (0, c2St1) := rfl

theorem c2Step2 : newPin "x" none none c2St1 = Except.ok (2, c2St2) := rfl

theorem c2Step3 : R 200 c2St2 = Except.ok (1, c2St3) := rfl

theorem c2Step4 :
    Series [Connectable.comp 0, Connectable.pin 2, Connectable.comp 1] c2St3 =
      Except.ok (c2Res, c2StF) := rfl

theorem c2run_eq : c2run = Except.ok ((0, 2, 1, c2Res), c2StF) := by
  simp only [c2run, bind_def, pure_def, c2Step1, c2Step2, c2Step3, c2Step4]

/-- Claim C4: `Circuit("LED", DC(5), R(330), LED(RED), GND())` with default
options returns a container with exactly 4 components, whose `validate()`
result has no errors, and in which the DC source's `negative` pin is bound
to the same node object (node 2, `node_3`) as the ground component's single
pin. -/
theorem c4_led_circuit_scenario :
    demoRun = Except.ok (demoScL, demoStL) ∧
    demoScL.scomps.length = 4 ∧
    (Schematic.validate demoStL demoScL).errors.length = 0 ∧
    compTypeOf demoStL 0 = some "voltage_source" ∧
    compTypeOf demoStL 3 = some "ground" ∧
    demoDCneg = some 1 ∧
    demoGndPin = some 6 ∧
    bindingOf demoStL 1 = some 2 ∧
    bindingOf demoStL 6 = some 2 :=
  ⟨demoRun_eq, rfl, rfl, rfl, rfl, rfl, rfl, rfl, rfl⟩

/-- Claim C2, counterexample: in `Series(R(100), p, R(200))` with a raw pin
`p`, the first adjacent pair's two boundary pins do NOT end up bound to the
identical node object: the second pair rebinds the shared raw pin.  Here
pin 1 is `R1.p2` (left item's outgoing boundary), pin 2 is the raw pin
(right item's incoming boundary); after the call pin 1 is bound to node 0
but pin 2 to node 1. -/
theorem c2_counterexample :
    c2run = Except.ok ((0, 2, 1, c2Res), c2StF) ∧
    compP2 ((c2StF.comps.get? 0).getD default) = some 1 ∧
    bindingOf c2StF 1 = some 0 ∧
    bindingOf c2StF 2 = some 1 ∧
    bindingOf c2StF 1 ≠ bindingOf c2StF 2 :=
  ⟨c2run_eq, rfl, rfl, rfl, by decide⟩

/-- Claim C6: the ground component (`GND()`) has a single pin, and its
series terminals do NOT both resolve to that pin: `Ground` does not
override the base accessors, so `p1` is `pins[0]` but `p2` is `pins[1]`,
which does not exist (`undefined`).  The voltage-source half of the claim
holds: `p1` is the pin named `negative`, `p2` the pin named `positive`. -/
theorem c6_series_terminals :
    gndCompRec.ctype = "ground" ∧
    gndCompRec.cpins.length = 1 ∧
    compP1 gndCompRec = some 0 ∧
    compP2 gndCompRec = none ∧
    dcCompRec.ctype = "voltage_source" ∧
    compP1 dcCompRec = some 1 ∧
    (dcRunSt.pins.get? 1).map PinRec.pname = some "negative" ∧
    compP2 dcCompRec = some 0 ∧
    (dcRunSt.pins.get? 0).map PinRec.pname = some "positive" :=
  ⟨rfl, rfl, rfl, rfl, rfl, rfl, rfl, rfl, rfl⟩

/-- Claim C8, counterexample: a diode record whose only part-specific extra
is a `partNumber` is NOT emitted as the terse `D("1N4148")` when its base
params carry a primary `value` (which every compiled diode record does):
the value flows into `forwardVoltage` and forces the object form. -/
theorem c8_counterexample :
    c8diode.dcextras = some [("partNumber", JVal.str "1N4148")] ∧
    buildComponentExpression c8diode =
      Except.ok ("D(\x7b forwardVoltage: 1, partNumber: \"1N4148\" \x7d)", ["D"]) ∧
    (∀ imports, buildComponentExpression c8diode ≠ Except.ok ("D(\"1N4148\")", imports)) :=
  ⟨rfl, rfl, by
    intro imports h
    have e : buildComponentExpression c8diode =
        Except.ok ("D(\x7b forwardVoltage: 1, partNumber: \"1N4148\" \x7d)", ["D"]) := rfl
    rw [e] at h
    have hs : "D(\x7b forwardVoltage: 1, partNumber: \"1N4148\" \x7d)" = "D(\"1N4148\")" :=
      congrArg Prod.fst (Except.ok.inj h)
    exact absurd hs (by decide)⟩

theorem bagGet_nil (k : String) : bagGet [] k = JVal.undef := rfl

theorem bagGet_cons (k k' : String) (v : JVal) (t : Bag) :
    bagGet ((k, v) :: t) k' = if k == k' then v else bagGet t k' := by
  simp only [bagGet, List.find?]
  cases h : k == k' <;> simp [h]

/-- Claim C8, amended: a diode record is emitted as the terse
`D("<partNumber>")` exactly when it has a `partNumber` extra and carries
neither a `forwardVoltage` extra, nor a base `params.value`, nor a
`maxCurrent` extra; with a `partNumber` plus any of those additional
fields it is emitted in the object form. -/
theorem c8_amended (c : DbComponent) (h : c.dctype = "diode") :
    (isDef (bagGet (c.dcextras.getD []) "forwardVoltage") = false →
     isDef (bagGet c.dcparams "value") = false →
     isDef (bagGet (c.dcextras.getD []) "maxCurrent") = false →
     isDef (bagGet (c.dcextras.getD []) "partNumber") = true →
     buildComponentExpression c =
       Except.ok ("D(" ++ toLiteral (bagGet (c.dcextras.getD []) "partNumber") ++ ")", ["D"])) ∧
    (isDef (bagGet (c.dcextras.getD []) "partNumber") = true →
     (isDef (bagGet (c.dcextras.getD []) "forwardVoltage") = true ∨
      isDef (bagGet c.dcparams "value") = true ∨
      isDef (bagGet (c.dcextras.getD []) "maxCurrent") = true) →
     buildComponentExpression c =
       Except.ok ("D(" ++ toObjectLiteral (diodeRevParams c.dcparams (c.dcextras.getD [])) ++ ")",
         ["D"])) := by
  constructor
  · intro h1 h2 h3 h4
    simp +decide [buildComponentExpression, h, diodeRevParams, h1, h2, h3, h4, bagGet_cons, h4]
  · intro hpn hdisj
    cases hfv : isDef (bagGet (c.dcextras.getD []) "forwardVoltage") <;>
      cases hval : isDef (bagGet c.dcparams "value") <;>
        cases hmc : isDef (bagGet (c.dcextras.getD []) "maxCurrent") <;>
          simp_all +decide [buildComponentExpression, diodeRevParams, bagGet_cons]

theorem build_unsupported (c : DbComponent) (h : c.dctype ∉ supportedTags) :
    ∃ e, buildComponentExpression c = Except.error e := by
  unfold buildComponentExpression
  split
  all_goals first
    | exact ⟨_, rfl⟩
    | (rename_i heq; exact absurd (heq ▸ (by decide : _ ∈ supportedTags)) h)

theorem ebind_error {α β : Type} (e : String) (f : α → Except String β) :
    (Except.error e >>= f) = Except.error e := rfl

theorem ebind_ok {α β : Type} (a : α) (f : α → Except String β) :
    (Except.ok a >>= f) = f a := rfl

theorem compVarsGo_err (comps : List DbComponent) :
    ∀ used vars imports, (∃ c ∈ comps, c.dctype ∉ supportedTags) →
    ∃ e, compVarsGo comps used vars imports = Except.error e := by
  induction comps with
  | nil => intro _ _ _ h; exact absurd h (by simp)
  | cons c rest ih =>
    intro used vars imports h
    rcases h with ⟨c', hc', hbad⟩
    rcases List.mem_cons.mp hc' with rfl | hmem
    · rcases build_unsupported c' hbad with ⟨e, he⟩
      exact ⟨e, by simp [compVarsGo, he, ebind_error]⟩
    · cases hb : buildComponentExpression c with
      | error e => exact ⟨e, by simp [compVarsGo, hb, ebind_error]⟩
      | ok r =>
        simp only [compVarsGo, hb, ebind_ok]
        exact ih _ _ _ ⟨c', hmem, hbad⟩

theorem reverseLines_err (db : WireLangDb) (opts : DbOpts)
    (h : ∃ c ∈ db.wcomps, c.dctype ∉ supportedTags) :
    ∃ e, reverseLines db opts = Except.error e := by
  rcases compVarsGo_err db.wcomps [] []
    (addImports ["createSchematic"]
      (if opts.preserveIds.getD true then
        ["applyComponentIdentity", "applyNodeIdentity"] else [])) h with ⟨e, he⟩
  exact ⟨e, by simp [reverseLines, he, ebind_error]⟩

/-- Claim C7: zero-item `Series` and `Parallel`, `junction` with fewer
than two pins, and `reverseDbToDsl` on a document containing a component
record with an unrecognized variant tag each raise an error immediately;
no partial result is returned (the `Except` carries only the error). -/
theorem c7_construction_failures :
    (∀ st, Series [] st = Except.error "Series requires at least one component") ∧
    (∀ st, Parallel [] st = Except.error "Parallel requires at least one component") ∧
    (∀ (pinsL : List Nat) st, pinsL.length < 2 →
      junction pinsL st = Except.error "Junction requires at least two pins") ∧
    (∀ db opts, (∃ c ∈ db.wcomps, c.dctype ∉ supportedTags) →
      ∃ e, reverseDbToDsl db opts = Except.error e) := by
  refine ⟨fun st => rfl, fun st => rfl, ?_, ?_⟩
  · intro pinsL st h
    simp [junction, if_pos h, mthrow]
  · intro db opts h
    rcases reverseLines_err db opts h with ⟨e, he⟩
    exact ⟨e, by simp [reverseDbToDsl, he, Except.map]⟩

/-- Witness for C7 at concrete inputs. -/
theorem c7_construction_failures_witness :
    (junction [5] CState.empty = Except.error "Junction requires at least two pins") ∧
    (∃ e, reverseDbToDsl badTagDb defaultOpts = Except.error e) :=
  ⟨c7_construction_failures.2.2.1 [5] CState.empty (by decide),
   c7_construction_failures.2.2.2 badTagDb defaultOpts ⟨badTagDb.wcomps.head (by decide), by decide, by decide⟩⟩

/-- Witness for the amended C8 at concrete records: the bare record takes
the terse form, the one with a primary value the object form. -/
theorem c8_amended_witness :
    buildComponentExpression c8diodeBare = Except.ok ("D(\"1N4148\")", ["D"]) ∧
    buildComponentExpression c8diode =
      Except.ok ("D(\x7b forwardVoltage: 1, partNumber: \"1N4148\" \x7d)", ["D"]) :=
  ⟨(c8_amended c8diodeBare rfl).1 rfl rfl rfl rfl,
   (c8_amended c8diode rfl).2 rfl (Or.inr (Or.inl rfl))⟩

theorem lookupLast_isSome {β : Type} (l : List (String × β)) (k : String) :
    (lookupLast l k).isSome ↔ k ∈ l.map Prod.fst := by
  unfold lookupLast
  cases h : l.reverse.find? (fun e => e.1 == k) with
  | none =>
    have hnone := List.find?_eq_none.mp h
    simp only [Option.isSome_none, Bool.false_eq_true, false_iff]
    intro hk
    rcases List.mem_map.mp hk with ⟨e, he, rfl⟩
    exact absurd (by simp) (hnone e (List.mem_reverse.mpr he))
  | some e =>
    simp only [Option.isSome_some, true_iff]
    have hp := List.find?_some h
    have hmem := List.mem_reverse.mp (List.mem_of_find?_eq_some h)
    exact List.mem_map.mpr ⟨e, hmem, by simpa using hp⟩

theorem nodeVarsGo_keys (ns : List DbNode) :
    ∀ used vars, (nodeVarsGo ns used vars).2.map Prod.fst =
      vars.map Prod.fst ++ ns.map DbNode.dnid := by
  induction ns with
  | nil => intro used vars; simp [nodeVarsGo]
  | cons n rest ih =>
    intro used vars
    simp [nodeVarsGo, ih]

theorem compVarsGo_ok (comps : List DbComponent)
    (hb : ∀ c ∈ comps, ∃ r, buildComponentExpression c = Except.ok r) :
    ∀ used vars imports, ∃ out, compVarsGo comps used vars imports = Except.ok out := by
  induction comps with
  | nil => intro used vars imports; exact ⟨_, rfl⟩
  | cons c rest ih =>
    intro used vars imports
    rcases hb c (by simp) with ⟨r, hr⟩
    have ih' := ih (fun c' hc' => hb c' (by simp [hc']))
    rcases ih' (toSafeIdentifier (match c.dclabel with
      | some l => l
      | none => c.dcid) "component" used).2
      (vars ++ [(c.dcid, (toSafeIdentifier (match c.dclabel with
        | some l => l
        | none => c.dcid) "component" used).1)])
      (addImports imports r.2) with ⟨out, hout⟩
    simp only [compVarsGo, hr, ebind_ok, hout]
    exact ⟨_, rfl⟩

theorem compLinesGo_ok (pids : Bool) (vars : List (String × String))
    (comps : List DbComponent)
    (hb : ∀ c ∈ comps, ∃ r, buildComponentExpression c = Except.ok r) :
    ∃ out, compLinesGo pids vars comps = Except.ok out := by
  induction comps with
  | nil => exact ⟨_, rfl⟩
  | cons c rest ih =>
    rcases hb c (by simp) with ⟨r, hr⟩
    rcases ih (fun c' hc' => hb c' (by simp [hc'])) with ⟨out, hout⟩
    simp only [compLinesGo, hr, ebind_ok, hout]
    exact ⟨_, rfl⟩

theorem reverseLines_ok (db : WireLangDb) (opts : DbOpts)
    (hb : ∀ c ∈ db.wcomps, ∃ r, buildComponentExpression c = Except.ok r) :
    ∃ lines, reverseLines db opts = Except.ok lines := by
  rcases compVarsGo_ok db.wcomps hb [] []
    (addImports ["createSchematic"]
      (if opts.preserveIds.getD true then
        ["applyComponentIdentity", "applyNodeIdentity"] else [])) with ⟨out, hout⟩
  rcases compLinesGo_ok (opts.preserveIds.getD true) out.2.1 db.wcomps hb with ⟨ls, hls⟩
  simp only [reverseLines, hout, hls, ebind_ok]
  exact ⟨_, rfl⟩

/-- Claim C10: the reverse transform emits no connection statement for a
pin record whose `nodeId` is absent (or falsy), and silently emits none —
with no error raised — for a pin whose `nodeId` matches no node record id;
such pins are left unconnected in the regenerated source.  The node
variable map is keyed exactly by the document's node ids. -/
theorem c10_reverse_skips_unconnected (db : WireLangDb) (opts : DbOpts)
    (hb : ∀ c ∈ db.wcomps, ∃ r, buildComponentExpression c = Except.ok r) :
    (∃ text, reverseDbToDsl db opts = Except.ok text) ∧
    (∀ used, ((nodeVarsGo db.wnodes used []).2.map Prod.fst) =
      db.wnodes.map DbNode.dnid) ∧
    (∀ nvars compVar p, nvars.map Prod.fst = db.wnodes.map DbNode.dnid →
      (pinConnectLine nvars compVar p = [] ↔ pinEmitsConnect db p = false)) := by
  refine ⟨?_, ?_, ?_⟩
  · rcases reverseLines_ok db opts hb with ⟨lines, hl⟩
    simp only [reverseDbToDsl, hl, Except.map]
    exact ⟨_, rfl⟩
  · intro used; simpa using nodeVarsGo_keys db.wnodes used []
  · intro nvars compVar p hkeys
    cases hn : p.dpnode with
    | none => simp [pinConnectLine, pinEmitsConnect, hn]
    | some nid =>
      cases ht : strTruthy nid with
      | false => simp [pinConnectLine, pinEmitsConnect, hn, ht]
      | true =>
        cases hl : lookupLast nvars nid with
        | none =>
          have : ¬ nid ∈ db.wnodes.map DbNode.dnid := by
            rw [← hkeys]
            intro hmem
            have := (lookupLast_isSome nvars nid).mpr hmem
            rw [hl] at this
            exact absurd this (by simp)
          simp only [pinConnectLine, pinEmitsConnect, hn, ht, hl, Bool.true_and]
          simp
          intro x hx heq
          exact this (List.mem_map.mpr ⟨x, hx, heq⟩)
        | some nodeVar =>
          have hmem : nid ∈ db.wnodes.map DbNode.dnid := by
            rw [← hkeys]
            exact (lookupLast_isSome nvars nid).mp (by simp [hl])
          simp only [pinConnectLine, pinEmitsConnect, hn, ht, hl, Bool.true_and]
          simp
          rcases List.mem_map.mp hmem with ⟨x, hx, heq⟩
          exact ⟨x, hx, heq⟩

/-- Witness for C10: a document whose single resistor has one matching
pin, one pin with no `nodeId`, and one pin with a dangling `nodeId`. -/
theorem c10_witness :
    (∃ text, reverseDbToDsl c10db defaultOpts = Except.ok text) ∧
    pinConnectLine [("node_1", "node_node_1")] "R1" ⟨"pin_2", "2", none, none⟩ = [] ∧
    pinConnectLine [("node_1", "node_node_1")] "R1"
      ⟨"pin_3", "3", none, some "node_ghost"⟩ = [] := by
  have h := c10_reverse_skips_unconnected c10db defaultOpts
    (by intro c hc; simp [c10db] at hc; subst hc; exact ⟨_, rfl⟩)
  refine ⟨h.1, ?_, ?_⟩
  · exact (h.2.2 [("node_1", "node_node_1")] "R1" ⟨"pin_2", "2", none, none⟩
      (by decide)).mpr (by decide)
  · exact (h.2.2 [("node_1", "node_node_1")] "R1" ⟨"pin_3", "3", none, some "node_ghost"⟩
      (by decide)).mpr (by decide)

theorem connectTo_spec (p n : Nat) (st st' : CState)
    (h : connectTo p n st = Except.ok ((), st')) :
    bindingOf st' p = some n ∧
    (∀ q, q ≠ p → bindingOf st' q = bindingOf st q) ∧
    st'.nodes = st.nodes ∧ st'.comps = st.comps ∧
    st'.typeCounters = st.typeCounters ∧
    st'.pins.length = st.pins.length ∧
    (∀ q, (st'.pins.get? q).map PinRec.pname = (st.pins.get? q).map PinRec.pname) := by
  unfold connectTo at h
  cases hp : st.pins.get? p with
  | none => rw [hp] at h; cases h
  | some pr =>
    rw [hp] at h
    injection h with h1
    injection h1 with _ h2
    subst h2
    have hlt : p < st.pins.length := (List.get?_eq_some.mp hp).1
    refine ⟨?_, ?_, rfl, rfl, rfl, by simp, ?_⟩
    · simp [bindingOf, List.getElem?_set_eq_of_lt _ hlt]
    · intro q hq
      simp [bindingOf, List.getElem?_set_ne (fun hh => hq hh.symm)]
    · intro q
      by_cases hq : q = p
      · subst hq
        simp [List.getElem?_set_eq_of_lt _ hlt, List.get?_eq_getElem? ] at hp ⊢
        simp [hp]
      · simp [List.getElem?_set_ne (fun hh => hq hh.symm)]


theorem pinConnected_eq (s : CState) (p : Nat) :
    pinConnected s p = (bindingOf s p).isSome := by
  unfold pinConnected bindingOf
  cases s.pins.get? p <;> simp

theorem acgLoop_spec (sources : List Nat) :
    ∀ (gnd : Nat) (acc : List Nat) (st : CState) (out : List Nat) (st' : CState),
    acgLoop sources gnd acc st = Except.ok (out, st') →
    ∃ newly, out = acc ++ newly ∧
      (∀ p ∈ newly, bindingOf st p = none ∧ bindingOf st' p = some gnd) ∧
      (∀ p, p ∉ newly → bindingOf st' p = bindingOf st p) ∧
      st'.nodes = st.nodes ∧ st'.comps = st.comps ∧
      st'.typeCounters = st.typeCounters := by
  induction sources with
  | nil =>
    intro gnd acc st out st' h
    simp only [acgLoop, pure_def] at h
    injection h with h1
    injection h1 with h2 h3
    subst h3
    exact ⟨[], by simp [← h2], by simp, by simp, rfl, rfl, rfl⟩
  | cons c rest ih =>
    intro gnd acc st out st' h
    simp only [acgLoop, bind_def, getS] at h
    cases hc : st.comps.get? c with
    | none =>
      simp only [hc] at h
      exact ih gnd acc st out st' h
    | some cr =>
      simp only [hc] at h
      cases hf : findPinNamed st cr "negative" with
      | none =>
        simp only [hf] at h
        exact ih gnd acc st out st' h
      | some np =>
        simp only [hf] at h
        cases hcon : pinConnected st np with
        | true =>
          simp only [hcon, Bool.not_true, Bool.false_eq_true, if_false] at h
          exact ih gnd acc st out st' h
        | false =>
          simp only [hcon, Bool.not_false, if_true] at h
          rw [bind_def] at h
          cases hct : connectTo np gnd st with
          | error e => rw [hct] at h; cases h
          | ok r =>
            obtain ⟨u, st1⟩ := r
            cases u
            rw [hct] at h
            rcases ih gnd (acc ++ [np]) st1 out st' h with
              ⟨newly, hout, hnew, hframe, hn, hcm, htc⟩
            rcases connectTo_spec np gnd st st1 hct with
              ⟨hb1, hfr1, hn1, hcm1, htc1, _, _⟩
            have hnp_st : bindingOf st np = none := by
              have := pinConnected_eq st np
              rw [hcon] at this
              cases hbnp : bindingOf st np with
              | none => rfl
              | some x => rw [hbnp] at this; simp at this
            refine ⟨np :: newly, by simpa using hout, ?_, ?_, by rw [hn, hn1],
              by rw [hcm, hcm1], by rw [htc, htc1]⟩
            · intro p hp
              rcases List.mem_cons.mp hp with rfl | hp'
              · constructor
                · exact hnp_st
                · by_cases hpn : p ∈ newly
                  · exact (hnew p hpn).2
                  · rw [hframe p hpn]; exact hb1
              · constructor
                · have h1 := (hnew p hp').1
                  by_cases hpe : p = np
                  · subst hpe; exact hnp_st
                  · rw [hfr1 p hpe] at h1; exact h1
                · exact (hnew p hp').2
            · intro p hp
              have hp1 : p ∉ newly := fun hh => hp (List.mem_cons.mpr (Or.inr hh))
              have hp2 : p ≠ np := fun hh => hp (hh ▸ List.mem_cons_self _ _)
              rw [hframe p hp1, hfr1 p hp2]


theorem groundComps_congr (s1 s2 : CState) (h : s1.comps = s2.comps) (sc : Schematic) :
    groundComps s1 sc = groundComps s2 sc := by
  simp [groundComps, compTypeOf, h]

theorem acg_connects_to_first_ground (sc : Schematic) (st : CState)
    (sc' : Schematic) (res : AcgResult) (st' : CState)
    (h : autoConnectGrounds sc st = Except.ok ((sc', res), st'))
    (hw : res.warnings = []) :
    ∃ gnd, (firstGroundPin st' sc').bind (bindingOf st') = some gnd ∧
      ∀ p ∈ res.connected, bindingOf st' p = some gnd := by
  unfold autoConnectGrounds at h
  rw [bind_def] at h
  cases hm : mergeGrounds sc st with
  | error e => rw [hm] at h; cases h
  | ok m =>
    obtain ⟨scm, stm⟩ := m
    simp only [hm, bind_def, getS] at h
    cases hg : groundComps stm scm with
    | nil =>
      simp only [hg] at h
      simp only [pure_def] at h
      injection h with h1
      injection h1 with h2 h3
      injection h2 with h4 h5
      rw [← h5] at hw
      simp at hw
    | cons g gs =>
      simp only [hg] at h
      cases hcr : stm.comps.get? g with
      | none => simp only [hcr, mthrow] at h; cases h
      | some cr =>
        simp only [hcr] at h
        cases hgp : cr.cpins.get? 0 with
        | none => simp only [hgp, mthrow] at h; cases h
        | some gp =>
          simp only [hgp] at h
          cases hb : (stm.pins.get? gp).bind PinRec.pnode with
          | none =>
            simp only [hb, pure_def] at h
            injection h with h1
            injection h1 with h2 h3
            injection h2 with h4 h5
            rw [← h5] at hw
            simp at hw
          | some gndNode =>
            simp only [hb, bind_def] at h
            cases ha : acgLoop (List.filter (fun c =>
              compTypeOf stm c == some "voltage_source" ||
              compTypeOf stm c == some "current_source") scm.scomps) gndNode [] stm with
            | error e => rw [ha] at h; cases h
            | ok r =>
              obtain ⟨out, sta⟩ := r
              rw [ha] at h
              simp only [pure_def] at h
              injection h with h1
              injection h1 with h2 h3
              injection h2 with h4 h5
              subst h3 h4
              rcases acgLoop_spec _ _ _ _ _ _ ha with
                ⟨newly, hout, hnew, hframe, hn, hcm, htc⟩
              have hgpnot : gp ∉ newly := by
                intro hmem
                have := (hnew gp hmem).1
                rw [show bindingOf stm gp = some gndNode from hb] at this
                cases this
              refine ⟨gndNode, ?_, ?_⟩
              · have hgc : groundComps sta scm = g :: gs := by
                  rw [groundComps_congr sta stm hcm]; exact hg
                unfold firstGroundPin
                simp only [hgc, hcm, hcr, hgp, List.head?_cons, Option.bind_eq_bind,
                  Option.some_bind]
                rw [hframe gp hgpnot]
                exact hb
              · intro p hp
                rw [← h5] at hp
                simp only at hp
                rw [hout] at hp
                simp at hp
                exact (hnew p hp).2

/-- Claim C9 (implicit): the node `autoConnectGrounds` binds unconnected
source `negative` pins to is exactly the node the first ground component's
pin is already bound to; in the demo circuit that is the fresh unnamed
`Series` node (node 2, named `none`), whose `isGround()` is `false` —
ground-ness is carried by the ground-type component (there is no "no
ground reference" warning even though no node is named `GND`/`0`). -/
theorem c9_implicit_ground_node :
    (∀ sc st sc' res st', autoConnectGrounds sc st = Except.ok ((sc', res), st') →
      res.warnings = [] →
      ∃ gnd, (firstGroundPin st' sc').bind (bindingOf st') = some gnd ∧
        ∀ p ∈ res.connected, bindingOf st' p = some gnd) ∧
    firstGroundPin demoStL demoScL = some 6 ∧
    bindingOf demoStL 6 = some 2 ∧
    demoAcgRes.connected = [1] ∧
    bindingOf demoStL 1 = some 2 ∧
    nodeIsGround demoStL 2 = false ∧
    (demoStL.nodes.get? 2).map NodeRec.nname = some none ∧
    (Schematic.validate demoStL demoScL).warnings = [] :=
  ⟨acg_connects_to_first_ground, rfl, rfl, rfl, rfl, rfl, rfl, rfl⟩

/-- Witness for C9's universally quantified part, at the demo circuit. -/
theorem c9_witness :
    ∃ gnd, (firstGroundPin demoStL demoScL).bind (bindingOf demoStL) = some gnd ∧
      ∀ p ∈ demoAcgRes.connected, bindingOf demoStL p = some gnd :=
  c9_implicit_ground_node.1 demoScMid dSt5 demoScL demoAcgRes demoStL dStep5c rfl



theorem pinConnectedTo_eq (s : CState) (p n : Nat) :
    pinConnectedTo s p n = (bindingOf s p == some n) := by
  unfold pinConnectedTo bindingOf
  cases s.pins.get? p <;> simp

theorem disconnect_spec (p : Nat) (st st' : CState)
    (h : disconnect p st = Except.ok ((), st')) :
    bindingOf st' p = none ∧
    (∀ q, q ≠ p → bindingOf st' q = bindingOf st q) ∧
    st'.nodes = st.nodes ∧ st'.comps = st.comps ∧
    st'.typeCounters = st.typeCounters := by
  unfold disconnect at h
  cases hp : st.pins.get? p with
  | none => rw [hp] at h; cases h
  | some pr =>
    rw [hp] at h
    injection h with h1
    injection h1 with _ h2
    subst h2
    have hlt : p < st.pins.length := (List.get?_eq_some.mp hp).1
    refine ⟨?_, ?_, rfl, rfl, rfl⟩
    · simp [bindingOf, List.getElem?_set_eq_of_lt _ hlt]
    · intro q hq
      simp [bindingOf, List.getElem?_set_ne (fun hh => hq hh.symm)]

theorem disconnect_isSome (p : Nat) (st st' : CState)
    (h : disconnect p st = Except.ok ((), st')) :
    ∀ q, (st'.pins.get? q).isSome = (st.pins.get? q).isSome := by
  unfold disconnect at h
  cases hp : st.pins.get? p with
  | none => rw [hp] at h; cases h
  | some pr =>
    rw [hp] at h
    injection h with h1
    injection h1 with _ h2
    subst h2
    intro q
    have hlt : p < st.pins.length := (List.get?_eq_some.mp hp).1
    by_cases hq : q = p
    · subst hq
      simp [List.getElem?_set_eq_of_lt _ hlt, List.get?_eq_getElem? ] at hp ⊢
      simp [hp]
    · simp [List.getElem?_set_ne (fun hh => hq hh.symm)]

theorem repointPins_spec (ps : List Nat) :
    ∀ (oldN newN : Nat) (st : CState), ∃ st',
    repointPins ps oldN newN st = Except.ok ((), st') ∧
    (∀ q, bindingOf st' q =
      if q ∈ ps ∧ bindingOf st q = some oldN then some newN else bindingOf st q) ∧
    st'.nodes = st.nodes ∧ st'.comps = st.comps ∧
    st'.typeCounters = st.typeCounters := by
  induction ps with
  | nil =>
    intro oldN newN st
    exact ⟨st, rfl, by simp, rfl, rfl, rfl⟩
  | cons p rest ih =>
    intro oldN newN st
    cases hct : pinConnectedTo st p oldN with
    | false =>
      rcases ih oldN newN st with ⟨st', h1, h2, h3, h4, h5⟩
      refine ⟨st', ?_, ?_, h3, h4, h5⟩
      · simp only [repointPins, bind_def, getS, hct, Bool.false_eq_true, if_false]
        exact h1
      · intro q
        rw [h2 q]
        have hne : bindingOf st p ≠ some oldN := by
          have := pinConnectedTo_eq st p oldN
          rw [hct] at this
          intro hb
          rw [hb] at this
          simp at this
        by_cases hq : q = p
        · subst hq
          simp only [List.mem_cons]
          rw [if_neg (fun hh => hne hh.2), if_neg (fun hh => hne hh.2)]
        · simp only [List.mem_cons]
          by_cases hm : q ∈ rest ∧ bindingOf st q = some oldN
          · rw [if_pos hm, if_pos ⟨Or.inr hm.1, hm.2⟩]
          · rw [if_neg hm, if_neg (fun hh => hm ⟨hh.1.resolve_left hq, hh.2⟩)]
    | true =>
      have hbp : bindingOf st p = some oldN := by
        have := pinConnectedTo_eq st p oldN
        rw [hct] at this
        exact beq_iff_eq.mp this.symm
      have hps : ∃ pr, st.pins.get? p = some pr := by
        unfold bindingOf at hbp
        cases hg : st.pins.get? p with
        | none => rw [hg] at hbp; cases hbp
        | some pr => exact ⟨pr, rfl⟩
      rcases hps with ⟨pr, hpr⟩
      have hd : ∃ st1, disconnect p st = Except.ok ((), st1) := by
        unfold disconnect
        rw [hpr]
        exact ⟨_, rfl⟩
      rcases hd with ⟨st1, hd⟩
      rcases disconnect_spec p st st1 hd with ⟨hd1, hd2, hd3, hd4, hd5⟩
      have hc : ∃ st2, connectTo p newN st1 = Except.ok ((), st2) := by
        unfold connectTo
        have hsome : (st1.pins.get? p).isSome = true := by
          rw [disconnect_isSome p st st1 hd p, hpr]
          rfl
        cases hg : st1.pins.get? p with
        | none => rw [hg] at hsome; cases hsome
        | some pr1 => exact ⟨_, rfl⟩
      rcases hc with ⟨st2, hc⟩
      rcases connectTo_spec p newN st1 st2 hc with ⟨hc1, hc2, hc3, hc4, hc5, _, _⟩
      rcases ih oldN newN st2 with ⟨st', h1, h2, h3, h4, h5⟩
      refine ⟨st', ?_, ?_, by rw [h3, hc3, hd3], by rw [h4, hc4, hd4], by rw [h5, hc5, hd5]⟩
      · simp only [repointPins, bind_def, getS, hct, if_true, hd, hc]
        exact h1
      · intro q
        rw [h2 q]
        by_cases hq : q = p
        · have hmem : q ∈ p :: rest := by rw [hq]; exact List.mem_cons_self _ _
          have hbq : bindingOf st q = some oldN := by rw [hq]; exact hbp
          conv_rhs => rw [if_pos ⟨hmem, hbq⟩]
          by_cases hm : q ∈ rest ∧ bindingOf st2 q = some oldN
          · rw [if_pos hm]
          · rw [if_neg hm]
            rw [hq]
            exact hc1
        · have hb2 : bindingOf st2 q = bindingOf st q := by
            rw [hc2 q hq, hd2 q hq]
          rw [hb2]
          simp only [List.mem_cons]
          by_cases hm : q ∈ rest ∧ bindingOf st q = some oldN
          · rw [if_pos hm, if_pos ⟨Or.inr hm.1, hm.2⟩]
          · rw [if_neg hm, if_neg (fun hh => hm ⟨hh.1.resolve_left hq, hh.2⟩)]

theorem pinInComps_congr (s1 s2 : CState) (h : s1.comps = s2.comps)
    (cs : List Nat) (p : Nat) : pinInComps s1 cs p = pinInComps s2 cs p := by
  simp [pinInComps, h]

theorem repointComps_spec (cs : List Nat) :
    ∀ (oldN newN : Nat) (st : CState), ∃ st',
    repointComps cs oldN newN st = Except.ok ((), st') ∧
    (∀ q, bindingOf st' q =
      if pinInComps st cs q ∧ bindingOf st q = some oldN then some newN
      else bindingOf st q) ∧
    st'.nodes = st.nodes ∧ st'.comps = st.comps ∧
    st'.typeCounters = st.typeCounters := by
  induction cs with
  | nil =>
    intro oldN newN st
    exact ⟨st, rfl, by simp [pinInComps], rfl, rfl, rfl⟩
  | cons c rest ih =>
    intro oldN newN st
    cases hc : st.comps.get? c with
    | none =>
      rcases ih oldN newN st with ⟨st', h1, h2, h3, h4, h5⟩
      refine ⟨st', ?_, ?_, h3, h4, h5⟩
      · simp only [repointComps, bind_def, getS, hc]
        exact h1
      · intro q
        rw [h2 q]
        have hcg : st.comps[c]? = none := by
          rw [← List.get?_eq_getElem? ]
          exact hc
        have hpic : pinInComps st (c :: rest) q = pinInComps st rest q := by
          simp [pinInComps, hcg]
        rw [hpic]
    | some cr =>
      rcases repointPins_spec cr.cpins oldN newN st with ⟨st1, hp1, hp2, hp3, hp4, hp5⟩
      rcases ih oldN newN st1 with ⟨st', h1, h2, h3, h4, h5⟩
      refine ⟨st', ?_, ?_, by rw [h3, hp3], by rw [h4, hp4], by rw [h5, hp5]⟩
      · simp only [repointComps, bind_def, getS, hc, hp1]
        exact h1
      · intro q
        rw [h2 q]
        conv_lhs => rw [hp2 q]
        have hpic : pinInComps st1 rest q = pinInComps st rest q :=
          pinInComps_congr st1 st hp4 rest q
        rw [hpic]
        have hcg : st.comps[c]? = some cr := by
          rw [← List.get?_eq_getElem? ]
          exact hc
        have hcons : pinInComps st (c :: rest) q = true ↔
            (q ∈ cr.cpins ∨ pinInComps st rest q = true) := by
          simp [pinInComps, hcg]
        by_cases hA : q ∈ cr.cpins ∧ bindingOf st q = some oldN
        · simp only [if_pos hA, ite_self]
          rw [if_pos ⟨hcons.mpr (Or.inl hA.1), hA.2⟩]
        · simp only [if_neg hA]
          by_cases hB : pinInComps st rest q = true ∧ bindingOf st q = some oldN
          · rw [if_pos hB, if_pos ⟨hcons.mpr (Or.inr hB.1), hB.2⟩]
          · rw [if_neg hB]
            by_cases hC : bindingOf st q = some oldN
            · have hq : ¬ q ∈ cr.cpins := fun hh => hA ⟨hh, hC⟩
              have hr : ¬ pinInComps st rest q = true := fun hh => hB ⟨hh, hC⟩
              rw [if_neg (fun hh => (hcons.mp hh.1).elim hq hr)]
            · rw [if_neg (fun hh => hC hh.2)]

theorem set_of_get? {α : Type} (l : List α) (i : Nat) (a : α)
    (h : l.get? i = some a) : l.set i a = l := by
  have hg : l[i]? = some a := by rw [← List.get?_eq_getElem? ]; exact h
  have hlt : i < l.length := (List.get?_eq_some.mp h).1
  apply List.ext_getElem?
  intro n
  by_cases hn : n = i
  · subst hn
    rw [List.getElem?_set_eq_of_lt _ hlt, hg]
  · rw [List.getElem?_set_ne (fun hh => hn hh.symm)]

theorem repointPins_same (ps : List Nat) : ∀ (n : Nat) (st : CState),
    repointPins ps n n st = Except.ok ((), st) := by
  induction ps with
  | nil => intro n st; rfl
  | cons p rest ih =>
    intro n st
    cases hct : pinConnectedTo st p n with
    | false =>
      simp only [repointPins, bind_def, getS, hct, Bool.false_eq_true, if_false, pure_def]
      exact ih n st
    | true =>
      have hpr : ∃ pr, st.pins.get? p = some pr ∧ pr.pnode = some n := by
        unfold pinConnectedTo at hct
        cases hg : st.pins.get? p with
        | none => rw [hg] at hct; cases hct
        | some pr =>
          rw [hg] at hct
          exact ⟨pr, rfl, beq_iff_eq.mp hct⟩
      rcases hpr with ⟨pr, hp, hb⟩
      have hlt : p < st.pins.length := (List.get?_eq_some.mp hp).1
      have hd : disconnect p st =
          Except.ok ((), { st with pins := st.pins.set p { pr with pnode := none } }) := by
        unfold disconnect
        simp only [hp]
      have hg1 : (st.pins.set p { pr with pnode := none }).get? p =
          some { pr with pnode := none } := by
        rw [List.get?_eq_getElem? ]
        exact List.getElem?_set_eq_of_lt _ hlt
      have hc : connectTo p n { st with pins := st.pins.set p { pr with pnode := none } } =
          Except.ok ((), st) := by
        unfold connectTo
        simp only [hg1]
        have hpins : (st.pins.set p { pr with pnode := none }).set p
            { pr with pnode := some n } = st.pins := by
          rw [List.set_set]
          have : ({ pr with pnode := some n } : PinRec) = pr := by
            cases pr
            simp_all
          rw [this]
          exact set_of_get? st.pins p pr hp
        rw [hpins]
      simp only [repointPins, bind_def, getS, hct, if_true, hd, hc]
      exact ih n st

theorem repointComps_same (cs : List Nat) : ∀ (n : Nat) (st : CState),
    repointComps cs n n st = Except.ok ((), st) := by
  induction cs with
  | nil => intro n st; rfl
  | cons c rest ih =>
    intro n st
    cases hc : st.comps.get? c with
    | none =>
      simp only [repointComps, bind_def, getS, hc, pure_def]
      exact ih n st
    | some cr =>
      simp only [repointComps, bind_def, getS, hc, repointPins_same]
      exact ih n st

theorem pinInComps_of_mem (s : CState) (cs : List Nat) (g : Nat) (cr : CompRec)
    (p : Nat) (hg : g ∈ cs) (hc : s.comps.get? g = some cr) (hp : p ∈ cr.cpins) :
    pinInComps s cs p = true := by
  simp only [pinInComps, List.any_eq_true]
  refine ⟨g, hg, ?_⟩
  simp only [hc]
  simpa using hp

theorem mergeOne_bound (sc : Schematic) (mN g : Nat) (st : CState) (cr : CompRec)
    (gp : Nat) (hc : st.comps.get? g = some cr) (hp : cr.cpins.get? 0 = some gp)
    (hb : bindingOf st gp = some mN) :
    mergeOne sc mN g st =
      Except.ok ({ sc with snodes := sc.snodes.erase mN }, st) := by
  have hb' : (st.pins.get? gp).bind PinRec.pnode = some mN := hb
  unfold mergeOne
  simp only [bind_def, getS, hc, hp, hb', repointComps_same, pure_def]

theorem mergeRest_bound (mN : Nat) (st : CState) : ∀ (gs : List Nat) (sc : Schematic),
    (∀ g ∈ gs, ∃ cr gp, st.comps.get? g = some cr ∧ cr.cpins.get? 0 = some gp ∧
      bindingOf st gp = some mN) →
    ∃ sc', mergeRest mN sc gs st = Except.ok (sc', st) ∧ sc'.scomps = sc.scomps := by
  intro gs
  induction gs with
  | nil => intro sc _; exact ⟨sc, rfl, rfl⟩
  | cons g rest ih =>
    intro sc hv
    rcases hv g (List.mem_cons_self g rest) with ⟨cr, gp, hc, hp, hb⟩
    rcases ih { sc with snodes := sc.snodes.erase mN }
        (fun g' hg' => hv g' (List.mem_cons_of_mem g hg')) with ⟨sc', h1, h2⟩
    refine ⟨sc', ?_, h2⟩
    simp only [mergeRest, bind_def, mergeOne_bound sc mN g st cr gp hc hp hb]
    exact h1

theorem mergeGrounds_stateid (sc : Schematic) (st : CState)
    (h : (groundComps st sc).length ≤ 1 ∨
      (∃ m rest cr mp, groundComps st sc = m :: rest ∧
        st.comps.get? m = some cr ∧ cr.cpins.get? 0 = some mp ∧
        (bindingOf st mp = none ∨
          (∃ N, bindingOf st mp = some N ∧
            ∀ g ∈ rest, ∃ cg pg, st.comps.get? g = some cg ∧
              cg.cpins.get? 0 = some pg ∧ bindingOf st pg = some N)))) :
    ∃ sc', mergeGrounds sc st = Except.ok (sc', st) ∧ sc'.scomps = sc.scomps := by
  by_cases hlen : (groundComps st sc).length ≤ 1
  · refine ⟨sc, ?_, rfl⟩
    simp only [mergeGrounds, bind_def, getS, if_pos hlen, pure_def]
  · rcases h with h | ⟨m, rest, cr, mp, hg, hc, hp, hb⟩
    · exact absurd h hlen
    · rcases hb with hb | ⟨N, hb, hrest⟩
      · have hb' : (st.pins.get? mp).bind PinRec.pnode = none := hb
        have hlen2 : ¬ ((m :: rest : List Nat).length ≤ 1) := hg ▸ hlen
        refine ⟨sc, ?_, rfl⟩
        simp only [mergeGrounds, bind_def, getS, hg, if_neg hlen2, hc, hp, hb', pure_def]
      · have hb' : (st.pins.get? mp).bind PinRec.pnode = some N := hb
        have hlen2 : ¬ ((m :: rest : List Nat).length ≤ 1) := hg ▸ hlen
        rcases mergeRest_bound N st rest sc hrest with ⟨sc', h1, h2⟩
        refine ⟨sc', ?_, h2⟩
        simp only [mergeGrounds, bind_def, getS, hg, if_neg hlen2, hc, hp, hb']
        exact h1

theorem mergeOne_post (sc : Schematic) (mN g : Nat) (st : CState)
    (sc' : Schematic) (st' : CState)
    (h : mergeOne sc mN g st = Except.ok (sc', st')) (hmem : g ∈ sc.scomps) :
    sc'.scomps = sc.scomps ∧ st'.comps = st.comps ∧ st'.nodes = st.nodes ∧
    st'.typeCounters = st.typeCounters ∧
    (∀ q, bindingOf st q = some mN → bindingOf st' q = some mN) ∧
    (∃ cr gp, st.comps.get? g = some cr ∧ cr.cpins.get? 0 = some gp ∧
      bindingOf st' gp = some mN) := by
  unfold mergeOne at h
  simp only [bind_def, getS] at h
  cases hc : st.comps.get? g with
  | none => rw [hc] at h; cases h
  | some cr =>
    simp only [hc] at h
    cases hp : cr.cpins.get? 0 with
    | none => rw [hp] at h; cases h
    | some gp =>
      simp only [hp] at h
      cases hb : (st.pins.get? gp).bind PinRec.pnode with
      | some oldNode =>
        simp only [hb, bind_def] at h
        rcases repointComps_spec sc.scomps oldNode mN st with ⟨st1, hr1, hr2, hr3, hr4, hr5⟩
        rw [hr1] at h
        simp only [pure_def] at h
        injection h with h1
        injection h1 with h2 h3
        subst h3
        have hgpmem : gp ∈ cr.cpins := List.get?_mem hp
        have hpic : pinInComps st sc.scomps gp = true :=
          pinInComps_of_mem st sc.scomps g cr gp hmem hc hgpmem
        refine ⟨by rw [← h2], hr4, hr3, hr5, ?_, cr, gp, rfl, hp, ?_⟩
        · intro q hq
          rw [hr2 q]
          by_cases hcond : pinInComps st sc.scomps q = true ∧ bindingOf st q = some oldNode
          · rw [if_pos hcond]
          · rw [if_neg hcond]
            exact hq
        · rw [hr2 gp]
          rw [if_pos ⟨hpic, hb⟩]
      | none =>
        simp only [hb, bind_def] at h
        cases hct : connectTo gp mN st with
        | error e => rw [hct] at h; cases h
        | ok u =>
          obtain ⟨u0, st1⟩ := u
          obtain ⟨⟩ := u0
          rw [hct] at h
          simp only [pure_def] at h
          injection h with h1
          injection h1 with h2 h3
          subst h3
          rcases connectTo_spec gp mN st st1 hct with ⟨hc1, hc2, hc3, hc4, hc5, _, _⟩
          refine ⟨by rw [← h2], hc4, hc3, hc5, ?_, cr, gp, rfl, hp, hc1⟩
          intro q hq
          by_cases hqp : q = gp
          · have hb2 : bindingOf st q = none := by rw [hqp]; exact hb
            rw [hq] at hb2
            cases hb2
          · rw [hc2 q hqp]
            exact hq

theorem mergeRest_post (mN : Nat) : ∀ (gs : List Nat) (sc : Schematic) (st : CState)
    (sc' : Schematic) (st' : CState),
    mergeRest mN sc gs st = Except.ok (sc', st') →
    (∀ g ∈ gs, g ∈ sc.scomps) →
    sc'.scomps = sc.scomps ∧ st'.comps = st.comps ∧ st'.nodes = st.nodes ∧
    st'.typeCounters = st.typeCounters ∧
    (∀ q, bindingOf st q = some mN → bindingOf st' q = some mN) ∧
    (∀ g ∈ gs, ∃ cr gp, st.comps.get? g = some cr ∧ cr.cpins.get? 0 = some gp ∧
      bindingOf st' gp = some mN) := by
  intro gs
  induction gs with
  | nil =>
    intro sc st sc' st' h _
    simp only [mergeRest, pure_def] at h
    injection h with h1
    injection h1 with h2 h3
    subst h3
    exact ⟨by rw [← h2], rfl, rfl, rfl, fun q hq => hq, fun g hg => absurd hg (by simp)⟩
  | cons g rest ih =>
    intro sc st sc' st' h hmem
    simp only [mergeRest, bind_def] at h
    cases hone : mergeOne sc mN g st with
    | error e => rw [hone] at h; cases h
    | ok m =>
      obtain ⟨sc1, st1⟩ := m
      rw [hone] at h
      rcases mergeOne_post sc mN g st sc1 st1 hone
          (hmem g (List.mem_cons_self g rest)) with ⟨ho1, ho2, ho3, ho4, ho5, cr, gp, hcg, hgp, hbg⟩
      rcases ih sc1 st1 sc' st' h
          (fun g' hg' => ho1 ▸ hmem g' (List.mem_cons_of_mem g hg')) with
        ⟨hi1, hi2, hi3, hi4, hi5, hi6⟩
      refine ⟨by rw [hi1, ho1], by rw [hi2, ho2], by rw [hi3, ho3], by rw [hi4, ho4],
        fun q hq => hi5 q (ho5 q hq), ?_⟩
      intro g' hg'
      rcases List.mem_cons.mp hg' with hg' | hg'
      · subst hg'
        exact ⟨cr, gp, hcg, hgp, hi5 gp hbg⟩
      · rcases hi6 g' hg' with ⟨cg, pg, hcg', hgp', hbg'⟩
        exact ⟨cg, pg, by rw [← ho2]; exact hcg', hgp', hbg'⟩

theorem groundComps_sub (s : CState) (sc : Schematic) (g : Nat)
    (h : g ∈ groundComps s sc) : g ∈ sc.scomps :=
  (List.mem_filter.mp h).1

theorem mergeGrounds_post (sc : Schematic) (st : CState) (sc' : Schematic) (st' : CState)
    (h : mergeGrounds sc st = Except.ok (sc', st')) :
    sc'.scomps = sc.scomps ∧ st'.comps = st.comps ∧ st'.nodes = st.nodes ∧
    st'.typeCounters = st.typeCounters ∧
    ((sc' = sc ∧ st' = st ∧
        ((groundComps st sc).length ≤ 1 ∨
          (∃ m rest cr mp, groundComps st sc = m :: rest ∧
            st.comps.get? m = some cr ∧ cr.cpins.get? 0 = some mp ∧
            bindingOf st mp = none))) ∨
      (∃ m rest cr mp N, groundComps st sc = m :: rest ∧
        st.comps.get? m = some cr ∧ cr.cpins.get? 0 = some mp ∧
        bindingOf st mp = some N ∧ bindingOf st' mp = some N ∧
        (∀ g ∈ rest, ∃ cg pg, st.comps.get? g = some cg ∧ cg.cpins.get? 0 = some pg ∧
          bindingOf st' pg = some N))) := by
  unfold mergeGrounds at h
  simp only [bind_def, getS] at h
  by_cases hlen : (groundComps st sc).length ≤ 1
  · rw [if_pos hlen] at h
    simp only [pure_def] at h
    injection h with h1
    injection h1 with h2 h3
    subst h3
    exact ⟨by rw [← h2], rfl, rfl, rfl, Or.inl ⟨h2.symm, rfl, Or.inl hlen⟩⟩
  · rw [if_neg hlen] at h
    cases hg : groundComps st sc with
    | nil => exact absurd (by rw [hg]; simp) hlen
    | cons m rest =>
      simp only [hg] at h
      cases hc : st.comps.get? m with
      | none => rw [hc] at h; cases h
      | some cr =>
        simp only [hc] at h
        cases hp : cr.cpins.get? 0 with
        | none => rw [hp] at h; cases h
        | some mp =>
          simp only [hp] at h
          cases hb : (st.pins.get? mp).bind PinRec.pnode with
          | none =>
            simp only [hb, pure_def] at h
            injection h with h1
            injection h1 with h2 h3
            subst h3
            exact ⟨by rw [← h2], rfl, rfl, rfl,
              Or.inl ⟨h2.symm, rfl, Or.inr ⟨m, rest, cr, mp, rfl, hc, hp, hb⟩⟩⟩
          | some N =>
            simp only [hb] at h
            have hmemr : ∀ g ∈ rest, g ∈ sc.scomps := by
              intro g hgr
              exact groundComps_sub st sc g (by rw [hg]; exact List.mem_cons_of_mem m hgr)
            rcases mergeRest_post N rest sc st sc' st' h hmemr with
              ⟨h1, h2, h3, h4, h5, h6⟩
            exact ⟨h1, h2, h3, h4, Or.inr ⟨m, rest, cr, mp, N, rfl, hc, hp, hb,
              h5 mp hb, h6⟩⟩

theorem acgLoop_mono (sources : List Nat) (gnd : Nat) (acc : List Nat) (st : CState)
    (out : List Nat) (st' : CState)
    (h : acgLoop sources gnd acc st = Except.ok (out, st')) :
    ∀ p x, bindingOf st p = some x → bindingOf st' p = some x := by
  rcases acgLoop_spec sources gnd acc st out st' h with
    ⟨newly, _, hnew, hpres, _, _, _⟩
  intro p x hp
  by_cases hmem : p ∈ newly
  · rcases hnew p hmem with ⟨hnone, _⟩
    rw [hp] at hnone
    cases hnone
  · rw [hpres p hmem]
    exact hp

theorem acgLoop_pname (sources : List Nat) :
    ∀ (gnd : Nat) (acc : List Nat) (st : CState) (out : List Nat) (st' : CState),
    acgLoop sources gnd acc st = Except.ok (out, st') →
    ∀ q, (st'.pins.get? q).map PinRec.pname = (st.pins.get? q).map PinRec.pname := by
  induction sources with
  | nil =>
    intro gnd acc st out st' h q
    simp only [acgLoop, pure_def] at h
    injection h with h1
    injection h1 with h2 h3
    subst h3
    rfl
  | cons c rest ih =>
    intro gnd acc st out st' h q
    simp only [acgLoop, bind_def, getS] at h
    cases hc : st.comps.get? c with
    | none =>
      simp only [hc] at h
      exact ih gnd acc st out st' h q
    | some cr =>
      simp only [hc] at h
      cases hf : findPinNamed st cr "negative" with
      | none =>
        simp only [hf] at h
        exact ih gnd acc st out st' h q
      | some np =>
        simp only [hf] at h
        cases hcon : pinConnected st np with
        | true =>
          simp only [hcon, Bool.not_true, Bool.false_eq_true, if_false] at h
          exact ih gnd acc st out st' h q
        | false =>
          simp only [hcon, Bool.not_false, if_true] at h
          rw [bind_def] at h
          cases hct : connectTo np gnd st with
          | error e => rw [hct] at h; cases h
          | ok r =>
            obtain ⟨u, st1⟩ := r
            cases u
            rw [hct] at h
            have h1 := ih gnd (acc ++ [np]) st1 out st' h q
            rcases connectTo_spec np gnd st st1 hct with ⟨_, _, _, _, _, _, hpn⟩
            rw [h1, hpn q]

theorem findPinNamed_congr (s1 s2 : CState) (cr : CompRec) (nm : String)
    (h : ∀ q, (s1.pins.get? q).map PinRec.pname = (s2.pins.get? q).map PinRec.pname) :
    findPinNamed s1 cr nm = findPinNamed s2 cr nm := by
  unfold findPinNamed
  have hfun : (fun p =>
      match s1.pins.get? p with
      | some pr => pr.pname == nm
      | none => false) = (fun p =>
      match s2.pins.get? p with
      | some pr => pr.pname == nm
      | none => false) := by
    funext p
    have hp := h p
    cases h1 : s1.pins.get? p with
    | none =>
      rw [h1] at hp
      cases h2 : s2.pins.get? p with
      | none => rfl
      | some pr2 => rw [h2] at hp; cases hp
    | some pr1 =>
      rw [h1] at hp
      cases h2 : s2.pins.get? p with
      | none => rw [h2] at hp; cases hp
      | some pr2 =>
        rw [h2] at hp
        injection hp with hp1
        simp only [hp1]
  rw [hfun]

theorem acgLoop_post (sources : List Nat) :
    ∀ (gnd : Nat) (acc : List Nat) (st : CState) (out : List Nat) (st' : CState),
    acgLoop sources gnd acc st = Except.ok (out, st') →
    ∀ c ∈ sources, ∀ cr, st'.comps.get? c = some cr →
      ∀ np, findPinNamed st' cr "negative" = some np → pinConnected st' np = true := by
  induction sources with
  | nil =>
    intro gnd acc st out st' _ c hmem
    exact absurd hmem (by simp)
  | cons c0 rest ih =>
    intro gnd acc st out st' h c hmem cr hcr np hnp
    simp only [acgLoop, bind_def, getS] at h
    cases hc : st.comps.get? c0 with
    | none =>
      simp only [hc] at h
      rcases List.mem_cons.mp hmem with hme | hme
      · subst hme
        rcases acgLoop_spec rest gnd acc st out st' h with ⟨_, _, _, _, _, hcm, _⟩
        rw [hcm, hc] at hcr
        cases hcr
      · exact ih gnd acc st out st' h c hme cr hcr np hnp
    | some cr0 =>
      simp only [hc] at h
      cases hf : findPinNamed st cr0 "negative" with
      | none =>
        simp only [hf] at h
        rcases List.mem_cons.mp hmem with hme | hme
        · subst hme
          rcases acgLoop_spec rest gnd acc st out st' h with ⟨_, _, _, _, _, hcm, _⟩
          rw [hcm, hc] at hcr
          injection hcr with hcr1
          subst hcr1
          have hnames := acgLoop_pname rest gnd acc st out st' h
          rw [findPinNamed_congr st' st cr0 "negative" hnames, hf] at hnp
          cases hnp
        · exact ih gnd acc st out st' h c hme cr hcr np hnp
      | some np0 =>
        simp only [hf] at h
        cases hcon : pinConnected st np0 with
        | true =>
          simp only [hcon, Bool.not_true, Bool.false_eq_true, if_false] at h
          rcases List.mem_cons.mp hmem with hme | hme
          · subst hme
            rcases acgLoop_spec rest gnd acc st out st' h with ⟨_, _, _, _, _, hcm, _⟩
            rw [hcm, hc] at hcr
            injection hcr with hcr1
            subst hcr1
            have hnames := acgLoop_pname rest gnd acc st out st' h
            rw [findPinNamed_congr st' st cr0 "negative" hnames, hf] at hnp
            injection hnp with hnp1
            subst hnp1
            have hsome : (bindingOf st np0).isSome = true := by
              rw [← pinConnected_eq]
              exact hcon
            cases hb : bindingOf st np0 with
            | none => rw [hb] at hsome; cases hsome
            | some x =>
              rw [pinConnected_eq]
              rw [acgLoop_mono rest gnd acc st out st' h np0 x hb]
              rfl
          · exact ih gnd acc st out st' h c hme cr hcr np hnp
        | false =>
          simp only [hcon, Bool.not_false, if_true] at h
          rw [bind_def] at h
          cases hct : connectTo np0 gnd st with
          | error e => rw [hct] at h; cases h
          | ok r =>
            obtain ⟨u, st1⟩ := r
            cases u
            rw [hct] at h
            rcases List.mem_cons.mp hmem with hme | hme
            · subst hme
              rcases acgLoop_spec rest gnd (acc ++ [np0]) st1 out st' h with
                ⟨_, _, _, _, _, hcm, _⟩
              rcases connectTo_spec np0 gnd st st1 hct with
                ⟨hb1, _, _, hcm1, _, _, hpn1⟩
              rw [hcm, hcm1, hc] at hcr
              injection hcr with hcr1
              subst hcr1
              have hnames := acgLoop_pname rest gnd (acc ++ [np0]) st1 out st' h
              have hnames2 : ∀ q, (st'.pins.get? q).map PinRec.pname =
                  (st.pins.get? q).map PinRec.pname := by
                intro q
                rw [hnames q, hpn1 q]
              rw [findPinNamed_congr st' st cr0 "negative" hnames2, hf] at hnp
              injection hnp with hnp1
              subst hnp1
              rw [pinConnected_eq]
              rw [acgLoop_mono rest gnd (acc ++ [np0]) st1 out st' h np0 gnd hb1]
              rfl
            · exact ih gnd (acc ++ [np0]) st1 out st' h c hme cr hcr np hnp

theorem acgLoop_noop (sources : List Nat) :
    ∀ (gnd : Nat) (acc : List Nat) (st : CState),
    (∀ c ∈ sources, ∀ cr, st.comps.get? c = some cr →
      ∀ np, findPinNamed st cr "negative" = some np → pinConnected st np = true) →
    acgLoop sources gnd acc st = Except.ok (acc, st) := by
  induction sources with
  | nil => intro gnd acc st _; rfl
  | cons c rest ih =>
    intro gnd acc st hskip
    rcases hc : st.comps.get? c with _ | cr
    · simp only [acgLoop, bind_def, getS, hc]
      exact ih gnd acc st (fun c' hm => hskip c' (List.mem_cons_of_mem c hm))
    · rcases hf : findPinNamed st cr "negative" with _ | np
      · simp only [acgLoop, bind_def, getS, hc, hf]
        exact ih gnd acc st (fun c' hm => hskip c' (List.mem_cons_of_mem c hm))
      · have hcon : pinConnected st np = true :=
          hskip c (List.mem_cons_self c rest) cr hc np hf
        simp only [acgLoop, bind_def, getS, hc, hf, hcon, Bool.not_true,
          Bool.false_eq_true, if_false]
        exact ih gnd acc st (fun c' hm => hskip c' (List.mem_cons_of_mem c hm))

theorem compTypeOf_congr (s1 s2 : CState) (h : s1.comps = s2.comps) (c : Nat) :
    compTypeOf s1 c = compTypeOf s2 c := by
  unfold compTypeOf
  rw [h]

theorem groundComps_scomps (s : CState) (sc1 sc2 : Schematic)
    (h : sc1.scomps = sc2.scomps) : groundComps s sc1 = groundComps s sc2 := by
  unfold groundComps
  rw [h]

/-- C5: `autoConnectGrounds()` is idempotent: a second invocation right after
a successful one leaves the heap (and so the connected-pin set) unchanged and
returns the same warning list. -/
theorem c5_autoConnectGrounds_idempotent (sc : Schematic) (st : CState)
    (sc1 : Schematic) (r1 : AcgResult) (st1 : CState)
    (h : autoConnectGrounds sc st = Except.ok ((sc1, r1), st1)) :
    ∃ sc2 r2, autoConnectGrounds sc1 st1 = Except.ok ((sc2, r2), st1) ∧
      r2.warnings = r1.warnings := by
  unfold autoConnectGrounds at h
  rw [bind_def] at h
  cases hm : mergeGrounds sc st with
  | error e => rw [hm] at h; cases h
  | ok m =>
    obtain ⟨scM, stM⟩ := m
    rw [hm] at h
    simp only [bind_def, getS] at h
    rcases mergeGrounds_post sc st scM stM hm with ⟨hP1, hP2, hP3, hP4, hdisj⟩
    rcases hg : groundComps stM scM with _ | ⟨g, grest⟩
    · simp only [hg, pure_def] at h
      injection h with h1
      injection h1 with h2 h3
      injection h2 with h4 h5
      subst h3
      subst h4
      subst h5
      rcases mergeGrounds_stateid scM stM (Or.inl (by rw [hg]; simp)) with
        ⟨sc2', hmg2, hs2⟩
      have hgc2 : groundComps stM sc2' = [] := by
        rw [groundComps_scomps stM sc2' scM hs2]
        exact hg
      refine ⟨sc2', ⟨[], ["No GND component found - cannot auto-connect source negatives"]⟩,
        ?_, rfl⟩
      simp only [autoConnectGrounds, bind_def, getS, hmg2, hgc2, pure_def]
    · simp only [hg] at h
      rcases hcg : stM.comps.get? g with _ | cr
      · rw [hcg] at h; cases h
      · simp only [hcg] at h
        rcases hgp : cr.cpins.get? 0 with _ | gp
        · rw [hgp] at h; cases h
        · simp only [hgp] at h
          rcases hbg : (stM.pins.get? gp).bind PinRec.pnode with _ | gndNode
          · simp only [hbg, pure_def] at h
            injection h with h1
            injection h1 with h2 h3
            injection h2 with h4 h5
            subst h3
            subst h4
            subst h5
            have hsid : ∃ sc', mergeGrounds scM stM = Except.ok (sc', stM) ∧
                sc'.scomps = scM.scomps := by
              apply mergeGrounds_stateid
              by_cases hlen : (groundComps stM scM).length ≤ 1
              · exact Or.inl hlen
              · exact Or.inr ⟨g, grest, cr, gp, hg, hcg, hgp, Or.inl hbg⟩
            rcases hsid with ⟨sc2', hmg2, hs2⟩
            have hgc2 : groundComps stM sc2' = g :: grest := by
              rw [groundComps_scomps stM sc2' scM hs2]
              exact hg
            refine ⟨sc2', ⟨[], ["GND component is not connected to any node"]⟩, ?_, rfl⟩
            simp only [autoConnectGrounds, bind_def, getS, hmg2, hgc2, hcg, hgp, hbg,
              pure_def]
          · simp only [hbg] at h
            rw [bind_def] at h
            cases hal : acgLoop (scM.scomps.filter (fun c =>
                compTypeOf stM c == some "voltage_source" ||
                compTypeOf stM c == some "current_source")) gndNode [] stM with
            | error e => rw [hal] at h; cases h
            | ok r =>
              obtain ⟨conn, stA⟩ := r
              rw [hal] at h
              simp only [pure_def] at h
              injection h with h1
              injection h1 with h2 h3
              injection h2 with h4 h5
              subst h3
              subst h4
              subst h5
              rcases acgLoop_spec _ gndNode [] stM conn stA hal with
                ⟨_, _, _, _, _, hAcomps, _⟩
              have hmono := acgLoop_mono _ gndNode [] stM conn stA hal
              have hskip := acgLoop_post _ gndNode [] stM conn stA hal
              have hgcA : groundComps stA scM = g :: grest := by
                rw [groundComps_congr stA stM hAcomps]
                exact hg
              have hcgA : stA.comps.get? g = some cr := by
                rw [hAcomps]
                exact hcg
              have hbA : (stA.pins.get? gp).bind PinRec.pnode = some gndNode :=
                hmono gp gndNode hbg
              have hsid : ∃ sc', mergeGrounds scM stA = Except.ok (sc', stA) ∧
                  sc'.scomps = scM.scomps := by
                apply mergeGrounds_stateid
                by_cases hlen : (groundComps stA scM).length ≤ 1
                · exact Or.inl hlen
                · refine Or.inr ⟨g, grest, cr, gp, hgcA, hcgA, hgp,
                    Or.inr ⟨gndNode, hbA, ?_⟩⟩
                  rcases hdisj with ⟨hsc, hst, hwhy⟩ | hmerged
                  · exfalso
                    rcases hwhy with hlen1 | ⟨m, rest, cr', mp', hgm, hcm, hpm, hbm⟩
                    · apply hlen
                      rw [hgcA, ← hg, hsc, hst]
                      exact hlen1
                    · have hgeq : groundComps stM scM = m :: rest := by
                        rw [hst, hsc]
                        exact hgm
                      rw [hg] at hgeq
                      injection hgeq with he1 he2
                      subst he1
                      have hcreq : some cr = some cr' := by
                        rw [← hcg, hst]
                        exact hcm
                      injection hcreq with hcreq
                      subst hcreq
                      have hmpeq : some gp = some mp' := by
                        rw [← hgp]
                        exact hpm
                      injection hmpeq with hmpeq
                      subst hmpeq
                      have hbm2 : bindingOf stM gp = none := by
                        rw [hst]
                        exact hbm
                      rw [show bindingOf stM gp = some gndNode from hbg] at hbm2
                      cases hbm2
                  · rcases hmerged with ⟨m, rest, cr', mp', N, hgm, hcm, hpm, hbm, hbm2, hrest⟩
                    have hgeq : groundComps stM scM = m :: rest := by
                      rw [groundComps_congr stM st hP2, groundComps_scomps st scM sc hP1]
                      exact hgm
                    rw [hg] at hgeq
                    injection hgeq with he1 he2
                    subst he1
                    subst he2
                    have hcreq : some cr = some cr' := by
                      rw [← hcg, hP2]
                      exact hcm
                    injection hcreq with hcreq
                    subst hcreq
                    have hmpeq : some gp = some mp' := by
                      rw [← hgp]
                      exact hpm
                    injection hmpeq with hmpeq
                    subst hmpeq
                    have hNeq : gndNode = N := by
                      apply Option.some.inj
                      rw [← hbm2]
                      exact (show bindingOf stM gp = some gndNode from hbg).symm
                    subst hNeq
                    intro g' hg'
                    rcases hrest g' hg' with ⟨cg, pg, hcg', hgp', hbg'⟩
                    refine ⟨cg, pg, ?_, hgp', hmono pg gndNode hbg'⟩
                    rw [hAcomps, hP2]
                    exact hcg'
              rcases hsid with ⟨sc2', hmg2, hs2⟩
              have hgc2 : groundComps stA sc2' = g :: grest := by
                rw [groundComps_scomps stA sc2' scM hs2]
                exact hgcA
              have hsrc : sc2'.scomps.filter (fun c =>
                  compTypeOf stA c == some "voltage_source" ||
                  compTypeOf stA c == some "current_source") =
                  scM.scomps.filter (fun c =>
                  compTypeOf stM c == some "voltage_source" ||
                  compTypeOf stM c == some "current_source") := by
                rw [hs2]
                apply List.filter_congr
                intro c _
                rw [compTypeOf_congr stA stM hAcomps]
              have hnoop : acgLoop (scM.scomps.filter (fun c =>
                  compTypeOf stM c == some "voltage_source" ||
                  compTypeOf stM c == some "current_source")) gndNode [] stA =
                  Except.ok ([], stA) := by
                apply acgLoop_noop
                exact hskip
              refine ⟨sc2', ⟨[], []⟩, ?_, rfl⟩
              simp only [autoConnectGrounds, bind_def, getS, hmg2, hgc2, hcgA, hgp,
                hbA, hsrc, hnoop, pure_def]

theorem c5_autoConnectGrounds_idempotent_witness :
    ∃ sc2 r2, autoConnectGrounds demoScL demoStL = Except.ok ((sc2, r2), demoStL) ∧
      r2.warnings = demoAcgRes.warnings :=
  c5_autoConnectGrounds_idempotent demoScMid dSt5 demoScL demoAcgRes demoStL rfl

theorem mem_of_mem_eraseAll : ∀ (xs l : List Nat) (a : Nat),
    a ∈ eraseAll l xs → a ∈ l := by
  intro xs
  induction xs with
  | nil => intro l a h; exact h
  | cons x xs ih =>
    intro l a h
    exact List.erase_subset x l (ih (l.erase x) a h)

theorem mem_eraseAll : ∀ (xs l : List Nat) (a : Nat),
    a ∈ l → a ∉ xs → a ∈ eraseAll l xs := by
  intro xs
  induction xs with
  | nil => intro l a h _; exact h
  | cons x xs ih =>
    intro l a h hna
    have hne : a ≠ x := fun hh => hna (hh ▸ List.mem_cons_self x xs)
    exact ih (l.erase x) a ((List.mem_erase_of_ne hne).mpr h)
      (fun hh => hna (List.mem_cons_of_mem x hh))

theorem not_mem_eraseAll : ∀ (xs l : List Nat), l.Nodup →
    ∀ n ∈ xs, n ∉ eraseAll l xs := by
  intro xs
  induction xs with
  | nil => intro l _ n hn; exact absurd hn (by simp)
  | cons x xs ih =>
    intro l hl n hn
    rcases List.mem_cons.mp hn with hn | hn
    · subst hn
      intro hmem
      have : n ∈ l.erase n := mem_of_mem_eraseAll xs (l.erase n) n hmem
      rw [hl.mem_erase_iff] at this
      exact this.1 rfl
    · exact ih (l.erase x) (hl.erase x) n hn

theorem mergeRest_merge (st0 : CState) (n0 : Nat) :
    ∀ (gs ns ms : List Nat) (sc : Schematic) (st : CState),
    groundsBound st0 gs ns = true →
    st.comps = st0.comps →
    (∀ q, pinInComps st0 sc.scomps q = true →
      bindingOf st q = remapB (bindingOf st0 q) ms n0) →
    (∀ q, pinInComps st0 sc.scomps q = false → bindingOf st q = bindingOf st0 q) →
    (∀ g ∈ gs, g ∈ sc.scomps) →
    (n0 :: (ms ++ ns)).Nodup →
    ∃ sc' st', mergeRest n0 sc gs st = Except.ok (sc', st') ∧
      st'.comps = st.comps ∧ st'.nodes = st.nodes ∧ st'.typeCounters = st.typeCounters ∧
      sc'.scomps = sc.scomps ∧
      sc'.snodes = eraseAll sc.snodes ns ∧
      (∀ q, pinInComps st0 sc.scomps q = true →
        bindingOf st' q = remapB (bindingOf st0 q) (ms ++ ns) n0) ∧
      (∀ q, pinInComps st0 sc.scomps q = false → bindingOf st' q = bindingOf st0 q) := by
  intro gs
  induction gs with
  | nil =>
    intro ns ms sc st hgb _ hin hout _ _
    cases ns with
    | cons n ns' => exact Bool.noConfusion hgb
    | nil =>
      refine ⟨sc, st, rfl, rfl, rfl, rfl, rfl, rfl, ?_, hout⟩
      intro q hq
      rw [List.append_nil]
      exact hin q hq
  | cons g gs ih =>
    intro ns ms sc st hgb hcomps hin hout hmem hnd
    cases ns with
    | nil => exact Bool.noConfusion hgb
    | cons n ns' =>
      simp only [groundsBound, Bool.and_eq_true] at hgb
      rcases hgb with ⟨hcond, hgb'⟩
      rcases hc0 : st0.comps.get? g with _ | cg
      · simp only [hc0] at hcond
        exact Bool.noConfusion hcond
      · simp only [hc0] at hcond
        rcases hp0 : cg.cpins.get? 0 with _ | pg
        · simp only [hp0] at hcond
          exact Bool.noConfusion hcond
        · simp only [hp0] at hcond
          have hb0 : bindingOf st0 pg = some n := beq_iff_eq.mp hcond
          have hgmem : g ∈ sc.scomps := hmem g (List.mem_cons_self g gs)
          have hpgmem : pg ∈ cg.cpins := List.get?_mem hp0
          have hpic : pinInComps st0 sc.scomps pg = true :=
            pinInComps_of_mem st0 sc.scomps g cg pg hgmem hc0 hpgmem
          have hndtail : (ms ++ n :: ns').Nodup := hnd.of_cons
          have hnms : n ∉ ms := by
            intro hmemn
            have hdisj := (List.nodup_append.mp hndtail).2.2
            exact hdisj hmemn (List.mem_cons_self n ns')
          have hnn0 : n ≠ n0 := by
            intro hh
            have : n0 ∈ ms ++ n :: ns' := by
              rw [← hh]
              exact List.mem_append_right ms (List.mem_cons_self n ns')
            exact (List.nodup_cons.mp hnd).1 this
          have hbpg : bindingOf st pg = some n := by
            rw [hin pg hpic, hb0]
            simp [remapB, hnms]
          have hcg : st.comps.get? g = some cg := by rw [hcomps]; exact hc0
          rcases repointComps_spec sc.scomps n n0 st with ⟨st1, hr1, hr2, hr3, hr4, hr5⟩
          have hb' : (st.pins.get? pg).bind PinRec.pnode = some n := hbpg
          have hmo : mergeOne sc n0 g st =
              Except.ok ({ sc with snodes := sc.snodes.erase n }, st1) := by
            unfold mergeOne
            simp only [bind_def, getS, hcg, hp0, hb', hr1, pure_def]
          have hcomps1 : st1.comps = st0.comps := by rw [hr4, hcomps]
          have hpic1 : ∀ q, pinInComps st sc.scomps q = pinInComps st0 sc.scomps q :=
            fun q => pinInComps_congr st st0 hcomps sc.scomps q
          have hin1 : ∀ q, pinInComps st0 sc.scomps q = true →
              bindingOf st1 q = remapB (bindingOf st0 q) (ms ++ [n]) n0 := by
            intro q hq
            rw [hr2 q]
            rcases hb0q : bindingOf st0 q with _ | x
            · have hbq : bindingOf st q = none := by
                rw [hin q hq, hb0q]
                rfl
              rw [if_neg (fun hh => by rw [hbq] at hh; cases hh.2), hbq]
              rfl
            · by_cases hxm : x ∈ ms
              · have hbq : bindingOf st q = some n0 := by
                  rw [hin q hq, hb0q]
                  simp [remapB, hxm]
                have hcondf : ¬ (pinInComps st sc.scomps q = true ∧
                    bindingOf st q = some n) := by
                  intro hh
                  rw [hbq] at hh
                  injection hh.2 with hx
                  exact hnn0 hx.symm
                rw [if_neg hcondf, hbq]
                simp [remapB, List.mem_append, hxm]
              · have hbq : bindingOf st q = some x := by
                  rw [hin q hq, hb0q]
                  simp [remapB, hxm]
                by_cases hxn : x = n
                · subst hxn
                  rw [if_pos ⟨by rw [hpic1 q]; exact hq, hbq⟩]
                  simp [remapB, List.mem_append]
                · have hcondf : ¬ (pinInComps st sc.scomps q = true ∧
                      bindingOf st q = some n) := by
                    intro hh
                    rw [hbq] at hh
                    injection hh.2 with hx
                    exact hxn hx
                  rw [if_neg hcondf, hbq]
                  simp [remapB, List.mem_append, hxm, hxn]
          have hout1 : ∀ q, pinInComps st0 sc.scomps q = false →
              bindingOf st1 q = bindingOf st0 q := by
            intro q hq
            rw [hr2 q]
            rw [if_neg (fun hh => by rw [hpic1 q, hq] at hh; cases hh.1)]
            exact hout q hq
          have hnd1 : (n0 :: ((ms ++ [n]) ++ ns')).Nodup := by
            have : (ms ++ [n]) ++ ns' = ms ++ n :: ns' := by
              rw [List.append_assoc]
              rfl
            rw [this]
            exact hnd
          rcases ih ns' (ms ++ [n]) { sc with snodes := sc.snodes.erase n } st1
              hgb' hcomps1 hin1 hout1 (fun g' hg' => hmem g' (List.mem_cons_of_mem g hg'))
              hnd1 with
            ⟨sc', st', hmr, hcc, hnn, htt, hss, hsn, hinF, houtF⟩
          refine ⟨sc', st', ?_, by rw [hcc, hr4], by rw [hnn, hr3], by rw [htt, hr5],
            hss, hsn, ?_, houtF⟩
          · simp only [mergeRest, bind_def, hmo]
            exact hmr
          · intro q hq
            have := hinF q hq
            rwa [List.append_assoc] at this

/-- C3: `mergeGrounds()` on a container whose ground-type components sit on
pairwise distinct registered nodes keeps the first (master) ground node
registered, unregisters the other ground nodes, and rebinds every container
pin that was on one of those other nodes onto the master node; with at most
one ground component it is a no-op. -/
theorem c3_mergeGrounds (sc : Schematic) (st : CState) :
    ((groundComps st sc).length ≤ 1 → mergeGrounds sc st = Except.ok (sc, st)) ∧
    (∀ g0 gs cr0 p0 n0 ns,
      groundComps st sc = g0 :: gs → gs ≠ [] →
      st.comps.get? g0 = some cr0 → cr0.cpins.get? 0 = some p0 →
      bindingOf st p0 = some n0 →
      groundsBound st gs ns = true →
      (n0 :: ns).Nodup → sc.snodes.Nodup → n0 ∈ sc.snodes →
      ∃ sc' st', mergeGrounds sc st = Except.ok (sc', st') ∧
        n0 ∈ sc'.snodes ∧ (∀ n ∈ ns, n ∉ sc'.snodes) ∧
        (∀ q n, pinInComps st sc.scomps q = true → bindingOf st q = some n →
          n ∈ ns → bindingOf st' q = some n0) ∧
        st'.comps = st.comps ∧ st'.nodes = st.nodes) := by
  constructor
  · intro hlen
    simp only [mergeGrounds, bind_def, getS, if_pos hlen, pure_def]
  · intro g0 gs cr0 p0 n0 ns hg hne hc0 hp0 hb0 hgb hndn hnds hn0mem
    have hlen : ¬ (groundComps st sc).length ≤ 1 := by
      rw [hg]
      cases gs with
      | nil => exact absurd rfl hne
      | cons a l => simp
    have hmemgs : ∀ g ∈ gs, g ∈ sc.scomps := by
      intro g hgm
      exact groundComps_sub st sc g (by rw [hg]; exact List.mem_cons_of_mem g0 hgm)
    have hin0 : ∀ q, pinInComps st sc.scomps q = true →
        bindingOf st q = remapB (bindingOf st q) [] n0 := by
      intro q _
      cases bindingOf st q <;> rfl
    rcases mergeRest_merge st n0 gs ns [] sc st hgb rfl hin0 (fun q _ => rfl) hmemgs
        (by simpa using hndn) with
      ⟨sc', st', hmr, hcc, hnn, htt, hss, hsn, hinF, _⟩
    have hb0' : (st.pins.get? p0).bind PinRec.pnode = some n0 := hb0
    have hlen2 : ¬ ((g0 :: gs : List Nat).length ≤ 1) := hg ▸ hlen
    refine ⟨sc', st', ?_, ?_, ?_, ?_, hcc, hnn⟩
    · simp only [mergeGrounds, bind_def, getS, hg, if_neg hlen2, hc0, hp0, hb0']
      exact hmr
    · rw [hsn]
      exact mem_eraseAll ns sc.snodes n0 hn0mem (List.nodup_cons.mp hndn).1
    · intro n hn
      rw [hsn]
      exact not_mem_eraseAll ns sc.snodes hnds n hn
    · intro q n hq hbq hn
      have := hinF q hq
      rw [hbq] at this
      rw [this]
      simp [remapB, hn]

theorem c3_mergeGrounds_witness :
    mergeGrounds c3Sc1 c3St = Except.ok (c3Sc1, c3St) ∧
    (∃ sc' st', mergeGrounds c3Sc c3St = Except.ok (sc', st') ∧
      0 ∈ sc'.snodes ∧ (∀ n ∈ [1], n ∉ sc'.snodes) ∧
      (∀ q n, pinInComps c3St c3Sc.scomps q = true → bindingOf c3St q = some n →
        n ∈ [1] → bindingOf st' q = some 0) ∧
      st'.comps = c3St.comps ∧ st'.nodes = c3St.nodes) :=
  ⟨(c3_mergeGrounds c3Sc1 c3St).1 (by decide),
    (c3_mergeGrounds c3Sc c3St).2 0 [1] ⟨"ground_1", "ground", "GND1", [], [0], []⟩
      0 0 [1] (by decide) (by decide) (by decide) (by decide) (by decide) (by decide)
      (by decide) (by decide) (by decide)⟩

theorem getTerminals_congr (s1 s2 : CState) (h : s1.comps = s2.comps)
    (it : Connectable) : getTerminals s1 it = getTerminals s2 it := by
  cases it with
  | pin p => rfl
  | comp c =>
    unfold getTerminals
    rw [h]
  | res r => rfl

theorem get?_isSome_congr {α : Type} (l1 l2 : List α) (h : l1.length = l2.length)
    (q : Nat) : (l1.get? q).isSome = (l2.get? q).isSome := by
  by_cases hq : q < l1.length
  · rw [List.get?_eq_get hq, List.get?_eq_get (h ▸ hq)]
    rfl
  · rw [List.get?_eq_none.mpr (Nat.le_of_not_lt hq),
      List.get?_eq_none.mpr (by rw [← h]; exact Nat.le_of_not_lt hq)]

theorem seriesTail_nil (st0 : CState) (fs ls : List Nat) (lOpt : Option Nat) :
    seriesTail st0 [] fs ls lOpt = false := by
  cases fs <;> cases ls <;> rfl

theorem not_mem_of_contains_false (l : List Nat) (x : Nat)
    (h : l.contains x = false) : x ∉ l := by
  intro hm
  have h2 : l.contains x = true := List.elem_iff.mpr hm
  rw [h] at h2
  exact Bool.noConfusion h2

theorem connSt_nodes_len (st : CState) (lp : Nat) (pr : PinRec) (f : Nat)
    (prf : PinRec) : (connSt st lp pr f prf).nodes.length = st.nodes.length + 1 := by
  show (st.nodes ++
    [(⟨"node_" ++ decRepr (st.nodes.length + 1), none⟩ : NodeRec)]).length = _
  rw [List.length_append]
  rfl

theorem connSt_pins_len (st : CState) (lp : Nat) (pr : PinRec) (f : Nat)
    (prf : PinRec) : (connSt st lp pr f prf).pins.length = st.pins.length := by
  simp [connSt]

theorem connSt_get_isSome (st : CState) (lp : Nat) (pr : PinRec) (f : Nat)
    (prf : PinRec) (q : Nat) :
    ((connSt st lp pr f prf).pins.get? q).isSome = (st.pins.get? q).isSome :=
  get?_isSome_congr _ _ (connSt_pins_len st lp pr f prf) q

theorem connSt_binding_f (st : CState) (lp : Nat) (pr : PinRec) (f : Nat)
    (prf : PinRec) (hf : f < st.pins.length) :
    bindingOf (connSt st lp pr f prf) f = some st.nodes.length := by
  unfold bindingOf connSt
  rw [List.get?_eq_getElem? ,
    List.getElem?_set_eq_of_lt _ (by rw [List.length_set]; exact hf)]
  rfl

theorem connSt_binding_lp (st : CState) (lp : Nat) (pr : PinRec) (f : Nat)
    (prf : PinRec) (hne : f ≠ lp) (hlp : lp < st.pins.length) :
    bindingOf (connSt st lp pr f prf) lp = some st.nodes.length := by
  unfold bindingOf connSt
  rw [List.get?_eq_getElem? , List.getElem?_set_ne hne,
    List.getElem?_set_eq_of_lt _ hlp]
  rfl

theorem connSt_binding_other (st : CState) (lp : Nat) (pr : PinRec) (f : Nat)
    (prf : PinRec) (q : Nat) (h1 : q ≠ lp) (h2 : q ≠ f) :
    bindingOf (connSt st lp pr f prf) q = bindingOf st q := by
  unfold bindingOf connSt
  rw [List.get?_eq_getElem? , List.getElem?_set_ne (fun hh => h2 hh.symm),
    List.getElem?_set_ne (fun hh => h1 hh.symm), ← List.get?_eq_getElem? ]

theorem seriesGo_shape (st0 : CState) :
    ∀ (rest : List Connectable) (fs ls : List Nat) (lp : Nat) (lOpt fP : Option Nat)
    (comps nodes : List Nat) (st : CState),
    seriesTail st0 rest fs ls lOpt = true →
    st.comps = st0.comps →
    (∀ p ∈ pairPins (lp :: ls) fs, (st.pins.get? p).isSome = true) →
    pairsDisj (lp :: ls) fs = true →
    ∃ comps' nodes' st',
      seriesGo rest false fP (some lp) comps nodes st =
        Except.ok ((comps', nodes', fP, lOpt), st') ∧
      st'.nodes.length = st.nodes.length + rest.length ∧
      st'.comps = st.comps ∧
      st'.pins.length = st.pins.length ∧
      (∀ j a b, (lp :: ls).get? j = some a → fs.get? j = some b →
        bindingOf st' a = some (st.nodes.length + j) ∧
        bindingOf st' b = some (st.nodes.length + j)) ∧
      (∀ q, q ∉ pairPins (lp :: ls) fs → bindingOf st' q = bindingOf st q) := by
  intro rest
  induction rest with
  | nil =>
    intro fs ls lp lOpt fP comps nodes st hshape _ _ _
    rw [seriesTail_nil] at hshape
    exact Bool.noConfusion hshape
  | cons it rest' ih =>
    intro fs ls lp lOpt fP comps nodes st hshape hcomps hvalid hdisj
    cases fs with
    | nil =>
      cases rest' <;> cases ls <;> exact Bool.noConfusion hshape
    | cons f fs' =>
      cases rest' with
      | nil =>
        cases fs' with
        | cons f2 fs'' =>
          cases ls with
          | nil => exact Bool.noConfusion hshape
          | cons l ls' =>
            have hshape2 : ((match getTerminals st0 it with
                | Except.ok t => t.tfirst == some f && t.tlast == some l
                | Except.error _ => false) &&
                seriesTail st0 [] (f2 :: fs'') ls' lOpt) = true := hshape
            rw [seriesTail_nil, Bool.and_false] at hshape2
            exact Bool.noConfusion hshape2
        | nil =>
          cases ls with
          | cons l ls' =>
            have hshape2 : ((match getTerminals st0 it with
                | Except.ok t => t.tfirst == some f && t.tlast == some l
                | Except.error _ => false) &&
                seriesTail st0 [] ([] : List Nat) ls' lOpt) = true := hshape
            rw [seriesTail_nil, Bool.and_false] at hshape2
            exact Bool.noConfusion hshape2
          | nil =>
            have hshape2 : (match getTerminals st0 it with
                | Except.ok t => t.tfirst == some f && t.tlast == lOpt
                | Except.error _ => false) = true := hshape
            rcases hgt0 : getTerminals st0 it with e | t
            · rw [hgt0] at hshape2
              exact Bool.noConfusion hshape2
            · rw [hgt0] at hshape2
              simp only [Bool.and_eq_true, beq_iff_eq] at hshape2
              rcases hshape2 with ⟨htf, htl⟩
              have hgt : getTerminals st it = Except.ok t := by
                rw [getTerminals_congr st st0 hcomps]
                exact hgt0
              have hlpm : lp ∈ pairPins (lp :: ([] : List Nat)) [f] :=
                List.mem_cons_self _ _
              have hfm : f ∈ pairPins (lp :: ([] : List Nat)) [f] := by
                simp [pairPins]
              rcases hpr : st.pins.get? lp with _ | pr
              · have hv := hvalid lp hlpm
                rw [hpr] at hv
                cases hv
              · have hlplt : lp < st.pins.length := (List.get?_eq_some.mp hpr).1
                by_cases hlpf : lp = f
                · subst hlpf
                  have hget1 : (st.pins.set lp
                      { pr with pnode := some st.nodes.length }).get? lp =
                      some { pr with pnode := some st.nodes.length } := by
                    rw [List.get?_eq_getElem? , List.getElem?_set_eq_of_lt _ hlplt]
                  refine ⟨comps ++ t.tcomps, (nodes ++ t.tnodes) ++ [st.nodes.length],
                    connSt st lp pr lp { pr with pnode := some st.nodes.length },
                    ?_, ?_, rfl, connSt_pins_len _ _ _ _ _, ?_, ?_⟩
                  · show seriesGo [it] false fP (some lp) comps nodes st = _
                    simp only [seriesGo, bind_def, getS, hgt, liftE, htf, htl,
                      Bool.false_eq_true, if_false, newNode, connectTo, hpr, hget1,
                      pure_def]
                    rfl
                  · show (connSt st lp pr lp _).nodes.length = st.nodes.length + 1
                    rw [connSt_nodes_len]
                  · intro j a b hja hjb
                    cases j with
                    | zero =>
                      injection hja with hja1
                      injection hjb with hjb1
                      subst hja1
                      subst hjb1
                      refine ⟨?_, ?_⟩ <;>
                        · rw [connSt_binding_f st lp pr lp _ hlplt]
                          rfl
                    | succ j' =>
                      have hja2 : (none : Option Nat) = some a := hja
                      exact Option.noConfusion hja2
                  · intro q hq
                    have hq1 : q ≠ lp := fun hh => hq (hh ▸ List.mem_cons_self _ _)
                    exact connSt_binding_other st lp pr lp _ q hq1 hq1
                · rcases hprf : st.pins.get? f with _ | prf
                  · have hv := hvalid f hfm
                    rw [hprf] at hv
                    cases hv
                  · have hflt : f < st.pins.length := (List.get?_eq_some.mp hprf).1
                    have hprf2 : ((st.pins.set lp
                        { pr with pnode := some st.nodes.length }).get? f) =
                        some prf := by
                      rw [List.get?_eq_getElem? , List.getElem?_set_ne hlpf,
                        ← List.get?_eq_getElem? ]
                      exact hprf
                    refine ⟨comps ++ t.tcomps, (nodes ++ t.tnodes) ++ [st.nodes.length],
                      connSt st lp pr f prf,
                      ?_, ?_, rfl, connSt_pins_len _ _ _ _ _, ?_, ?_⟩
                    · show seriesGo [it] false fP (some lp) comps nodes st = _
                      simp only [seriesGo, bind_def, getS, hgt, liftE, htf, htl,
                        Bool.false_eq_true, if_false, newNode, connectTo, hpr, hprf2,
                        pure_def]
                      rfl
                    · show (connSt st lp pr f prf).nodes.length = st.nodes.length + 1
                      rw [connSt_nodes_len]
                    · intro j a b hja hjb
                      cases j with
                      | zero =>
                        injection hja with hja1
                        injection hjb with hjb1
                        subst hja1
                        subst hjb1
                        refine ⟨?_, ?_⟩
                        · rw [connSt_binding_lp st lp pr f prf
                            (fun hh => hlpf hh.symm) hlplt]
                          rfl
                        · rw [connSt_binding_f st lp pr f prf hflt]
                          rfl
                      | succ j' =>
                        have hja2 : (none : Option Nat) = some a := hja
                        exact Option.noConfusion hja2
                    · intro q hq
                      have hq1 : q ≠ lp := fun hh => hq (hh ▸ List.mem_cons_self _ _)
                      have hq2 : q ≠ f := fun hh => hq (hh ▸ hfm)
                      exact connSt_binding_other st lp pr f prf q hq1 hq2
      | cons it2 rest'' =>
        cases ls with
        | nil => exact Bool.noConfusion hshape
        | cons l ls' =>
          have hshape2 : ((match getTerminals st0 it with
              | Except.ok t => t.tfirst == some f && t.tlast == some l
              | Except.error _ => false) &&
              seriesTail st0 (it2 :: rest'') fs' ls' lOpt) = true := hshape
          rw [Bool.and_eq_true] at hshape2
          rcases hshape2 with ⟨hhead, htail⟩
          rcases hgt0 : getTerminals st0 it with e | t
          · rw [hgt0] at hhead
            exact Bool.noConfusion hhead
          · rw [hgt0] at hhead
            simp only [Bool.and_eq_true, beq_iff_eq] at hhead
            rcases hhead with ⟨htf, htl⟩
            have hgt : getTerminals st it = Except.ok t := by
              rw [getTerminals_congr st st0 hcomps]
              exact hgt0
            have hdisj2 : (((!(pairPins (l :: ls') fs').contains lp) &&
                (!(pairPins (l :: ls') fs').contains f)) &&
                pairsDisj (l :: ls') fs') = true := hdisj
            simp only [Bool.and_eq_true, Bool.not_eq_true'] at hdisj2
            rcases hdisj2 with ⟨⟨hclp, hcf⟩, hdisj'⟩
            have hlpnotin : lp ∉ pairPins (l :: ls') fs' :=
              not_mem_of_contains_false _ _ hclp
            have hfnotin : f ∉ pairPins (l :: ls') fs' :=
              not_mem_of_contains_false _ _ hcf
            have hlpm : lp ∈ pairPins (lp :: l :: ls') (f :: fs') :=
              List.mem_cons_self _ _
            have hfm : f ∈ pairPins (lp :: l :: ls') (f :: fs') := by
              simp [pairPins]
            rcases hpr : st.pins.get? lp with _ | pr
            · have hv := hvalid lp hlpm
              rw [hpr] at hv
              cases hv
            · have hlplt : lp < st.pins.length := (List.get?_eq_some.mp hpr).1
              by_cases hlpf : lp = f
              · subst hlpf
                have hget1 : (st.pins.set lp
                    { pr with pnode := some st.nodes.length }).get? lp =
                    some { pr with pnode := some st.nodes.length } := by
                  rw [List.get?_eq_getElem? , List.getElem?_set_eq_of_lt _ hlplt]
                rcases ih fs' ls' l lOpt fP (comps ++ t.tcomps)
                    ((nodes ++ t.tnodes) ++ [st.nodes.length])
                    (connSt st lp pr lp { pr with pnode := some st.nodes.length })
                    htail hcomps
                    (fun p hp => by
                      rw [connSt_get_isSome]
                      exact hvalid p (List.mem_cons_of_mem lp
                        (List.mem_cons_of_mem lp hp)))
                    hdisj' with
                  ⟨comps', nodes', st', hrun, hlen', hcomps', hplen', hpairs', hframe'⟩
                refine ⟨comps', nodes', st', ?_, ?_, ?_, ?_, ?_, ?_⟩
                · show seriesGo (it :: it2 :: rest'') false fP (some lp) comps nodes st = _
                  simp only [seriesGo, bind_def, getS, hgt, liftE, htf, htl,
                    Bool.false_eq_true, if_false, newNode, connectTo, hpr, hget1,
                    pure_def]
                  exact hrun
                · rw [hlen', connSt_nodes_len]
                  simp only [List.length_cons]
                  omega
                · rw [hcomps']
                  rfl
                · rw [hplen', connSt_pins_len]
                · intro j a b hja hjb
                  cases j with
                  | zero =>
                    injection hja with hja1
                    injection hjb with hjb1
                    subst hja1
                    subst hjb1
                    refine ⟨?_, ?_⟩ <;>
                      · rw [hframe' lp hlpnotin,
                          connSt_binding_f st lp pr lp _ hlplt]
                        rfl
                  | succ j' =>
                    have hja' : (l :: ls').get? j' = some a := hja
                    have hjb' : fs'.get? j' = some b := hjb
                    rcases hpairs' j' a b hja' hjb' with ⟨hx1, hx2⟩
                    refine ⟨?_, ?_⟩
                    · rw [hx1, connSt_nodes_len,
                        show st.nodes.length + 1 + j' = st.nodes.length + (j' + 1)
                          from by omega]
                    · rw [hx2, connSt_nodes_len,
                        show st.nodes.length + 1 + j' = st.nodes.length + (j' + 1)
                          from by omega]
                · intro q hq
                  have hq1 : q ≠ lp := fun hh => hq (hh ▸ List.mem_cons_self _ _)
                  have hq3 : q ∉ pairPins (l :: ls') fs' := fun hh =>
                    hq (List.mem_cons_of_mem lp (List.mem_cons_of_mem lp hh))
                  rw [hframe' q hq3, connSt_binding_other st lp pr lp _ q hq1 hq1]
              · rcases hprf : st.pins.get? f with _ | prf
                · have hv := hvalid f hfm
                  rw [hprf] at hv
                  cases hv
                · have hflt : f < st.pins.length := (List.get?_eq_some.mp hprf).1
                  have hprf2 : ((st.pins.set lp
                      { pr with pnode := some st.nodes.length }).get? f) =
                      some prf := by
                    rw [List.get?_eq_getElem? , List.getElem?_set_ne hlpf,
                      ← List.get?_eq_getElem? ]
                    exact hprf
                  rcases ih fs' ls' l lOpt fP (comps ++ t.tcomps)
                      ((nodes ++ t.tnodes) ++ [st.nodes.length])
                      (connSt st lp pr f prf) htail hcomps
                      (fun p hp => by
                        rw [connSt_get_isSome]
                        exact hvalid p (List.mem_cons_of_mem lp
                          (List.mem_cons_of_mem f hp)))
                      hdisj' with
                    ⟨comps', nodes', st', hrun, hlen', hcomps', hplen', hpairs', hframe'⟩
                  refine ⟨comps', nodes', st', ?_, ?_, ?_, ?_, ?_, ?_⟩
                  · show seriesGo (it :: it2 :: rest'') false fP (some lp)
                      comps nodes st = _
                    simp only [seriesGo, bind_def, getS, hgt, liftE, htf, htl,
                      Bool.false_eq_true, if_false, newNode, connectTo, hpr, hprf2,
                      pure_def]
                    exact hrun
                  · rw [hlen', connSt_nodes_len]
                    simp only [List.length_cons]
                    omega
                  · rw [hcomps']
                    rfl
                  · rw [hplen', connSt_pins_len]
                  · intro j a b hja hjb
                    cases j with
                    | zero =>
                      injection hja with hja1
                      injection hjb with hjb1
                      subst hja1
                      subst hjb1
                      refine ⟨?_, ?_⟩
                      · rw [hframe' lp hlpnotin, connSt_binding_lp st lp pr f prf
                          (fun hh => hlpf hh.symm) hlplt]
                        rfl
                      · rw [hframe' f hfnotin, connSt_binding_f st lp pr f prf hflt]
                        rfl
                    | succ j' =>
                      have hja' : (l :: ls').get? j' = some a := hja
                      have hjb' : fs'.get? j' = some b := hjb
                      rcases hpairs' j' a b hja' hjb' with ⟨hx1, hx2⟩
                      refine ⟨?_, ?_⟩
                      · rw [hx1, connSt_nodes_len,
                          show st.nodes.length + 1 + j' = st.nodes.length + (j' + 1)
                            from by omega]
                      · rw [hx2, connSt_nodes_len,
                          show st.nodes.length + 1 + j' = st.nodes.length + (j' + 1)
                            from by omega]
                  · intro q hq
                    have hq1 : q ≠ lp := fun hh => hq (hh ▸ List.mem_cons_self _ _)
                    have hq2 : q ≠ f := fun hh => hq (hh ▸ hfm)
                    have hq3 : q ∉ pairPins (l :: ls') fs' := fun hh =>
                      hq (List.mem_cons_of_mem lp (List.mem_cons_of_mem f hh))
                    rw [hframe' q hq3, connSt_binding_other st lp pr f prf q hq1 hq2]

theorem series_assemble (st : CState) (it1 : Connectable) (rest : List Connectable)
    (t : Terminals) (l1 : Nat) (fOpt lOpt : Option Nat) (comps' nodes' : List Nat)
    (st' : CState)
    (hgt : getTerminals st it1 = Except.ok t)
    (htf : t.tfirst = fOpt) (htl : t.tlast = some l1)
    (hrun : seriesGo rest false fOpt (some l1) ([] ++ t.tcomps) ([] ++ t.tnodes) st =
      Except.ok ((comps', nodes', fOpt, lOpt), st')) :
    Series (it1 :: rest) st = Except.ok (⟨comps', nodes', fOpt, lOpt⟩, st') := by
  simp only [Series, List.length_cons, bind_def, getS, seriesGo, hgt, liftE,
    htf, htl, if_true, pure_def]
  rw [if_neg (by simp)]
  simp only [bind_def, getS, hgt, liftE, htf, htl, pure_def]
  rw [hrun]

/-- C2 (amended): for a non-empty item list in which every non-final item
has a defined outgoing terminal and every non-initial item a defined
incoming one (all valid pins), and in which no pin is a boundary pin of two
distinct adjacent pairs, `Series` allocates exactly `length - 1` fresh
internal nodes, binds each adjacent pair's boundary pins to the pair's
fresh node, and returns the first item's incoming terminal as `firstPin`
and the last item's outgoing terminal as `lastPin` (either possibly
undefined, e.g. for a trailing single-pin ground). -/
theorem c2_amended (it1 : Connectable) (rest : List Connectable) (st : CState)
    (fOpt lOpt : Option Nat) (fs ls0 : List Nat)
    (hshape : seriesShape st (it1 :: rest) fOpt lOpt fs ls0 = true)
    (hvalid : ∀ p ∈ pairPins ls0 fs, (st.pins.get? p).isSome = true)
    (hdisj : pairsDisj ls0 fs = true) :
    ∃ comps' nodes' st',
      Series (it1 :: rest) st = Except.ok (⟨comps', nodes', fOpt, lOpt⟩, st') ∧
      st'.nodes.length = st.nodes.length + ((it1 :: rest).length - 1) ∧
      st'.comps = st.comps ∧
      (∀ j a b, ls0.get? j = some a → fs.get? j = some b →
        bindingOf st' a = some (st.nodes.length + j) ∧
        bindingOf st' b = some (st.nodes.length + j)) := by
  cases rest with
  | nil =>
    cases fs with
    | cons f fs' =>
      cases ls0 with
      | nil => exact Bool.noConfusion hshape
      | cons l1 ls' =>
        have hshape2 : ((match getTerminals st it1 with
            | Except.ok t => t.tfirst == fOpt && t.tlast == some l1
            | Except.error _ => false) &&
            seriesTail st [] (f :: fs') ls' lOpt) = true := hshape
        rw [seriesTail_nil, Bool.and_false] at hshape2
        exact Bool.noConfusion hshape2
    | nil =>
      cases ls0 with
      | cons l1 ls' =>
        have hshape2 : ((match getTerminals st it1 with
            | Except.ok t => t.tfirst == fOpt && t.tlast == some l1
            | Except.error _ => false) &&
            seriesTail st [] ([] : List Nat) ls' lOpt) = true := hshape
        rw [seriesTail_nil, Bool.and_false] at hshape2
        exact Bool.noConfusion hshape2
      | nil =>
        have hshape2 : (match getTerminals st it1 with
            | Except.ok t => t.tfirst == fOpt && t.tlast == lOpt
            | Except.error _ => false) = true := hshape
        rcases hgt : getTerminals st it1 with e | t
        · rw [hgt] at hshape2
          exact Bool.noConfusion hshape2
        · rw [hgt] at hshape2
          simp only [Bool.and_eq_true, beq_iff_eq] at hshape2
          rcases hshape2 with ⟨htf, htl⟩
          refine ⟨[] ++ t.tcomps, [] ++ t.tnodes, st, ?_, by simp, rfl, ?_⟩
          · simp only [Series, List.length_cons, bind_def, getS, seriesGo, hgt, liftE,
              htf, htl, if_true, pure_def]
            rw [if_neg (by simp)]
            simp only [bind_def, getS, hgt, liftE, htf, htl, pure_def]
          · intro j a b hja _
            have hja2 : (none : Option Nat) = some a := hja
            exact Option.noConfusion hja2
  | cons it2 rest'' =>
    cases ls0 with
    | nil => exact Bool.noConfusion hshape
    | cons l1 ls' =>
      have hshape2 : ((match getTerminals st it1 with
          | Except.ok t => t.tfirst == fOpt && t.tlast == some l1
          | Except.error _ => false) &&
          seriesTail st (it2 :: rest'') fs ls' lOpt) = true := hshape
      rw [Bool.and_eq_true] at hshape2
      rcases hshape2 with ⟨hhead, htail⟩
      rcases hgt : getTerminals st it1 with e | t
      · rw [hgt] at hhead
        exact Bool.noConfusion hhead
      · rw [hgt] at hhead
        simp only [Bool.and_eq_true, beq_iff_eq] at hhead
        rcases hhead with ⟨htf, htl⟩
        rcases seriesGo_shape st (it2 :: rest'') fs ls' l1 lOpt fOpt
            ([] ++ t.tcomps) ([] ++ t.tnodes) st htail rfl hvalid hdisj with
          ⟨comps', nodes', st', hrun, hlen', hcomps', _, hpairs', _⟩
        refine ⟨comps', nodes', st', ?_, ?_, hcomps', hpairs'⟩
        · exact series_assemble st it1 (it2 :: rest'') t l1 fOpt lOpt comps' nodes' st'
            hgt htf htl hrun
        · rw [hlen']
          simp only [List.length_cons]
          omega

theorem c2_amended_witness :
    ∃ comps' nodes' st',
      Series [Connectable.comp 0, Connectable.comp 1] c2St3 =
        Except.ok (⟨comps', nodes', some 0, some 4⟩, st') ∧
      st'.nodes.length = c2St3.nodes.length +
        ([Connectable.comp 0, Connectable.comp 1].length - 1) ∧
      st'.comps = c2St3.comps ∧
      (∀ j a b, ([1] : List Nat).get? j = some a → ([3] : List Nat).get? j = some b →
        bindingOf st' a = some (c2St3.nodes.length + j) ∧
        bindingOf st' b = some (c2St3.nodes.length + j)) :=
  c2_amended (Connectable.comp 0) [Connectable.comp 1] c2St3 (some 0) (some 4)
    [3] [1] (by decide) (by decide) (by decide)

theorem mkComponent_spec (t : CompTemplate) (pref : String) (lblArg : Option String)
    (st : CState) :
    ∃ lbl tc, mkComponent t pref lblArg st = Except.ok (st.comps.length,
      { st with
        pins := st.pins ++ t.tpins.enum.map (fun e =>
          (⟨"pin_" ++ decRepr (st.pins.length + e.1 + 1), e.2.psname, e.2.psdir, none,
            some st.comps.length⟩ : PinRec)),
        comps := st.comps ++ [⟨t.ttype ++ "_" ++ decRepr (st.comps.length + 1), t.ttype,
          lbl, t.tparams, (List.range t.tpins.length).map (· + st.pins.length), t.town⟩],
        typeCounters := tc }) := by
  cases lblArg with
  | some l => exact ⟨l, st.typeCounters, rfl⟩
  | none => exact ⟨_, _, rfl⟩

theorem isDef_of_not_nullish (v : JVal) (h : isNullish v = false) : isDef v = true := by
  cases v <;> simp_all [isNullish, isDef]

theorem eq_undef_of_not_def (v : JVal) (h : isDef v = false) : v = JVal.undef := by
  cases v <;> simp_all [isDef]

theorem jcoal_of_not_nullish (v w : JVal) (h : isNullish v = false) : jcoal v w = v := by
  unfold jcoal
  rw [h]
  rfl

theorem jcoal_nn (v : JVal) (h : isNullish v = false) :
    ∀ w, jcoal v w = v := fun w => jcoal_of_not_nullish v w h

theorem pinsShapeOK_map : ∀ (ps : List DbPin) (specs : List PinSpec),
    pinsShapeOK ps specs = true →
    ps.map (fun p => (⟨p.dpname, p.dpdir⟩ : PinSpec)) = specs := by
  intro ps
  induction ps with
  | nil =>
    intro specs h
    cases specs with
    | nil => rfl
    | cons s specs => exact Bool.noConfusion h
  | cons p ps ih =>
    intro specs h
    cases specs with
    | nil => exact Bool.noConfusion h
    | cons s specs =>
      simp only [pinsShapeOK, Bool.and_eq_true, beq_iff_eq] at h
      rcases h with ⟨⟨h1, h2⟩, h3⟩
      simp only [List.map_cons, ih specs h3, h1, h2]

theorem execFactory_spec (c : DbComponent) (hc : classOK c = true) :
    ∃ pref lblArg, execFactory c =
      mkComponent ⟨c.dctype, c.dcparams, c.dcextras.getD [],
        c.dcpins.map (fun p => (⟨p.dpname, p.dpdir⟩ : PinSpec))⟩ pref lblArg := by
  obtain ⟨cid, ctype, clabel, params, pins, extras⟩ := c
  unfold classOK at hc
  simp only at hc ⊢
  by_cases h1 : (ctype == "resistor") = true
  · rw [if_pos h1] at hc
    have hty : ctype = "resistor" := beq_iff_eq.mp h1
    subst hty
    obtain ⟨V, hV⟩ : ∃ v, bagGet params "value" = v := ⟨_, rfl⟩
    rw [hV] at hc
    simp only [Bool.and_eq_true, beq_iff_eq] at hc
    rcases hc with ⟨⟨hpar, hext⟩, hsh⟩
    subst hpar
    subst hext
    rw [pinsShapeOK_map _ _ hsh]
    exact ⟨"R", none, rfl⟩
  · rw [if_neg h1] at hc
    by_cases h2 : (ctype == "capacitor") = true
    · rw [if_pos h2] at hc
      have hty : ctype = "capacitor" := beq_iff_eq.mp h2
      subst hty
      obtain ⟨V, hV⟩ : ∃ v, bagGet params "value" = v := ⟨_, rfl⟩
      rw [hV] at hc
      simp only [Bool.and_eq_true, beq_iff_eq] at hc
      rcases hc with ⟨⟨hpar, hext⟩, hsh⟩
      subst hpar
      subst hext
      rw [pinsShapeOK_map _ _ hsh]
      exact ⟨"C", none, rfl⟩
    · rw [if_neg h2] at hc
      by_cases h3 : (ctype == "inductor") = true
      · rw [if_pos h3] at hc
        have hty : ctype = "inductor" := beq_iff_eq.mp h3
        subst hty
        obtain ⟨V, hV⟩ : ∃ v, bagGet params "value" = v := ⟨_, rfl⟩
        rw [hV] at hc
        simp only [Bool.and_eq_true, beq_iff_eq] at hc
        rcases hc with ⟨⟨hpar, hext⟩, hsh⟩
        subst hpar
        subst hext
        rw [pinsShapeOK_map _ _ hsh]
        exact ⟨"L", none, rfl⟩
      · rw [if_neg h3] at hc
        by_cases h4 : (ctype == "diode") = true
        · rw [if_pos h4] at hc
          have hty : ctype = "diode" := beq_iff_eq.mp h4
          subst hty
          obtain ⟨V, hV⟩ : ∃ v, bagGet params "value" = v := ⟨_, rfl⟩
          obtain ⟨MC, hMC⟩ : ∃ v, bagGet (extras.getD []) "maxCurrent" = v := ⟨_, rfl⟩
          obtain ⟨PN, hPN⟩ : ∃ v, bagGet (extras.getD []) "partNumber" = v := ⟨_, rfl⟩
          rw [hV, hMC, hPN] at hc
          simp only [Bool.and_eq_true, Bool.not_eq_true', beq_iff_eq] at hc
          rcases hc with ⟨⟨⟨hpar, hext⟩, hnull⟩, hsh⟩
          subst hpar
          subst hext
          rw [pinsShapeOK_map _ _ hsh]
          refine ⟨"D", none, ?_⟩
          have hdef : isDef V = true := isDef_of_not_nullish V hnull
          show execFactory _ = _
          have hrev : diodeRevParams [("value", V), ("unit", JVal.str "V")]
              [("forwardVoltage", V), ("maxCurrent", MC), ("partNumber", PN)] =
              [("forwardVoltage", V)] ++
              (if isDef MC then [("maxCurrent", MC)] else []) ++
              (if isDef PN then [("partNumber", PN)] else []) := by
            unfold diodeRevParams
            rw [show bagGet [("forwardVoltage", V), ("maxCurrent", MC),
              ("partNumber", PN)] "forwardVoltage" = V from rfl]
            rw [hdef]
            rfl
          by_cases hmc : isDef MC = true
          · by_cases hpn : isDef PN = true
            · have hrev2 : diodeRevParams [("value", V), ("unit", JVal.str "V")]
                  [("forwardVoltage", V), ("maxCurrent", MC), ("partNumber", PN)] =
                  [("forwardVoltage", V), ("maxCurrent", MC), ("partNumber", PN)] := by
                rw [hrev, hmc, hpn]
                rfl
              simp only [execFactory, Option.getD_some, hrev2]
              rw [show bagGet [("forwardVoltage", V), ("maxCurrent", MC),
                ("partNumber", PN)] "partNumber" = PN from rfl, hpn]
              rw [if_neg (by simp)]
              simp only [diodeCtor]
              rw [show bagGet [("forwardVoltage", V), ("maxCurrent", MC),
                ("partNumber", PN)] "forwardVoltage" = V from rfl]
              rw [jcoal_of_not_nullish V _ hnull]
              rfl
            · have hPNu : PN = JVal.undef := eq_undef_of_not_def PN (by
                cases hx : isDef PN
                · rfl
                · exact absurd hx hpn)
              subst hPNu
              have hrev2 : diodeRevParams [("value", V), ("unit", JVal.str "V")]
                  [("forwardVoltage", V), ("maxCurrent", MC), ("partNumber", JVal.undef)] =
                  [("forwardVoltage", V), ("maxCurrent", MC)] := by
                rw [hrev, hmc]
                rfl
              simp only [execFactory, Option.getD_some, hrev2]
              rw [show bagGet [("forwardVoltage", V), ("maxCurrent", MC)]
                "partNumber" = JVal.undef from rfl]
              rw [if_neg (by simp [isDef])]
              simp only [diodeCtor]
              rw [show bagGet [("forwardVoltage", V), ("maxCurrent", MC)]
                "forwardVoltage" = V from rfl]
              rw [jcoal_of_not_nullish V _ hnull]
              rfl
          · have hMCu : MC = JVal.undef := eq_undef_of_not_def MC (by
              cases hx : isDef MC
              · rfl
              · exact absurd hx hmc)
            subst hMCu
            by_cases hpn : isDef PN = true
            · have hrev2 : diodeRevParams [("value", V), ("unit", JVal.str "V")]
                  [("forwardVoltage", V), ("maxCurrent", JVal.undef), ("partNumber", PN)] =
                  [("forwardVoltage", V), ("partNumber", PN)] := by
                rw [hrev, hpn]
                rfl
              simp only [execFactory, Option.getD_some, hrev2]
              rw [show bagGet [("forwardVoltage", V), ("partNumber", PN)]
                "partNumber" = PN from rfl, hpn]
              rw [if_neg (by simp)]
              simp only [diodeCtor]
              rw [show bagGet [("forwardVoltage", V), ("partNumber", PN)]
                "forwardVoltage" = V from rfl]
              rw [jcoal_of_not_nullish V _ hnull]
              rfl
            · have hPNu : PN = JVal.undef := eq_undef_of_not_def PN (by
                cases hx : isDef PN
                · rfl
                · exact absurd hx hpn)
              subst hPNu
              have hrev2 : diodeRevParams [("value", V), ("unit", JVal.str "V")]
                  [("forwardVoltage", V), ("maxCurrent", JVal.undef),
                    ("partNumber", JVal.undef)] = [("forwardVoltage", V)] := by
                rw [hrev]
                rfl
              simp only [execFactory, Option.getD_some, hrev2]
              rw [show bagGet [("forwardVoltage", V)] "partNumber" =
                JVal.undef from rfl]
              rw [if_neg (by simp [isDef])]
              simp only [diodeCtor]
              rw [show bagGet [("forwardVoltage", V)] "forwardVoltage" = V from rfl]
              rw [jcoal_of_not_nullish V _ hnull]
              rfl
        · rw [if_neg h4] at hc
          by_cases h5 : (ctype == "led") = true
          · rw [if_pos h5] at hc
            have hty : ctype = "led" := beq_iff_eq.mp h5
            subst hty
            obtain ⟨V, hV⟩ : ∃ v, bagGet params "value" = v := ⟨_, rfl⟩
            obtain ⟨CL, hCL⟩ : ∃ v, bagGet params "color" = v := ⟨_, rfl⟩
            obtain ⟨MC, hMC⟩ : ∃ v, bagGet (extras.getD []) "maxCurrent" = v := ⟨_, rfl⟩
            rw [hV, hCL, hMC] at hc
            simp only [Bool.and_eq_true, Bool.not_eq_true', beq_iff_eq] at hc
            rcases hc with ⟨⟨⟨⟨⟨hpar, hext⟩, hncl⟩, hnv⟩, hnmc⟩, hsh⟩
            subst hpar
            subst hext
            rw [pinsShapeOK_map _ _ hsh]
            refine ⟨"LED", none, ?_⟩
            have hdefv : isDef V = true := isDef_of_not_nullish V hnv
            have hdefc : isDef CL = true := isDef_of_not_nullish CL hncl
            have hdefm : isDef MC = true := isDef_of_not_nullish MC hnmc
            have hrev : ledRevParams [("value", V), ("unit", JVal.str "V"), ("color", CL)]
                [("color", CL), ("forwardVoltage", V), ("maxCurrent", MC)] =
                [("color", CL), ("forwardVoltage", V), ("maxCurrent", MC)] := by
              unfold ledRevParams
              rw [show bagGet [("value", V), ("unit", JVal.str "V"), ("color", CL)]
                "color" = CL from rfl]
              rw [show bagGet [("color", CL), ("forwardVoltage", V), ("maxCurrent", MC)]
                "forwardVoltage" = V from rfl]
              rw [show bagGet [("color", CL), ("forwardVoltage", V), ("maxCurrent", MC)]
                "maxCurrent" = MC from rfl]
              rw [hdefv, hdefc, hdefm]
              rfl
            simp only [execFactory, Option.getD_some, hrev]
            rw [if_neg (by simp)]
            simp only [ledCtor,
              show bagGet [("color", CL), ("forwardVoltage", V), ("maxCurrent", MC)]
                "color" = CL from rfl,
              show bagGet [("color", CL), ("forwardVoltage", V), ("maxCurrent", MC)]
                "forwardVoltage" = V from rfl,
              show bagGet [("color", CL), ("forwardVoltage", V), ("maxCurrent", MC)]
                "maxCurrent" = MC from rfl,
              jcoal_nn CL hncl, jcoal_nn V hnv, jcoal_nn MC hnmc]
          · rw [if_neg h5] at hc
            by_cases h6 : (ctype == "voltage_source") = true
            · rw [if_pos h6] at hc
              have hty : ctype = "voltage_source" := beq_iff_eq.mp h6
              subst hty
              obtain ⟨V, hV⟩ : ∃ v, bagGet params "value" = v := ⟨_, rfl⟩
              obtain ⟨S, hS⟩ : ∃ v, bagGet params "sourceType" = v := ⟨_, rfl⟩
              obtain ⟨F, hF⟩ : ∃ v, bagGet (extras.getD []) "frequency" = v := ⟨_, rfl⟩
              rw [hV, hS, hF] at hc
              simp only [Bool.and_eq_true, Bool.or_eq_true, beq_iff_eq] at hc
              rcases hc with ⟨⟨⟨⟨hst, hpar⟩, hext⟩, hfr⟩, hsh⟩
              subst hpar
              subst hext
              rw [pinsShapeOK_map _ _ hsh]
              refine ⟨"V", none, ?_⟩
              rcases hst with hdc | hac
              · subst hdc
                rw [if_neg (by decide)] at hfr
                have hFu : F = JVal.undef := beq_iff_eq.mp hfr
                subst hFu
                rfl
              · subst hac
                rw [if_pos (by decide)] at hfr
                cases F with
                | num k => rfl
                | str s => exact Bool.noConfusion hfr
                | jbool b => exact Bool.noConfusion hfr
                | null => exact Bool.noConfusion hfr
                | undef => exact Bool.noConfusion hfr
            · rw [if_neg h6] at hc
              by_cases h7 : (ctype == "current_source") = true
              · rw [if_pos h7] at hc
                have hty : ctype = "current_source" := beq_iff_eq.mp h7
                subst hty
                obtain ⟨V, hV⟩ : ∃ v, bagGet params "value" = v := ⟨_, rfl⟩
                obtain ⟨S, hS⟩ : ∃ v, bagGet params "sourceType" = v := ⟨_, rfl⟩
                obtain ⟨F, hF⟩ : ∃ v, bagGet (extras.getD []) "frequency" = v := ⟨_, rfl⟩
                rw [hV, hS, hF] at hc
                simp only [Bool.and_eq_true, Bool.or_eq_true, beq_iff_eq] at hc
                rcases hc with ⟨⟨⟨⟨hst, hpar⟩, hext⟩, hfr⟩, hsh⟩
                subst hpar
                subst hext
                rw [pinsShapeOK_map _ _ hsh]
                refine ⟨"I", none, ?_⟩
                rcases hst with hdc | hac
                · subst hdc
                  rw [if_neg (by decide)] at hfr
                  have hFu : F = JVal.undef := beq_iff_eq.mp hfr
                  subst hFu
                  rfl
                · subst hac
                  rw [if_pos (by decide)] at hfr
                  cases F with
                  | num k => rfl
                  | str s => exact Bool.noConfusion hfr
                  | jbool b => exact Bool.noConfusion hfr
                  | null => exact Bool.noConfusion hfr
                  | undef => exact Bool.noConfusion hfr
              · rw [if_neg h7] at hc
                by_cases h8 : (ctype == "ground") = true
                · rw [if_pos h8] at hc
                  have hty : ctype = "ground" := beq_iff_eq.mp h8
                  subst hty
                  simp only [Bool.and_eq_true, beq_iff_eq] at hc
                  rcases hc with ⟨⟨hpar, hext⟩, hsh⟩
                  subst hpar
                  subst hext
                  rw [pinsShapeOK_map _ _ hsh]
                  exact ⟨"GND", none, rfl⟩
                · rw [if_neg h8] at hc
                  by_cases h9 : (ctype == "power_rail") = true
                  · rw [if_pos h9] at hc
                    have hty : ctype = "power_rail" := beq_iff_eq.mp h9
                    subst hty
                    obtain ⟨V, hV⟩ : ∃ v, bagGet params "value" = v := ⟨_, rfl⟩
                    obtain ⟨Rl, hRl⟩ : ∃ v, bagGet params "railName" = v := ⟨_, rfl⟩
                    rw [hV, hRl] at hc
                    simp only [Bool.and_eq_true, beq_iff_eq] at hc
                    rcases hc with ⟨⟨⟨hpar, hmt⟩, hext⟩, hsh⟩
                    subst hpar
                    subst hext
                    rw [pinsShapeOK_map _ _ hsh]
                    cases Rl with
                    | str nm =>
                      refine ⟨nm, some nm, ?_⟩
                      by_cases hvcc : nm = "VCC"
                      · subst hvcc
                        rfl
                      · by_cases hvdd : nm = "VDD"
                        · subst hvdd
                          rfl
                        · by_cases hvp : nm = "V+"
                          · subst hvp
                            rfl
                          · by_cases hvm : nm = "V-"
                            · subst hvm
                              rfl
                            · show execFactory _ = _
                              simp only [execFactory]
                              rw [show bagGet [("value", V), ("unit", JVal.str "V"),
                                ("railName", JVal.str nm)] "railName" =
                                JVal.str nm from rfl]
                              rw [if_neg (fun hh => hvcc (by
                                have := beq_iff_eq.mp hh
                                injection this))]
                              rw [if_neg (fun hh => hvdd (by
                                have := beq_iff_eq.mp hh
                                injection this))]
                              rw [if_neg (fun hh => hvp (by
                                have := beq_iff_eq.mp hh
                                injection this))]
                              rw [if_neg (fun hh => hvm (by
                                have := beq_iff_eq.mp hh
                                injection this))]
                              rfl
                    | num k => exact Bool.noConfusion hmt
                    | jbool b => exact Bool.noConfusion hmt
                    | null => exact Bool.noConfusion hmt
                    | undef => exact Bool.noConfusion hmt
                  · rw [if_neg h9] at hc
                    exact Bool.noConfusion hc

theorem pidUpd_pname (k : List (String × String)) (pr : PinRec) :
    (pidUpd k pr).pname = pr.pname := by
  unfold pidUpd
  rcases h : (k.find? (fun e => e.1 == pr.pname)).map Prod.snd with _ | tid
  · simp only [h]
  · simp only [h]
    by_cases ht : strTruthy tid = true
    · rw [if_pos ht]
    · rw [if_neg ht]

theorem pidUpd_idem (k : List (String × String)) (pr : PinRec) :
    pidUpd k (pidUpd k pr) = pidUpd k pr := by
  rcases h : (k.find? (fun e => e.1 == pr.pname)).map Prod.snd with _ | tid
  · have h1 : pidUpd k pr = pr := by
      unfold pidUpd
      simp only [h]
    rw [h1, h1]
  · by_cases ht : strTruthy tid = true
    · have h1 : pidUpd k pr = { pr with pid := tid } := by
        unfold pidUpd
        simp only [h, if_pos ht]
      rw [h1]
      have h2 : (k.find? (fun e =>
          e.1 == ({ pr with pid := tid } : PinRec).pname)).map Prod.snd = some tid := h
      unfold pidUpd
      simp only [h2, if_pos ht]
    · have h1 : pidUpd k pr = pr := by
        unfold pidUpd
        simp only [h, if_neg ht]
      rw [h1]
      exact h1

theorem concat_set {α : Type} (l : List α) (a b : α) :
    (l ++ [a]).set l.length b = l ++ [b] := by
  apply List.ext_getElem?
  intro n
  by_cases hn : n = l.length
  · subst hn
    rw [List.getElem?_set_eq_of_lt _ (by simp)]
    rw [List.getElem?_append_right (Nat.le_refl _)]
    simp
  · rw [List.getElem?_set_ne (fun hh => hn hh.symm)]
    by_cases hlt : n < l.length
    · rw [List.getElem?_append, List.getElem?_append, if_pos hlt, if_pos hlt]
    · rw [List.getElem?_append, List.getElem?_append, if_neg hlt, if_neg hlt]
      have h1 : 1 ≤ n - l.length := by omega
      rw [List.getElem?_eq_none (by simpa using h1),
        List.getElem?_eq_none (by simpa using h1)]

theorem applyPinIds_spec : ∀ (ps : List Nat) (pinIds : List (String × String))
    (st : CState),
    ∃ st', applyPinIds ps pinIds st = Except.ok ((), st') ∧
      st'.nodes = st.nodes ∧ st'.comps = st.comps ∧
      st'.typeCounters = st.typeCounters ∧
      ∀ q, st'.pins.get? q =
        (st.pins.get? q).map (fun pr => if q ∈ ps then pidUpd pinIds pr else pr) := by
  intro ps
  induction ps with
  | nil =>
    intro pinIds st
    refine ⟨st, rfl, rfl, rfl, rfl, ?_⟩
    intro q
    simp
  | cons p rest ih =>
    intro pinIds st
    rcases hp : st.pins.get? p with _ | pr
    · rcases ih pinIds st with ⟨st', h1, h2, h3, h4, h5⟩
      refine ⟨st', ?_, h2, h3, h4, ?_⟩
      · simp only [applyPinIds, bind_def, getS, hp, pure_def]
        exact h1
      · intro q
        rw [h5 q]
        by_cases hq : q = p
        · subst hq
          rw [hp]
          rfl
        · rcases hsq : st.pins.get? q with _ | qr
          · rfl
          · simp only [Option.map_some']
            by_cases hm : q ∈ rest
            · rw [if_pos hm, if_pos (List.mem_cons_of_mem p hm)]
            · rw [if_neg hm,
                if_neg (fun hh => hq ((List.mem_cons.mp hh).resolve_right hm))]
    · rcases hf : (pinIds.find? (fun e => e.1 == pr.pname)).map Prod.snd with _ | tid
      · have hupd : pidUpd pinIds pr = pr := by
          unfold pidUpd
          simp only [hf]
        rcases ih pinIds st with ⟨st', h1, h2, h3, h4, h5⟩
        refine ⟨st', ?_, h2, h3, h4, ?_⟩
        · simp only [applyPinIds, bind_def, getS, hp, hf, pure_def]
          exact h1
        · intro q
          rw [h5 q]
          by_cases hq : q = p
          · subst hq
            rw [hp]
            simp only [Option.map_some']
            rw [if_pos (List.mem_cons_self q rest), hupd]
            by_cases hm : q ∈ rest
            · rw [if_pos hm]
            · rw [if_neg hm]
          · rcases hsq : st.pins.get? q with _ | qr
            · rfl
            · simp only [Option.map_some']
              by_cases hm : q ∈ rest
              · rw [if_pos hm, if_pos (List.mem_cons_of_mem p hm)]
              · rw [if_neg hm,
                  if_neg (fun hh => hq ((List.mem_cons.mp hh).resolve_right hm))]
      · by_cases ht : strTruthy tid = true
        · have hupd : pidUpd pinIds pr = { pr with pid := tid } := by
            unfold pidUpd
            simp only [hf, if_pos ht]
          have hlt : p < st.pins.length := (List.get?_eq_some.mp hp).1
          rcases ih pinIds { st with pins := st.pins.set p { pr with pid := tid } } with
            ⟨st', h1, h2, h3, h4, h5⟩
          refine ⟨st', ?_, by rw [h2], by rw [h3], by rw [h4], ?_⟩
          · simp only [applyPinIds, bind_def, getS, hp, hf, if_pos ht, setS]
            exact h1
          · intro q
            rw [h5 q]
            by_cases hq : q = p
            · subst hq
              have hg1 : ({ st with pins := st.pins.set q { pr with pid := tid } } :
                  CState).pins.get? q = some { pr with pid := tid } := by
                show (st.pins.set q { pr with pid := tid }).get? q = _
                rw [List.get?_eq_getElem? , List.getElem?_set_eq_of_lt _ hlt]
              rw [hg1, hp]
              rw [show ({ pr with pid := tid } : PinRec) = pidUpd pinIds pr from hupd.symm]
              simp only [Option.map_some']
              rw [if_pos (List.mem_cons_self q rest)]
              by_cases hm : q ∈ rest
              · rw [if_pos hm, pidUpd_idem]
              · rw [if_neg hm]
            · have hg1 : ({ st with pins := st.pins.set p { pr with pid := tid } } :
                  CState).pins.get? q = st.pins.get? q := by
                show (st.pins.set p { pr with pid := tid }).get? q = _
                rw [List.get?_eq_getElem? , List.getElem?_set_ne (fun hh => hq hh.symm),
                  ← List.get?_eq_getElem? ]
              rw [hg1]
              rcases hsq : st.pins.get? q with _ | qr
              · rfl
              · simp only [Option.map_some']
                by_cases hm : q ∈ rest
                · rw [if_pos hm, if_pos (List.mem_cons_of_mem p hm)]
                · rw [if_neg hm,
                    if_neg (fun hh => hq ((List.mem_cons.mp hh).resolve_right hm))]
        · have hupd : pidUpd pinIds pr = pr := by
            unfold pidUpd
            simp only [hf, if_neg ht]
          rcases ih pinIds st with ⟨st', h1, h2, h3, h4, h5⟩
          refine ⟨st', ?_, h2, h3, h4, ?_⟩
          · simp only [applyPinIds, bind_def, getS, hp, hf, if_neg ht, pure_def]
            exact h1
          · intro q
            rw [h5 q]
            by_cases hq : q = p
            · subst hq
              rw [hp]
              simp only [Option.map_some']
              rw [if_pos (List.mem_cons_self q rest), hupd]
              by_cases hm : q ∈ rest
              · rw [if_pos hm]
              · rw [if_neg hm]
            · rcases hsq : st.pins.get? q with _ | qr
              · rfl
              · simp only [Option.map_some']
                by_cases hm : q ∈ rest
                · rw [if_pos hm, if_pos (List.mem_cons_of_mem p hm)]
                · rw [if_neg hm,
                    if_neg (fun hh => hq ((List.mem_cons.mp hh).resolve_right hm))]

theorem contains_false_not_mem (l : List String) (x : String)
    (h : l.contains x = false) : x ∉ l := by
  intro hm
  rw [show l.contains x = true from by simpa using hm] at h
  cases h

theorem optTruthy_some (o : Option String) (h : optTruthy o = true) :
    ∃ l, o = some l ∧ strTruthy l = true := by
  cases o with
  | none => exact Bool.noConfusion h
  | some l => exact ⟨l, rfl, h⟩

theorem pinsShapeOK_names (ps : List DbPin) (specs : List PinSpec)
    (h : pinsShapeOK ps specs = true) :
    ps.map DbPin.dpname = specs.map PinSpec.psname := by
  have h1 := pinsShapeOK_map ps specs h
  have h2 : ps.map DbPin.dpname =
      (ps.map (fun p => (⟨p.dpname, p.dpdir⟩ : PinSpec))).map PinSpec.psname := by
    rw [List.map_map]
    rfl
  rw [h2, h1]

theorem distinctB_head (x : String) (xs : List String)
    (h : distinctB (x :: xs) = true) :
    xs.contains x = false ∧ distinctB xs = true := by
  simp only [distinctB, Bool.and_eq_true, Bool.not_eq_true'] at h
  exact h

theorem classOK_names (c : DbComponent) (hc : classOK c = true) :
    distinctB (c.dcpins.map DbPin.dpname) = true := by
  unfold classOK at hc
  by_cases h1 : (c.dctype == "resistor") = true
  · rw [if_pos h1] at hc
    simp only [Bool.and_eq_true] at hc
    rw [pinsShapeOK_names _ _ hc.2]
    decide
  · rw [if_neg h1] at hc
    by_cases h2 : (c.dctype == "capacitor") = true
    · rw [if_pos h2] at hc
      simp only [Bool.and_eq_true] at hc
      rw [pinsShapeOK_names _ _ hc.2]
      decide
    · rw [if_neg h2] at hc
      by_cases h3 : (c.dctype == "inductor") = true
      · rw [if_pos h3] at hc
        simp only [Bool.and_eq_true] at hc
        rw [pinsShapeOK_names _ _ hc.2]
        decide
      · rw [if_neg h3] at hc
        by_cases h4 : (c.dctype == "diode") = true
        · rw [if_pos h4] at hc
          simp only [Bool.and_eq_true] at hc
          rw [pinsShapeOK_names _ _ hc.2]
          decide
        · rw [if_neg h4] at hc
          by_cases h5 : (c.dctype == "led") = true
          · rw [if_pos h5] at hc
            simp only [Bool.and_eq_true] at hc
            rw [pinsShapeOK_names _ _ hc.2]
            decide
          · rw [if_neg h5] at hc
            by_cases h6 : (c.dctype == "voltage_source") = true
            · rw [if_pos h6] at hc
              simp only [Bool.and_eq_true] at hc
              rw [pinsShapeOK_names _ _ hc.2]
              decide
            · rw [if_neg h6] at hc
              by_cases h7 : (c.dctype == "current_source") = true
              · rw [if_pos h7] at hc
                simp only [Bool.and_eq_true] at hc
                rw [pinsShapeOK_names _ _ hc.2]
                decide
              · rw [if_neg h7] at hc
                by_cases h8 : (c.dctype == "ground") = true
                · rw [if_pos h8] at hc
                  simp only [Bool.and_eq_true] at hc
                  rw [pinsShapeOK_names _ _ hc.2]
                  decide
                · rw [if_neg h8] at hc
                  by_cases h9 : (c.dctype == "power_rail") = true
                  · rw [if_pos h9] at hc
                    simp only [Bool.and_eq_true] at hc
                    rw [pinsShapeOK_names _ _ hc.2]
                    decide
                  · rw [if_neg h9] at hc
                    exact Bool.noConfusion hc

theorem find?_append_isSome {β : Type} (l1 l2 : List β) (f : β → Bool) :
    ((l1 ++ l2).find? f).isSome = ((l1.find? f).isSome || (l2.find? f).isSome) := by
  induction l1 with
  | nil => simp
  | cons a l1 ih =>
    by_cases ha : f a = true
    · rw [List.cons_append, List.find?_cons_of_pos _ ha, List.find?_cons_of_pos _ ha]
      rfl
    · rw [List.cons_append, List.find?_cons_of_neg _ (by simp [ha]),
        List.find?_cons_of_neg _ (by simp [ha])]
      exact ih

theorem pinIdsGo_eq : ∀ (ps : List DbPin) (acc : List (String × String)),
    (∀ p ∈ ps, strTruthy p.dpid = true) →
    (∀ p ∈ ps, (acc.find? (fun e => e.1 == p.dpname)).isSome = false) →
    distinctB (ps.map DbPin.dpname) = true →
    ps.foldl (fun acc p =>
      if strTruthy p.dpid then setAssoc acc p.dpname p.dpid else acc) acc =
      acc ++ ps.map (fun p => (p.dpname, p.dpid)) := by
  intro ps
  induction ps with
  | nil =>
    intro acc _ _ _
    simp
  | cons p rest ih =>
    intro acc htr hfind hdis
    rcases distinctB_head _ _ hdis with ⟨hcont, hdis'⟩
    have hstep : (if strTruthy p.dpid = true then setAssoc acc p.dpname p.dpid
        else acc) = acc ++ [(p.dpname, p.dpid)] := by
      rw [if_pos (htr p (List.mem_cons_self p rest))]
      unfold setAssoc
      rw [if_neg (by
        rw [hfind p (List.mem_cons_self p rest)]
        simp)]
    show List.foldl _ _ (p :: rest) = _
    rw [List.foldl_cons, hstep, ih (acc ++ [(p.dpname, p.dpid)])
      (fun p' hp' => htr p' (List.mem_cons_of_mem p hp'))
      (fun p' hp' => by
        rw [find?_append_isSome, hfind p' (List.mem_cons_of_mem p hp')]
        have hne : p.dpname ≠ p'.dpname := by
          intro hh
          exact contains_false_not_mem _ _ hcont
            (hh ▸ List.mem_map_of_mem DbPin.dpname hp')
        simp [List.find?,
          show (p.dpname == p'.dpname) = false from beq_eq_false_iff_ne.mpr hne])
      hdis']
    simp

theorem find?_pinIds (ps : List DbPin) (p : DbPin) :
    ∀ (hp : p ∈ ps) (hdis : distinctB (ps.map DbPin.dpname) = true),
    ((ps.map (fun p => (p.dpname, p.dpid))).find?
      (fun e => e.1 == p.dpname)).map Prod.snd = some p.dpid := by
  induction ps with
  | nil => intro hp _; cases hp
  | cons a rest ih =>
    intro hp hdis
    rcases distinctB_head _ _ hdis with ⟨hcont, hdis'⟩
    rcases List.mem_cons.mp hp with hpa | hpr
    · subst hpa
      rw [List.map_cons, List.find?_cons_of_pos _ (by simp)]
      rfl
    · have hne : a.dpname ≠ p.dpname := by
        intro hh
        exact contains_false_not_mem _ _ hcont
          (hh ▸ List.mem_map_of_mem DbPin.dpname hpr)
      rw [List.map_cons]
      rw [show (((a.dpname, a.dpid) :: rest.map (fun p => (p.dpname, p.dpid))).find?
          (fun e => e.1 == p.dpname)) = ((rest.map (fun p => (p.dpname, p.dpid))).find?
          (fun e => e.1 == p.dpname)) from
        List.find?_cons_of_neg _ (fun hh => hne (beq_iff_eq.mp hh))]
      exact ih hpr hdis'

theorem pinIdsOf_eq (c : DbComponent)
    (htr : ∀ p ∈ c.dcpins, strTruthy p.dpid = true)
    (hdis : distinctB (c.dcpins.map DbPin.dpname) = true) :
    pinIdsOf c = c.dcpins.map (fun p => (p.dpname, p.dpid)) := by
  unfold pinIdsOf
  rw [pinIdsGo_eq c.dcpins [] htr (fun p _ => rfl) hdis]
  rfl

theorem list_ext_get? {α : Type} (l1 l2 : List α)
    (h : ∀ n, l1.get? n = l2.get? n) : l1 = l2 := by
  apply List.ext_getElem?
  intro n
  rw [← List.get?_eq_getElem? , ← List.get?_eq_getElem? ]
  exact h n

theorem get?_append_ite {α : Type} (l1 l2 : List α) (n : Nat) :
    (l1 ++ l2).get? n =
      if n < l1.length then l1.get? n else l2.get? (n - l1.length) := by
  rw [List.get?_eq_getElem? , List.getElem?_append]
  by_cases h : n < l1.length
  · rw [if_pos h, if_pos h, ← List.get?_eq_getElem? ]
  · rw [if_neg h, if_neg h, ← List.get?_eq_getElem? ]

theorem enumFrom_map_get? {α β : Type} (g : Nat × α → β) :
    ∀ (l : List α) (k j : Nat),
    ((l.enumFrom k).map g).get? j = (l.get? j).map (fun a => g (k + j, a)) := by
  intro l
  induction l with
  | nil => intro k j; cases j <;> rfl
  | cons a as ih =>
    intro k j
    cases j with
    | zero => rfl
    | succ j =>
      show ((as.enumFrom (k + 1)).map g).get? j = (as.get? j).map (fun a => g (k + (j + 1), a))
      rw [ih (k + 1) j]
      have : (fun x => g (k + 1 + j, x)) = (fun x => g (k + (j + 1), x)) := by
        funext x
        have : k + 1 + j = k + (j + 1) := by omega
        rw [this]
      rw [this]

theorem revPins0_length (c : DbComponent) (b r : Nat) :
    (revPins0 c b r).length = c.dcpins.length := by
  unfold revPins0
  rw [List.length_map, List.enum_length, List.length_map]

theorem revPins_length (c : DbComponent) (r : Nat) :
    (revPins c r).length = c.dcpins.length := by
  unfold revPins
  rw [List.length_map]

theorem revPins0_get? (c : DbComponent) (b r j : Nat) :
    (revPins0 c b r).get? j = (c.dcpins.get? j).map (fun p =>
      ⟨"pin_" ++ decRepr (b + j + 1), p.dpname, p.dpdir, none, some r⟩) := by
  show (((c.dcpins.map (fun p => (⟨p.dpname, p.dpdir⟩ : PinSpec))).enumFrom 0).map
    _).get? j = _
  rw [enumFrom_map_get?, List.get?_map]
  cases hpj : c.dcpins.get? j with
  | none => rfl
  | some p =>
    simp only [Option.map_some']
    rw [Nat.zero_add]

theorem revPins_get? (c : DbComponent) (r j : Nat) :
    (revPins c r).get? j = (c.dcpins.get? j).map (fun p =>
      ⟨p.dpid, p.dpname, p.dpdir, none, some r⟩) := by
  unfold revPins
  rw [List.get?_map]

theorem pidUpd_rev (ps : List DbPin) (p : DbPin) (pr : PinRec)
    (hname : pr.pname = p.dpname) (hp : p ∈ ps)
    (hdis : distinctB (ps.map DbPin.dpname) = true)
    (htr : strTruthy p.dpid = true) :
    pidUpd (ps.map (fun p => (p.dpname, p.dpid))) pr = { pr with pid := p.dpid } := by
  unfold pidUpd
  have hfind : ((ps.map (fun p => (p.dpname, p.dpid))).find?
      (fun e => e.1 == pr.pname)).map Prod.snd = some p.dpid := by
    simp only [hname]
    exact find?_pinIds ps p hp hdis
  rw [hfind]
  show (if strTruthy p.dpid then { pr with pid := p.dpid } else pr) = _
  rw [if_pos htr]

theorem ps0of_eq (c : DbComponent) (b : Nat) :
    ps0of c b = (List.range c.dcpins.length).map (· + b) := by
  unfold ps0of
  rw [List.length_map]

theorem execComps_spec (ids : List String) : ∀ (cs : List DbComponent) (st : CState),
    (∀ c ∈ cs, dbCompOK ids c = true) →
    ∃ st', execComps true cs st =
        Except.ok ((List.range cs.length).map (· + st.comps.length), st') ∧
      st'.nodes = st.nodes ∧
      st'.comps = st.comps ++ revCompList cs st.pins.length ∧
      st'.pins = st.pins ++ revPinList cs st.comps.length := by
  intro cs
  induction cs with
  | nil =>
    intro st _
    refine ⟨st, rfl, rfl, by simp [revCompList], by simp [revPinList]⟩
  | cons c rest ih =>
    intro st hok
    have hco := hok c (List.mem_cons_self c rest)
    unfold dbCompOK at hco
    simp only [Bool.and_eq_true] at hco
    rcases hco with ⟨⟨⟨hid, hlb⟩, hcls⟩, hpinsok⟩
    simp only [List.all_eq_true] at hpinsok
    have htr : ∀ p ∈ c.dcpins, strTruthy p.dpid = true := by
      intro p hp
      have h := hpinsok p hp
      unfold dbPinOK at h
      simp only [Bool.and_eq_true] at h
      exact h.1
    have hnames := classOK_names c hcls
    rcases optTruthy_some _ hlb with ⟨lab, hlab, hlabtr⟩
    have hidv : (if strTruthy c.dcid then some c.dcid else none) = some c.dcid :=
      if_pos hid
    have hlbv : (if optTruthy c.dclabel then c.dclabel else none) = some lab := by
      rw [if_pos hlb, hlab]
    have hpid : pinIdsOf c = c.dcpins.map (fun p => (p.dpname, p.dpid)) :=
      pinIdsOf_eq c htr hnames
    rcases execFactory_spec c hcls with ⟨pref, lblArg, hfc⟩
    rcases mkComponent_spec ⟨c.dctype, c.dcparams, c.dcextras.getD [],
      c.dcpins.map (fun p => (⟨p.dpname, p.dpdir⟩ : PinSpec))⟩ pref lblArg st with
      ⟨lbl0, tc0, hmk⟩
    have hfact := hmk
    rw [← hfc] at hfact
    obtain ⟨stF, hstF, hFp, hFc, hFn⟩ :
        ∃ s, execFactory c st = Except.ok (st.comps.length, s) ∧
          s.pins = st.pins ++ revPins0 c st.pins.length st.comps.length ∧
          s.comps = st.comps ++ [revComp0 c lbl0 st.comps.length st.pins.length] ∧
          s.nodes = st.nodes := ⟨_, hfact, rfl, rfl, rfl⟩
    have hget0 : stF.comps.get? st.comps.length =
        some (revComp0 c lbl0 st.comps.length st.pins.length) := by
      rw [hFc]
      exact List.get?_concat_length _ _
    have hcr2 : revComp2 c lab st.pins.length = revComp c st.pins.length := by
      unfold revComp2 revComp
      rw [hlab, ps0of_eq]
      rfl
    rcases applyPinIds_spec (ps0of c st.pins.length)
      (c.dcpins.map (fun p => (p.dpname, p.dpid)))
      { stF with comps := stF.comps.set st.comps.length (revComp2 c lab st.pins.length) }
      with ⟨st2, hap, hapn, hapc, hapt, happ⟩
    have hACIrun : applyComponentIdentity st.comps.length (some c.dcid) (some lab)
        (pinIdsOf c) stF = Except.ok ((), st2) := by
      simp only [applyComponentIdentity, bind_def, getS, hget0, hpid, hid, hlabtr,
        eq_self_iff_true, if_true, setS]
      exact hap
    have hN2 : st2.nodes = st.nodes := by
      have h1 : st2.nodes = stF.nodes := hapn
      rw [h1, hFn]
    have hC2 : st2.comps = st.comps ++ [revComp c st.pins.length] := by
      have h1 : st2.comps =
          stF.comps.set st.comps.length (revComp2 c lab st.pins.length) := hapc
      rw [h1, hFc, concat_set, hcr2]
    have happ' : ∀ q, st2.pins.get? q = (stF.pins.get? q).map (fun pr =>
        if q ∈ (List.range c.dcpins.length).map (· + st.pins.length) then
          pidUpd (c.dcpins.map (fun p => (p.dpname, p.dpid))) pr else pr) := by
      intro q
      have h := happ q
      simp only [ps0of_eq] at h
      exact h
    have hpins2 : st2.pins = st.pins ++ revPins c st.comps.length := by
      apply list_ext_get?
      intro n
      rw [happ' n]
      have hFpn : stF.pins.get? n =
          (st.pins ++ revPins0 c st.pins.length st.comps.length).get? n := by
        rw [hFp]
      rw [hFpn, get?_append_ite, get?_append_ite]
      by_cases hlt : n < st.pins.length
      · rw [if_pos hlt, if_pos hlt]
        have hnm : n ∉ (List.range c.dcpins.length).map (· + st.pins.length) := by
          intro hm
          rcases List.mem_map.mp hm with ⟨j, hj, hjn⟩
          omega
        rcases hs : st.pins.get? n with _ | pr
        · rfl
        · simp only [Option.map_some', if_neg hnm]
      · rw [if_neg hlt, if_neg hlt]
        by_cases hj : n - st.pins.length < c.dcpins.length
        · have hnm : n ∈ (List.range c.dcpins.length).map (· + st.pins.length) :=
            List.mem_map.mpr ⟨n - st.pins.length, List.mem_range.mpr hj, by omega⟩
          obtain ⟨p, hpj⟩ : ∃ p, c.dcpins.get? (n - st.pins.length) = some p := by
            rcases hh : c.dcpins.get? (n - st.pins.length) with _ | p
            · exact absurd (List.get?_eq_none.mp hh) (Nat.not_le.mpr hj)
            · exact ⟨p, rfl⟩
          rw [revPins0_get?, revPins_get?, hpj]
          simp only [Option.map_some', if_pos hnm]
          rw [pidUpd_rev c.dcpins p _ rfl (List.get?_mem hpj) hnames
            (htr p (List.get?_mem hpj))]
        · have hge : c.dcpins.length ≤ n - st.pins.length := Nat.le_of_not_lt hj
          rw [List.get?_eq_none.mpr (by rw [revPins0_length]; exact hge),
            List.get?_eq_none.mpr (by rw [revPins_length]; exact hge)]
          rfl
    have hlen2 : st2.comps.length = st.comps.length + 1 := by
      rw [hC2, List.length_append]
      rfl
    have hplen2 : st2.pins.length = st.pins.length + c.dcpins.length := by
      rw [hpins2, List.length_append, revPins_length]
    rcases ih st2 (fun c' hc' => hok c' (List.mem_cons_of_mem c hc')) with
      ⟨st', hrun, hn', hc', hp'⟩
    simp only [hlen2] at hrun
    have hlist : (List.range (rest.length + 1)).map (· + st.comps.length) =
        st.comps.length ::
          (List.range rest.length).map (· + (st.comps.length + 1)) := by
      rw [List.range_succ_eq_map, List.map_cons, List.map_map]
      congr 1
      · exact Nat.zero_add _
      · have hfe : ((· + st.comps.length) ∘ Nat.succ) =
            (fun j => j + (st.comps.length + 1)) := by
          funext j
          show j.succ + st.comps.length = j + (st.comps.length + 1)
          omega
        rw [hfe]
    refine ⟨st', ?_, ?_, ?_, ?_⟩
    · simp only [execComps, bind_def, hstF, hidv, hlbv, Option.isSome_some,
        Bool.true_or, Bool.true_and, eq_self_iff_true, if_true, hACIrun, hrun,
        pure_def, List.length_cons]
      rw [hlist]
    · rw [hn', hN2]
    · rw [hc', hC2, hplen2, List.append_assoc]
      rfl
    · rw [hp', hpins2, hlen2, List.append_assoc]
      rfl

theorem range_map_succ (k a : Nat) :
    (List.range (k + 1)).map (· + a) = a :: (List.range k).map (· + (a + 1)) := by
  rw [List.range_succ_eq_map, List.map_cons, List.map_map]
  congr 1
  · exact Nat.zero_add _
  · have hfe : ((· + a) ∘ Nat.succ) = (fun j => j + (a + 1)) := by
      funext j
      show j.succ + a = j + (a + 1)
      omega
    rw [hfe]

theorem execNodes_spec : ∀ (ns : List DbNode) (sc : Schematic) (st : CState),
    (∀ n ∈ ns, dbNodeOK n = true) →
    ∃ st', execNodes true sc ns st =
        Except.ok ((⟨sc.sname, sc.scomps,
          sc.snodes ++ (List.range ns.length).map (· + st.nodes.length), sc.sground⟩,
          nvarsOf ns st.nodes.length), st') ∧
      st'.pins = st.pins ∧ st'.comps = st.comps ∧
      st'.typeCounters = st.typeCounters ∧
      st'.nodes = st.nodes ++ ns.map revNode := by
  intro ns
  induction ns with
  | nil =>
    intro sc st _
    refine ⟨st, ?_, rfl, rfl, rfl, by simp⟩
    have h : sc.snodes ++
        (List.range (List.length ([] : List DbNode))).map (· + st.nodes.length) =
        sc.snodes := by
      simp
    rw [h]
    rfl
  | cons n rest ih =>
    intro sc st hok
    have hn := hok n (List.mem_cons_self n rest)
    unfold dbNodeOK at hn
    simp only [Bool.and_eq_true] at hn
    have hid : strTruthy n.dnid = true := hn.1.1.1
    have hcreate : (sc.createNode (some (match n.dnname with
        | some s => s
        | none => n.dnid))) st = Except.ok
        ((st.nodes.length, { sc with snodes := sc.snodes ++ [st.nodes.length] }),
         { st with nodes := st.nodes ++ [revNode0 n st.nodes.length] }) := rfl
    have hgetN : ({ st with nodes := st.nodes ++ [revNode0 n st.nodes.length] } :
        CState).nodes.get? st.nodes.length = some (revNode0 n st.nodes.length) := by
      show (st.nodes ++ [revNode0 n st.nodes.length]).get? st.nodes.length = _
      exact List.get?_concat_length _ _
    have hset : (st.nodes ++ [revNode0 n st.nodes.length]).set st.nodes.length
        { revNode0 n st.nodes.length with nid := n.dnid } =
        st.nodes ++ [revNode n] := by
      rw [concat_set]
      rfl
    have hANI : applyNodeIdentity st.nodes.length (some n.dnid)
        { st with nodes := st.nodes ++ [revNode0 n st.nodes.length] } =
        Except.ok ((), { st with nodes := st.nodes ++ [revNode n] }) := by
      simp only [applyNodeIdentity, bind_def, getS, hgetN, hid, eq_self_iff_true,
        if_true, setS]
      rw [hset]
    rcases ih { sc with snodes := sc.snodes ++ [st.nodes.length] }
      { st with nodes := st.nodes ++ [revNode n] }
      (fun n' hn' => hok n' (List.mem_cons_of_mem n hn')) with
      ⟨st', hrun, hp', hc', ht', hn'⟩
    have hlenEq : ({ st with nodes := st.nodes ++ [revNode n] } : CState).nodes.length =
        st.nodes.length + 1 := by
      show (st.nodes ++ [revNode n]).length = _
      rw [List.length_append]
      rfl
    simp only [hlenEq] at hrun
    refine ⟨st', ?_, hp', hc', ht', ?_⟩
    · simp only [execNodes, bind_def, hcreate, hid, Bool.true_and, eq_self_iff_true,
        if_true, hANI, hrun, pure_def, List.length_cons]
      rw [range_map_succ, List.append_assoc]
      rfl
    · rw [hn']
      show (st.nodes ++ [revNode n]) ++ rest.map revNode = _
      rw [List.append_assoc]
      rfl

theorem contains_of_mem_nat (l : List Nat) (a : Nat) (h : a ∈ l) :
    l.contains a = true :=
  List.elem_iff.mpr h

theorem find?_append_or {β : Type} (l1 l2 : List β) (f : β → Bool) :
    (l1 ++ l2).find? f = match l1.find? f with
      | some b => some b
      | none => l2.find? f := by
  induction l1 with
  | nil => rfl
  | cons a l1 ih =>
    by_cases ha : f a = true
    · rw [List.cons_append, List.find?_cons_of_pos _ ha, List.find?_cons_of_pos _ ha]
    · rw [List.cons_append, List.find?_cons_of_neg _ (by simp [ha]),
        List.find?_cons_of_neg _ (by simp [ha])]
      exact ih

theorem lookupLast_cons {β : Type} (a : String) (v : β) (l : List (String × β))
    (k : String) :
    lookupLast ((a, v) :: l) k = match lookupLast l k with
      | some w => some w
      | none => if a == k then some v else none := by
  unfold lookupLast
  rw [List.reverse_cons, find?_append_or]
  rcases h : l.reverse.find? (fun e => e.1 == k) with _ | e
  · simp only [h]
    by_cases hak : (a == k) = true
    · rw [List.find?_cons_of_pos _ (by simpa using hak), if_pos hak]
    · rw [List.find?_cons_of_neg _ (by simpa using hak), if_neg hak]
      rfl
  · simp only [h]

theorem nvarsOf_keys : ∀ (ns : List DbNode) (b : Nat) (e : String × Nat),
    e ∈ nvarsOf ns b → e.1 ∈ ns.map DbNode.dnid := by
  intro ns
  induction ns with
  | nil => intro b e h; cases h
  | cons n rest ih =>
    intro b e h
    rcases List.mem_cons.mp h with h1 | h1
    · subst h1
      exact List.mem_cons_self _ _
    · exact List.mem_cons_of_mem _ (ih (b + 1) e h1)

theorem lookupLast_none_of_not_mem {β : Type} : ∀ (l : List (String × β)) (k : String),
    (∀ e ∈ l, e.1 ≠ k) → lookupLast l k = none := by
  intro l k h
  unfold lookupLast
  rcases hf : l.reverse.find? (fun e => e.1 == k) with _ | e
  · simp only [hf]
  · have h1 := List.find?_some hf
    have h2 := List.mem_reverse.mp (List.mem_of_find?_eq_some hf)
    exact absurd (beq_iff_eq.mp h1) (h e h2)

theorem lookupLast_nvarsOf : ∀ (ns : List DbNode) (b : Nat) (nid : String),
    distinctB (ns.map DbNode.dnid) = true →
    (ns.map DbNode.dnid).contains nid = true →
    ∃ k n, ns.get? k = some n ∧ n.dnid = nid ∧
      lookupLast (nvarsOf ns b) nid = some (b + k) := by
  intro ns
  induction ns with
  | nil =>
    intro b nid _ hc
    cases hc
  | cons n rest ih =>
    intro b nid hdis hc
    rcases distinctB_head _ _ hdis with ⟨hcont, hdis'⟩
    show ∃ k nn, (n :: rest).get? k = some nn ∧ nn.dnid = nid ∧
      lookupLast ((n.dnid, b) :: nvarsOf rest (b + 1)) nid = some (b + k)
    by_cases heq : n.dnid = nid
    · refine ⟨0, n, rfl, heq, ?_⟩
      have hnone : lookupLast (nvarsOf rest (b + 1)) nid = none :=
        lookupLast_none_of_not_mem _ _ (fun e he hek =>
          contains_false_not_mem _ _ hcont
            (by rw [heq, ← hek]; exact nvarsOf_keys rest (b + 1) e he))
      rw [lookupLast_cons, hnone, if_pos (beq_iff_eq.mpr heq)]
      rfl
    · have hc' : (rest.map DbNode.dnid).contains nid = true := by
        have hm : nid ∈ n.dnid :: rest.map DbNode.dnid := by simpa using hc
        rcases List.mem_cons.mp hm with h1 | h1
        · exact absurd h1.symm heq
        · simpa using h1
      rcases ih (b + 1) nid hdis' hc' with ⟨k, nn, hk, hnid, hlk⟩
      refine ⟨k + 1, nn, hk, hnid, ?_⟩
      rw [lookupLast_cons, hlk]
      show some (b + 1 + k) = some (b + (k + 1))
      rw [Nat.add_assoc, Nat.add_comm 1 k]

theorem distinctB_ne : ∀ (names : List String), distinctB names = true →
    ∀ i j, i < j → ∀ nm, names.get? j = some nm → names.get? i ≠ some nm := by
  intro names
  induction names with
  | nil => intro _ i j _ nm h; cases h
  | cons x xs ih =>
    intro hdis i j hij nm hj hi
    rcases distinctB_head _ _ hdis with ⟨hcont, hdis'⟩
    cases i with
    | zero =>
      cases j with
      | zero => exact absurd hij (by omega)
      | succ j =>
        have hx : x = nm := by
          have : some x = some nm := hi
          exact Option.some.inj this
        have hmem : nm ∈ xs := List.get?_mem hj
        exact contains_false_not_mem _ _ hcont (hx ▸ hmem)
    | succ i =>
      cases j with
      | zero => exact absurd hij (by omega)
      | succ j => exact ih hdis' i j (by omega) nm hj hi

theorem revCompList_get? : ∀ (cs : List DbComponent) (pinBase i : Nat)
    (c : DbComponent), cs.get? i = some c →
    (revCompList cs pinBase).get? i =
      some (revComp c (pinBase + pinCount (cs.take i))) := by
  intro cs
  induction cs with
  | nil => intro _ i c h; cases i <;> cases h
  | cons c0 rest ih =>
    intro pinBase i c h
    cases i with
    | zero =>
      have hc : c0 = c := Option.some.inj h
      subst hc
      show some (revComp c0 pinBase) = some (revComp c0 (pinBase + pinCount []))
      rfl
    | succ i =>
      show (revCompList rest (pinBase + c0.dcpins.length)).get? i = _
      rw [ih (pinBase + c0.dcpins.length) i c h]
      show some (revComp c (pinBase + c0.dcpins.length + pinCount (rest.take i))) =
        some (revComp c (pinBase + pinCount (c0 :: rest.take i)))
      rw [show pinBase + c0.dcpins.length + pinCount (rest.take i) =
        pinBase + (c0.dcpins.length + pinCount (rest.take i)) from by omega]
      rfl

theorem revPinList_length : ∀ (cs : List DbComponent) (cref : Nat),
    (revPinList cs cref).length = pinCount cs := by
  intro cs
  induction cs with
  | nil => intro _; rfl
  | cons c rest ih =>
    intro cref
    show (revPins c cref ++ revPinList rest (cref + 1)).length = _
    rw [List.length_append, revPins_length, ih]
    rfl

theorem revPinListC_length (nvars : List (String × Nat)) :
    ∀ (cs : List DbComponent) (cref : Nat),
    (revPinListC nvars cs cref).length = pinCount cs := by
  intro cs
  induction cs with
  | nil => intro _; rfl
  | cons c rest ih =>
    intro cref
    show (c.dcpins.map (connPin nvars cref) ++ revPinListC nvars rest (cref + 1)).length = _
    rw [List.length_append, List.length_map, ih]
    rfl

theorem revPinList_get? : ∀ (cs : List DbComponent) (cref i j : Nat)
    (c : DbComponent) (p : DbPin), cs.get? i = some c → c.dcpins.get? j = some p →
    (revPinList cs cref).get? (pinCount (cs.take i) + j) =
      some ⟨p.dpid, p.dpname, p.dpdir, none, some (cref + i)⟩ := by
  intro cs
  induction cs with
  | nil => intro _ i _ c _ h _; cases i <;> cases h
  | cons c0 rest ih =>
    intro cref i j c p hi hj
    cases i with
    | zero =>
      have hc : c0 = c := Option.some.inj hi
      subst hc
      show (revPins c0 cref ++ revPinList rest (cref + 1)).get? (0 + j) = _
      rw [Nat.zero_add, get?_append_ite, revPins_length,
        if_pos (List.get?_eq_some.mp hj).1, revPins_get?, hj]
      rfl
    | succ i =>
      show (revPins c0 cref ++ revPinList rest (cref + 1)).get?
        (pinCount (c0 :: rest.take i) + j) = _
      rw [get?_append_ite, revPins_length,
        if_neg (by show ¬(c0.dcpins.length + pinCount (rest.take i) + j <
          c0.dcpins.length); omega)]
      rw [show pinCount (c0 :: rest.take i) + j - c0.dcpins.length =
        pinCount (rest.take i) + j from by
        show c0.dcpins.length + pinCount (rest.take i) + j - c0.dcpins.length = _
        omega]
      rw [ih (cref + 1) i j c p hi hj]
      rw [show cref + 1 + i = cref + (i + 1) from by omega]

theorem revPinListC_get? (nvars : List (String × Nat)) :
    ∀ (cs : List DbComponent) (cref i j : Nat)
    (c : DbComponent) (p : DbPin), cs.get? i = some c → c.dcpins.get? j = some p →
    (revPinListC nvars cs cref).get? (pinCount (cs.take i) + j) =
      some (connPin nvars (cref + i) p) := by
  intro cs
  induction cs with
  | nil => intro _ i _ c _ h _; cases i <;> cases h
  | cons c0 rest ih =>
    intro cref i j c p hi hj
    cases i with
    | zero =>
      have hc : c0 = c := Option.some.inj hi
      subst hc
      show (c0.dcpins.map (connPin nvars cref) ++
        revPinListC nvars rest (cref + 1)).get? (0 + j) = _
      rw [Nat.zero_add, get?_append_ite, List.length_map,
        if_pos (List.get?_eq_some.mp hj).1, List.get?_map, hj]
      rfl
    | succ i =>
      show (c0.dcpins.map (connPin nvars cref) ++
        revPinListC nvars rest (cref + 1)).get? (pinCount (c0 :: rest.take i) + j) = _
      rw [get?_append_ite, List.length_map,
        if_neg (by show ¬(c0.dcpins.length + pinCount (rest.take i) + j <
          c0.dcpins.length); omega)]
      rw [show pinCount (c0 :: rest.take i) + j - c0.dcpins.length =
        pinCount (rest.take i) + j from by
        show c0.dcpins.length + pinCount (rest.take i) + j - c0.dcpins.length = _
        omega]
      rw [ih (cref + 1) i j c p hi hj]
      rw [show cref + 1 + i = cref + (i + 1) from by omega]

theorem pin_index_decomp : ∀ (cs : List DbComponent) (q : Nat), q < pinCount cs →
    ∃ i c j, cs.get? i = some c ∧ j < c.dcpins.length ∧
      q = pinCount (cs.take i) + j := by
  intro cs
  induction cs with
  | nil => intro q h; exact absurd h (by show ¬(q < 0); omega)
  | cons c0 rest ih =>
    intro q h
    by_cases hq : q < c0.dcpins.length
    · exact ⟨0, c0, q, rfl, hq, by show q = pinCount [] + q; show q = 0 + q; omega⟩
    · have h2 : q - c0.dcpins.length < pinCount rest := by
        have : q < c0.dcpins.length + pinCount rest := h
        omega
      rcases ih (q - c0.dcpins.length) h2 with ⟨i, c, j, hi, hj, hdec⟩
      refine ⟨i + 1, c, j, hi, hj, ?_⟩
      show q = pinCount (c0 :: rest.take i) + j
      show q = c0.dcpins.length + pinCount (rest.take i) + j
      omega

theorem findPin_resolve : ∀ (names : List String) (base : Nat) (s : CState)
    (nm : String) (j : Nat),
    (∀ i, i < names.length →
      (s.pins.get? (base + i)).map PinRec.pname = names.get? i) →
    names.get? j = some nm →
    (∀ i, i < j → names.get? i ≠ some nm) →
    ((List.range names.length).map (· + base)).find? (fun q =>
      match s.pins.get? q with
      | some pr => pr.pname == nm
      | none => false) = some (base + j) := by
  intro names
  induction names with
  | nil => intro base s nm j _ hj _; cases j <;> cases hj
  | cons n0 ns ih =>
    intro base s nm j hpn hj hlt
    rw [show (List.range (n0 :: ns).length).map (· + base) =
      base :: (List.range ns.length).map (· + (base + 1)) from by
      rw [List.length_cons, range_map_succ]]
    have h0 := hpn 0 (by show 0 < ns.length + 1; omega)
    obtain ⟨pr0, hpr0, hname0⟩ : ∃ pr, s.pins.get? (base + 0) = some pr ∧
        pr.pname = n0 := by
      rcases hh : s.pins.get? (base + 0) with _ | pr
      · rw [hh] at h0
        exact Option.noConfusion h0
      · rw [hh] at h0
        exact ⟨pr, rfl, Option.some.inj h0⟩
    have hgetb : s.pins.get? base = some pr0 := hpr0
    cases j with
    | zero =>
      have hnm : n0 = nm := Option.some.inj hj
      have hpredT : (fun q => match s.pins.get? q with
          | some pr => pr.pname == nm
          | none => false) base = true := by
        show (match s.pins.get? base with
          | some pr => pr.pname == nm
          | none => false) = true
        rw [hgetb]
        show (pr0.pname == nm) = true
        rw [hname0, hnm, beq_self_eq_true]
      rw [@List.find?_cons_of_pos Nat (fun q => match s.pins.get? q with
        | some pr => pr.pname == nm
        | none => false) base ((List.range ns.length).map (· + (base + 1))) hpredT]
      rfl
    | succ j =>
      have hne : n0 ≠ nm := by
        intro hh
        exact hlt 0 (by omega) (by show some n0 = some nm; rw [hh])
      have hpredF : ¬((fun q => match s.pins.get? q with
          | some pr => pr.pname == nm
          | none => false) base = true) := by
        show ¬((match s.pins.get? base with
          | some pr => pr.pname == nm
          | none => false) = true)
        rw [hgetb]
        show ¬((pr0.pname == nm) = true)
        rw [hname0]
        exact fun hh => hne (beq_iff_eq.mp hh)
      rw [@List.find?_cons_of_neg Nat (fun q => match s.pins.get? q with
        | some pr => pr.pname == nm
        | none => false) base ((List.range ns.length).map (· + (base + 1))) hpredF]
      have hrec := ih (base + 1) s nm j (fun i hi => by
        have h := hpn (i + 1) (by show i + 1 < ns.length + 1; omega)
        rw [show base + (i + 1) = base + 1 + i from by omega] at h
        exact h) hj (fun i hi => hlt (i + 1) (by omega))
      rw [hrec]
      rw [show base + 1 + j = base + (j + 1) from by omega]

theorem compPinNamed_resolve (s : CState) (cref base : Nat) (cr : CompRec)
    (c : DbComponent) (j : Nat) (p : DbPin)
    (hcr : s.comps.get? cref = some cr)
    (hcp : cr.cpins = (List.range c.dcpins.length).map (· + base))
    (hpn : ∀ i, i < c.dcpins.length →
      (s.pins.get? (base + i)).map PinRec.pname = (c.dcpins.map DbPin.dpname).get? i)
    (hj : c.dcpins.get? j = some p)
    (hnames : distinctB (c.dcpins.map DbPin.dpname) = true) :
    compPinNamed s cref p.dpname = Except.ok (base + j) := by
  have hjn : (c.dcpins.map DbPin.dpname).get? j = some p.dpname := by
    rw [List.get?_map, hj]
    rfl
  have hfind : findPinNamed s cr p.dpname = some (base + j) := by
    unfold findPinNamed
    rw [hcp, show c.dcpins.length = (c.dcpins.map DbPin.dpname).length from
      (List.length_map _ _).symm]
    exact findPin_resolve (c.dcpins.map DbPin.dpname) base s p.dpname j
      (fun i hi => hpn i (by rw [← List.length_map c.dcpins DbPin.dpname]; exact hi))
      hjn
      (fun i hij => distinctB_ne (c.dcpins.map DbPin.dpname) hnames i j hij p.dpname hjn)
  unfold compPinNamed
  simp only [hcr, hfind]

theorem execConnectPins_rev (nvars : List (String × Nat)) (cref : Nat)
    (c : DbComponent) (cr : CompRec) (base : Nat) :
    ∀ (ps2 ps1 : List DbPin) (sc : Schematic) (s : CState),
    c.dcpins = ps1 ++ ps2 →
    s.comps.get? cref = some cr →
    cr.cpins = (List.range c.dcpins.length).map (· + base) →
    (∀ i, i < c.dcpins.length →
      (s.pins.get? (base + i)).map PinRec.pname = (c.dcpins.map DbPin.dpname).get? i) →
    (∀ j p, ps2.get? j = some p →
      s.pins.get? (base + ps1.length + j) =
        some ⟨p.dpid, p.dpname, p.dpdir, none, some cref⟩) →
    distinctB (c.dcpins.map DbPin.dpname) = true →
    (∀ p ∈ ps2, ∀ nr, effNode nvars p = some nr → sc.snodes.contains nr = true) →
    ∃ s', execConnectPins nvars sc cref ps2 s = Except.ok (sc, s') ∧
      s'.comps = s.comps ∧ s'.nodes = s.nodes ∧ s'.typeCounters = s.typeCounters ∧
      (∀ q, q < base + ps1.length ∨ base + c.dcpins.length ≤ q →
        s'.pins.get? q = s.pins.get? q) ∧
      (∀ j p, ps2.get? j = some p →
        s'.pins.get? (base + ps1.length + j) = some (connPin nvars cref p)) := by
  intro ps2
  induction ps2 with
  | nil =>
    intro ps1 sc s _ _ _ _ _ _ _
    refine ⟨s, rfl, rfl, rfl, rfl, fun q _ => rfl, fun j p h => ?_⟩
    cases j <;> exact Option.noConfusion h
  | cons p rest ih =>
    intro ps1 sc s hsplit hcr hcp hpn hcur hnames hsn
    have hlen : c.dcpins.length = ps1.length + rest.length + 1 := by
      rw [hsplit, List.length_append, List.length_cons]
      omega
    have hL : (ps1 ++ [p]).length = ps1.length + 1 := by
      rw [List.length_append]
      rfl
    have hsplit' : c.dcpins = (ps1 ++ [p]) ++ rest := by
      rw [List.append_assoc]
      exact hsplit
    have hj0 : c.dcpins.get? ps1.length = some p := by
      rw [hsplit, get?_append_ite, if_neg (by omega), Nat.sub_self]
      rfl
    have hres : compPinNamed s cref p.dpname = Except.ok (base + ps1.length) :=
      compPinNamed_resolve s cref base cr c ps1.length p hcr hcp hpn hj0 hnames
    have hget : s.pins.get? (base + ps1.length) =
        some ⟨p.dpid, p.dpname, p.dpdir, none, some cref⟩ := hcur 0 p rfl
    have hq0lt : base + ps1.length < s.pins.length := (List.get?_eq_some.mp hget).1
    have hnoop : ∀ (s1 : CState), s1 = s →
        (∀ p' ∈ rest, ∀ nr, effNode nvars p' = some nr →
          sc.snodes.contains nr = true) := by
      intro _ _ p' hp' nr hnr
      exact hsn p' (List.mem_cons_of_mem p hp') nr hnr
    rcases hdp : p.dpnode with _ | nid
    case none =>
      have heff : effNode nvars p = none := by
        unfold effNode
        rw [hdp]
      have hcur' : ∀ j p', rest.get? j = some p' →
          s.pins.get? (base + (ps1 ++ [p]).length + j) =
            some ⟨p'.dpid, p'.dpname, p'.dpdir, none, some cref⟩ := by
        intro j p' hj'
        rw [show base + (ps1 ++ [p]).length + j = base + ps1.length + (j + 1) from by
          rw [hL]; omega]
        exact hcur (j + 1) p' hj'
      rcases ih (ps1 ++ [p]) sc s hsplit' hcr hcp hpn hcur' hnames
        (hnoop s rfl) with ⟨s', hrun, h1, h2, h3, hout, hconn⟩
      refine ⟨s', ?_, h1, h2, h3, ?_, ?_⟩
      · simp only [execConnectPins, bind_def, hdp, pure_def]
        exact hrun
      · intro q hq
        apply hout
        rcases hq with hq | hq
        · exact Or.inl (by rw [hL]; omega)
        · exact Or.inr hq
      · intro j pj hj'
        cases j with
        | zero =>
          have hpj : p = pj := Option.some.inj hj'
          subst hpj
          rw [hout (base + ps1.length + 0) (Or.inl (by rw [hL]; omega))]
          rw [show base + ps1.length + 0 = base + ps1.length from rfl, hget]
          rw [show connPin nvars cref p = ⟨p.dpid, p.dpname, p.dpdir, none, some cref⟩
            from by unfold connPin; rw [heff]]
        | succ j =>
          have h := hconn j pj hj'
          rw [show base + (ps1 ++ [p]).length + j = base + ps1.length + (j + 1) from by
            rw [hL]; omega] at h
          exact h
    case some =>
      by_cases htru : strTruthy nid = true
      · rcases hlk : lookupLast nvars nid with _ | nr
        · have heff : effNode nvars p = none := by
            unfold effNode
            rw [hdp]
            show (if strTruthy nid then lookupLast nvars nid else none) = none
            rw [if_pos htru]
            exact hlk
          have hcur' : ∀ j p', rest.get? j = some p' →
              s.pins.get? (base + (ps1 ++ [p]).length + j) =
                some ⟨p'.dpid, p'.dpname, p'.dpdir, none, some cref⟩ := by
            intro j p' hj'
            rw [show base + (ps1 ++ [p]).length + j = base + ps1.length + (j + 1) from by
              rw [hL]; omega]
            exact hcur (j + 1) p' hj'
          rcases ih (ps1 ++ [p]) sc s hsplit' hcr hcp hpn hcur' hnames
            (hnoop s rfl) with ⟨s', hrun, h1, h2, h3, hout, hconn⟩
          refine ⟨s', ?_, h1, h2, h3, ?_, ?_⟩
          · simp only [execConnectPins, bind_def, hdp, htru, eq_self_iff_true, if_true,
              hlk, pure_def]
            exact hrun
          · intro q hq
            apply hout
            rcases hq with hq | hq
            · exact Or.inl (by rw [hL]; omega)
            · exact Or.inr hq
          · intro j pj hj'
            cases j with
            | zero =>
              have hpj : p = pj := Option.some.inj hj'
              subst hpj
              rw [hout (base + ps1.length + 0) (Or.inl (by rw [hL]; omega))]
              rw [show base + ps1.length + 0 = base + ps1.length from rfl, hget]
              rw [show connPin nvars cref p =
                ⟨p.dpid, p.dpname, p.dpdir, none, some cref⟩
                from by unfold connPin; rw [heff]]
            | succ j =>
              have h := hconn j pj hj'
              rw [show base + (ps1 ++ [p]).length + j = base + ps1.length + (j + 1)
                from by rw [hL]; omega] at h
              exact h
        · have heff : effNode nvars p = some nr := by
            unfold effNode
            rw [hdp]
            show (if strTruthy nid then lookupLast nvars nid else none) = some nr
            rw [if_pos htru]
            exact hlk
          have hscn : sc.addNode nr = sc := by
            unfold Schematic.addNode
            rw [if_pos (hsn p (List.mem_cons_self p rest) nr heff)]
          have hconnectTo : connectTo (base + ps1.length) nr s = Except.ok ((),
              { s with pins := s.pins.set (base + ps1.length) (pSet p nr cref) }) := by
            unfold connectTo
            rw [hget]
            rfl
          have hpn1 : ∀ i, i < c.dcpins.length →
              (({ s with pins := s.pins.set (base + ps1.length) (pSet p nr cref)} :
                  CState).pins.get? (base + i)).map PinRec.pname =
                (c.dcpins.map DbPin.dpname).get? i := by
            intro i hi
            show ((s.pins.set (base + ps1.length) (pSet p nr cref)).get? (base + i)).map
                PinRec.pname = _
            by_cases hiq : base + i = base + ps1.length
            · rw [hiq, List.get?_eq_getElem? , List.getElem?_set_eq_of_lt _ hq0lt]
              have h := hpn ps1.length (by omega)
              rw [hget] at h
              rw [show i = ps1.length from by omega]
              rw [← h]
              rfl
            · rw [List.get?_eq_getElem? , List.getElem?_set_ne (fun hh => hiq hh.symm),
                ← List.get?_eq_getElem? ]
              exact hpn i hi
          have hcur1 : ∀ j p', rest.get? j = some p' →
              ({ s with pins := s.pins.set (base + ps1.length) (pSet p nr cref)} :
                  CState).pins.get? (base + (ps1 ++ [p]).length + j) =
                some ⟨p'.dpid, p'.dpname, p'.dpdir, none, some cref⟩ := by
            intro j p' hj'
            show (s.pins.set (base + ps1.length) (pSet p nr cref)).get?
                (base + (ps1 ++ [p]).length + j) = _
            rw [List.get?_eq_getElem? ,
              List.getElem?_set_ne (by rw [hL]; omega),
              ← List.get?_eq_getElem? ]
            rw [show base + (ps1 ++ [p]).length + j = base + ps1.length + (j + 1) from by
              rw [hL]; omega]
            exact hcur (j + 1) p' hj'
          rcases ih (ps1 ++ [p]) sc
            { s with pins := s.pins.set (base + ps1.length) (pSet p nr cref) }
            hsplit' hcr hcp hpn1 hcur1 hnames
            (fun p' hp' nr' hnr' => hsn p' (List.mem_cons_of_mem p hp') nr' hnr') with
            ⟨s', hrun, h1, h2, h3, hout, hconn⟩
          refine ⟨s', ?_, h1, h2, h3, ?_, ?_⟩
          · simp only [execConnectPins, bind_def, hdp, htru, eq_self_iff_true, if_true,
              hlk, getS, liftE, hres, Schematic.connect, hconnectTo, pure_def, hscn]
            exact hrun
          · intro q hq
            rw [hout q (by
              rcases hq with hq | hq
              · exact Or.inl (by rw [hL]; omega)
              · exact Or.inr hq)]
            show (s.pins.set (base + ps1.length) (pSet p nr cref)).get? q = _
            rw [List.get?_eq_getElem? , List.getElem?_set_ne (by omega),
              ← List.get?_eq_getElem? ]
          · intro j pj hj'
            cases j with
            | zero =>
              have hpj : p = pj := Option.some.inj hj'
              subst hpj
              rw [hout (base + ps1.length + 0) (Or.inl (by rw [hL]; omega))]
              show (s.pins.set (base + ps1.length) (pSet p nr cref)).get?
                  (base + ps1.length + 0) = _
              rw [show base + ps1.length + 0 = base + ps1.length from rfl,
                List.get?_eq_getElem? , List.getElem?_set_eq_of_lt _ hq0lt]
              rw [show connPin nvars cref p =
                (pSet p nr cref)
                from by unfold connPin pSet; rw [heff]]
            | succ j =>
              have h := hconn j pj hj'
              rw [show base + (ps1 ++ [p]).length + j = base + ps1.length + (j + 1)
                from by rw [hL]; omega] at h
              exact h
      · have heff : effNode nvars p = none := by
          unfold effNode
          rw [hdp]
          show (if strTruthy nid then lookupLast nvars nid else none) = none
          rw [if_neg htru]
        have hcur' : ∀ j p', rest.get? j = some p' →
            s.pins.get? (base + (ps1 ++ [p]).length + j) =
              some ⟨p'.dpid, p'.dpname, p'.dpdir, none, some cref⟩ := by
          intro j p' hj'
          rw [show base + (ps1 ++ [p]).length + j = base + ps1.length + (j + 1) from by
            rw [hL]; omega]
          exact hcur (j + 1) p' hj'
        rcases ih (ps1 ++ [p]) sc s hsplit' hcr hcp hpn hcur' hnames
          (hnoop s rfl) with ⟨s', hrun, h1, h2, h3, hout, hconn⟩
        refine ⟨s', ?_, h1, h2, h3, ?_, ?_⟩
        · simp only [execConnectPins, bind_def, hdp, if_neg htru, pure_def]
          exact hrun
        · intro q hq
          apply hout
          rcases hq with hq | hq
          · exact Or.inl (by rw [hL]; omega)
          · exact Or.inr hq
        · intro j pj hj'
          cases j with
          | zero =>
            have hpj : p = pj := Option.some.inj hj'
            subst hpj
            rw [hout (base + ps1.length + 0) (Or.inl (by rw [hL]; omega))]
            rw [show base + ps1.length + 0 = base + ps1.length from rfl, hget]
            rw [show connPin nvars cref p = ⟨p.dpid, p.dpname, p.dpdir, none, some cref⟩
              from by unfold connPin; rw [heff]]
          | succ j =>
            have h := hconn j pj hj'
            rw [show base + (ps1 ++ [p]).length + j = base + ps1.length + (j + 1)
              from by rw [hL]; omega] at h
            exact h

theorem execConnects_rev (nvars : List (String × Nat)) :
    ∀ (cs : List DbComponent) (sc : Schematic) (s : CState) (base crefBase : Nat),
    (∀ i c, cs.get? i = some c → ∃ cr, s.comps.get? (crefBase + i) = some cr ∧
      cr.cpins = (List.range c.dcpins.length).map (· + (base + pinCount (cs.take i)))) →
    (∀ i c, cs.get? i = some c → ∀ j p, c.dcpins.get? j = some p →
      s.pins.get? (base + pinCount (cs.take i) + j) =
        some ⟨p.dpid, p.dpname, p.dpdir, none, some (crefBase + i)⟩) →
    (∀ c ∈ cs, distinctB (c.dcpins.map DbPin.dpname) = true) →
    (∀ c ∈ cs, ∀ p ∈ c.dcpins, ∀ nr, effNode nvars p = some nr →
      sc.snodes.contains nr = true) →
    ∃ s', execConnects nvars sc (cs.zip ((List.range cs.length).map (· + crefBase))) s =
        Except.ok (sc, s') ∧
      s'.comps = s.comps ∧ s'.nodes = s.nodes ∧ s'.typeCounters = s.typeCounters ∧
      (∀ q, q < base → s'.pins.get? q = s.pins.get? q) ∧
      (∀ q, base + pinCount cs ≤ q → s'.pins.get? q = s.pins.get? q) ∧
      (∀ i c, cs.get? i = some c → ∀ j p, c.dcpins.get? j = some p →
        s'.pins.get? (base + pinCount (cs.take i) + j) =
          some (connPin nvars (crefBase + i) p)) := by
  intro cs
  induction cs with
  | nil =>
    intro sc s base crefBase _ _ _ _
    exact ⟨s, rfl, rfl, rfl, rfl, fun _ _ => rfl, fun _ _ => rfl,
      fun i c h => (by cases i <;> cases h)⟩
  | cons c rest ih =>
    intro sc s base crefBase hcomps hpins hnames hsn
    rcases hcomps 0 c rfl with ⟨cr, hcr0, hcp0⟩
    have hcr : s.comps.get? crefBase = some cr := hcr0
    have hcp : cr.cpins = (List.range c.dcpins.length).map (· + base) := by
      rw [hcp0]
      simp only [show base + pinCount ((c :: rest).take 0) = base from by
        show base + 0 = base; omega]
    have hpn : ∀ i, i < c.dcpins.length →
        (s.pins.get? (base + i)).map PinRec.pname =
          (c.dcpins.map DbPin.dpname).get? i := by
      intro i hi
      obtain ⟨p, hp⟩ : ∃ p, c.dcpins.get? i = some p := by
        rcases hh : c.dcpins.get? i with _ | p
        · exact absurd (List.get?_eq_none.mp hh) (by omega)
        · exact ⟨p, rfl⟩
      have h := hpins 0 c rfl i p hp
      rw [show base + i = base + pinCount ((c :: rest).take 0) + i from by
        show base + i = base + 0 + i; omega]
      rw [h, List.get?_map, hp]
      rfl
    have hcur : ∀ j p, c.dcpins.get? j = some p →
        s.pins.get? (base + ([] : List DbPin).length + j) =
          some ⟨p.dpid, p.dpname, p.dpdir, none, some crefBase⟩ := by
      intro j p hj
      have h := hpins 0 c rfl j p hj
      rw [show base + ([] : List DbPin).length + j =
        base + pinCount ((c :: rest).take 0) + j from by
        show base + 0 + j = base + 0 + j; rfl]
      exact h
    rcases execConnectPins_rev nvars crefBase c cr base c.dcpins [] sc s rfl hcr hcp
      hpn hcur (hnames c (List.mem_cons_self c rest))
      (fun p hp nr hnr => hsn c (List.mem_cons_self c rest) p hp nr hnr) with
      ⟨s1, hrun1, e1, e2, e3, hout1, hconn1⟩
    have hcomps' : ∀ i c', rest.get? i = some c' →
        ∃ cr', s1.comps.get? (crefBase + 1 + i) = some cr' ∧
          cr'.cpins = (List.range c'.dcpins.length).map
            (· + (base + c.dcpins.length + pinCount (rest.take i))) := by
      intro i c' h'
      rcases hcomps (i + 1) c' h' with ⟨cr', h1, h2⟩
      refine ⟨cr', ?_, ?_⟩
      · rw [e1, show crefBase + 1 + i = crefBase + (i + 1) from by omega]
        exact h1
      · rw [h2]
        simp only [show base + pinCount ((c :: rest).take (i + 1)) =
          base + c.dcpins.length + pinCount (rest.take i) from by
          show base + (c.dcpins.length + pinCount (rest.take i)) = _; omega]
    have hpins' : ∀ i c', rest.get? i = some c' → ∀ j p, c'.dcpins.get? j = some p →
        s1.pins.get? (base + c.dcpins.length + pinCount (rest.take i) + j) =
          some ⟨p.dpid, p.dpname, p.dpdir, none, some (crefBase + 1 + i)⟩ := by
      intro i c' h' j p hj
      rw [hout1 _ (Or.inr (by
        show base + c.dcpins.length ≤ base + c.dcpins.length + pinCount (rest.take i) + j
        omega))]
      have h := hpins (i + 1) c' h' j p hj
      rw [show base + c.dcpins.length + pinCount (rest.take i) + j =
        base + pinCount ((c :: rest).take (i + 1)) + j from by
        show _ = base + (c.dcpins.length + pinCount (rest.take i)) + j; omega]
      rw [show crefBase + 1 + i = crefBase + (i + 1) from by omega]
      exact h
    rcases ih sc s1 (base + c.dcpins.length) (crefBase + 1) hcomps'
      hpins' (fun c' h' => hnames c' (List.mem_cons_of_mem c h'))
      (fun c' h' p hp nr hnr => hsn c' (List.mem_cons_of_mem c h') p hp nr hnr) with
      ⟨s', hrun2, f1, f2, f3, hlow2, hhigh2, hconn2⟩
    have hzip : (c :: rest).zip ((List.range (c :: rest).length).map (· + crefBase)) =
        (c, crefBase) :: rest.zip ((List.range rest.length).map (· + (crefBase + 1))) := by
      rw [List.length_cons, range_map_succ]
      rfl
    refine ⟨s', ?_, by rw [f1, e1], by rw [f2, e2], by rw [f3, e3], ?_, ?_, ?_⟩
    · rw [hzip]
      simp only [execConnects, bind_def, hrun1]
      exact hrun2
    · intro q hq
      rw [hlow2 q (by omega), hout1 q (Or.inl (by show q < base + 0; omega))]
    · intro q hq
      rw [hhigh2 q (by
        show base + c.dcpins.length + pinCount rest ≤ q
        have : base + (c.dcpins.length + pinCount rest) ≤ q := hq
        omega)]
      rw [hout1 q (Or.inr (by
        have : base + (c.dcpins.length + pinCount rest) ≤ q := hq
        omega))]
    · intro i c' h' j p hj
      cases i with
      | zero =>
        have hcc : c = c' := Option.some.inj h'
        subst hcc
        have hjlt : j < c.dcpins.length := (List.get?_eq_some.mp hj).1
        rw [hlow2 (base + pinCount ((c :: rest).take 0) + j) (by
          show base + 0 + j < base + c.dcpins.length
          omega)]
        have h := hconn1 j p hj
        exact h
      | succ i =>
        have h := hconn2 i c' h' j p hj
        rw [show base + pinCount ((c :: rest).take (i + 1)) + j =
          base + c.dcpins.length + pinCount (rest.take i) + j from by
          show base + (c.dcpins.length + pinCount (rest.take i)) + j = _; omega]
        rw [show crefBase + (i + 1) = crefBase + 1 + i from by omega]
        exact h

theorem foldl_addComponent : ∀ (refs : List Nat) (sc : Schematic),
    refs.foldl Schematic.addComponent sc =
      ⟨sc.sname, sc.scomps ++ refs, sc.snodes, sc.sground⟩ := by
  intro refs
  induction refs with
  | nil =>
    intro sc
    show sc = _
    rw [List.append_nil]
  | cons r rest ih =>
    intro sc
    show rest.foldl Schematic.addComponent (sc.addComponent r) = _
    rw [ih (sc.addComponent r)]
    show (⟨sc.sname, (sc.scomps ++ [r]) ++ rest, sc.snodes, sc.sground⟩ : Schematic) = _
    rw [List.append_assoc]
    rfl

theorem lookupLast_some_mem {β : Type} (l : List (String × β)) (k : String) (v : β)
    (h : lookupLast l k = some v) : ∃ e, e ∈ l ∧ e.2 = v := by
  unfold lookupLast at h
  rcases hf : l.reverse.find? (fun e => e.1 == k) with _ | e
  · rw [hf] at h
    exact Option.noConfusion h
  · rw [hf] at h
    exact ⟨e, List.mem_reverse.mp (List.mem_of_find?_eq_some hf), Option.some.inj h⟩

theorem nvarsOf_val_bound : ∀ (ns : List DbNode) (b : Nat) (e : String × Nat),
    e ∈ nvarsOf ns b → b ≤ e.2 ∧ e.2 < b + ns.length := by
  intro ns
  induction ns with
  | nil => intro b e h; cases h
  | cons n rest ih =>
    intro b e h
    rcases List.mem_cons.mp h with h1 | h1
    · subst h1
      show b ≤ b ∧ b < b + (rest.length + 1)
      omega
    · have := ih (b + 1) e h1
      show b ≤ e.2 ∧ e.2 < b + (rest.length + 1)
      omega

theorem classOK_extras (c : DbComponent) (hc : classOK c = true) :
    (if (c.dcextras.getD []).isEmpty then none else some (c.dcextras.getD [])) =
      c.dcextras := by
  unfold classOK at hc
  by_cases h1 : (c.dctype == "resistor") = true
  · rw [if_pos h1] at hc
    simp only [Bool.and_eq_true] at hc
    rw [beq_iff_eq.mp hc.1.2]
    rfl
  · rw [if_neg h1] at hc
    by_cases h2 : (c.dctype == "capacitor") = true
    · rw [if_pos h2] at hc
      simp only [Bool.and_eq_true] at hc
      rw [beq_iff_eq.mp hc.1.2]
      rfl
    · rw [if_neg h2] at hc
      by_cases h3 : (c.dctype == "inductor") = true
      · rw [if_pos h3] at hc
        simp only [Bool.and_eq_true] at hc
        rw [beq_iff_eq.mp hc.1.2]
        rfl
      · rw [if_neg h3] at hc
        by_cases h4 : (c.dctype == "diode") = true
        · rw [if_pos h4] at hc
          simp only [Bool.and_eq_true] at hc
          rw [beq_iff_eq.mp hc.1.1.2]
          rfl
        · rw [if_neg h4] at hc
          by_cases h5 : (c.dctype == "led") = true
          · rw [if_pos h5] at hc
            simp only [Bool.and_eq_true] at hc
            rw [beq_iff_eq.mp hc.1.1.1.1.2]
            rfl
          · rw [if_neg h5] at hc
            by_cases h6 : (c.dctype == "voltage_source") = true
            · rw [if_pos h6] at hc
              simp only [Bool.and_eq_true] at hc
              rw [beq_iff_eq.mp hc.1.1.2]
              rfl
            · rw [if_neg h6] at hc
              by_cases h7 : (c.dctype == "current_source") = true
              · rw [if_pos h7] at hc
                simp only [Bool.and_eq_true] at hc
                rw [beq_iff_eq.mp hc.1.1.2]
                rfl
              · rw [if_neg h7] at hc
                by_cases h8 : (c.dctype == "ground") = true
                · rw [if_pos h8] at hc
                  simp only [Bool.and_eq_true] at hc
                  rw [beq_iff_eq.mp hc.1.2]
                  rfl
                · rw [if_neg h8] at hc
                  by_cases h9 : (c.dctype == "power_rail") = true
                  · rw [if_pos h9] at hc
                    simp only [Bool.and_eq_true] at hc
                    rw [beq_iff_eq.mp hc.1.2]
                    rfl
                  · rw [if_neg h9] at hc
                    exact Bool.noConfusion hc

theorem execReverse_ok (db : WireLangDb)
    (hcall : ∀ c ∈ db.wcomps, dbCompOK (db.wnodes.map DbNode.dnid) c = true)
    (hnall : ∀ n ∈ db.wnodes, dbNodeOK n = true)
    (hdis : distinctB (db.wnodes.map DbNode.dnid) = true) :
    ∃ sc2 st2, execReverse db defaultOpts CState.empty = Except.ok (sc2, st2) ∧
      sc2.sname = db.wname ∧
      sc2.scomps = (List.range db.wcomps.length).map (· + 0) ∧
      sc2.snodes = (List.range db.wnodes.length).map (· + 0) ∧
      st2.comps = revCompList db.wcomps 0 ∧
      st2.nodes = db.wnodes.map revNode ∧
      (∀ i c, db.wcomps.get? i = some c → ∀ j p, c.dcpins.get? j = some p →
        st2.pins.get? (pinCount (db.wcomps.take i) + j) =
          some (connPin (nvarsOf db.wnodes 0) i p)) := by
  have hclsOf : ∀ c ∈ db.wcomps, classOK c = true := by
    intro c hc
    have h := hcall c hc
    unfold dbCompOK at h
    simp only [Bool.and_eq_true] at h
    exact h.1.2
  rcases execComps_spec (db.wnodes.map DbNode.dnid) db.wcomps CState.empty hcall with
    ⟨stA, hrunA, hAn, hAc, hAp⟩
  have hAnodes : stA.nodes = ([] : List NodeRec) := hAn
  have hAcomps : stA.comps = revCompList db.wcomps 0 := hAc
  have hApins : stA.pins = revPinList db.wcomps 0 := hAp
  have hAlen0 : stA.nodes.length = 0 := by
    rw [hAnodes]
    rfl
  rcases execNodes_spec db.wnodes
    (((List.range db.wcomps.length).map (· + CState.empty.comps.length)).foldl
      Schematic.addComponent (Schematic.new db.wname)) stA hnall with
    ⟨stB, hrunB, hBp, hBc, hBt, hBn⟩
  have hsc0 : ((List.range db.wcomps.length).map (· + CState.empty.comps.length)).foldl
      Schematic.addComponent (Schematic.new db.wname) =
      (⟨db.wname, (List.range db.wcomps.length).map (· + CState.empty.comps.length),
        [], none⟩ : Schematic) :=
    foldl_addComponent _ _
  have hBcomps : stB.comps = revCompList db.wcomps 0 := by
    rw [hBc]
    exact hAcomps
  have hBpins : stB.pins = revPinList db.wcomps 0 := by
    rw [hBp]
    exact hApins
  have hBnodes : stB.nodes = db.wnodes.map revNode := by
    rw [hBn, hAnodes]
    rfl
  have hcomps : ∀ i c, db.wcomps.get? i = some c →
      ∃ cr, stB.comps.get? (CState.empty.comps.length + i) = some cr ∧
        cr.cpins = (List.range c.dcpins.length).map
          (· + (0 + pinCount (db.wcomps.take i))) := by
    intro i c h
    refine ⟨revComp c (0 + pinCount (db.wcomps.take i)), ?_, rfl⟩
    rw [hBcomps, show CState.empty.comps.length + i = i from by
      show 0 + i = i
      omega]
    exact revCompList_get? db.wcomps 0 i c h
  have hpins : ∀ i c, db.wcomps.get? i = some c → ∀ j p, c.dcpins.get? j = some p →
      stB.pins.get? (0 + pinCount (db.wcomps.take i) + j) =
        some ⟨p.dpid, p.dpname, p.dpdir, none, some (CState.empty.comps.length + i)⟩ := by
    intro i c h j p hp
    rw [hBpins, show 0 + pinCount (db.wcomps.take i) + j =
      pinCount (db.wcomps.take i) + j from by omega]
    exact revPinList_get? db.wcomps 0 i j c p h hp
  have hnames : ∀ c ∈ db.wcomps, distinctB (c.dcpins.map DbPin.dpname) = true :=
    fun c hc => classOK_names c (hclsOf c hc)
  have hsn : ∀ c ∈ db.wcomps, ∀ p ∈ c.dcpins, ∀ nr,
      effNode (nvarsOf db.wnodes stA.nodes.length) p = some nr →
      ((⟨(((List.range db.wcomps.length).map (· + CState.empty.comps.length)).foldl
          Schematic.addComponent (Schematic.new db.wname)).sname,
        (((List.range db.wcomps.length).map (· + CState.empty.comps.length)).foldl
          Schematic.addComponent (Schematic.new db.wname)).scomps,
        (((List.range db.wcomps.length).map (· + CState.empty.comps.length)).foldl
          Schematic.addComponent (Schematic.new db.wname)).snodes ++
          (List.range db.wnodes.length).map (· + stA.nodes.length),
        (((List.range db.wcomps.length).map (· + CState.empty.comps.length)).foldl
          Schematic.addComponent (Schematic.new db.wname)).sground⟩ :
          Schematic)).snodes.contains nr = true := by
    intro c hc p hp nr heff
    rcases hdp : p.dpnode with _ | nid
    · have h2 : effNode (nvarsOf db.wnodes stA.nodes.length) p = none := by
        unfold effNode
        rw [hdp]
      rw [h2] at heff
      exact Option.noConfusion heff
    · have h2 : effNode (nvarsOf db.wnodes stA.nodes.length) p =
          (if strTruthy nid then lookupLast (nvarsOf db.wnodes stA.nodes.length) nid
           else none) := by
        unfold effNode
        rw [hdp]
      rw [h2] at heff
      by_cases htru : strTruthy nid = true
      · rw [if_pos htru] at heff
        rcases lookupLast_some_mem _ _ _ heff with ⟨e, he, hev⟩
        have hb := nvarsOf_val_bound db.wnodes stA.nodes.length e he
        rw [hAlen0] at hb
        rw [hev] at hb
        show ((((List.range db.wcomps.length).map
          (· + CState.empty.comps.length)).foldl
            Schematic.addComponent (Schematic.new db.wname)).snodes ++
          (List.range db.wnodes.length).map (· + stA.nodes.length)).contains nr = true
        apply contains_of_mem_nat
        apply List.mem_append.mpr
        refine Or.inr (List.mem_map.mpr ⟨nr, List.mem_range.mpr (by omega), ?_⟩)
        rw [hAlen0]
        rfl
      · rw [if_neg htru] at heff
        exact Option.noConfusion heff
  rcases execConnects_rev (nvarsOf db.wnodes stA.nodes.length) db.wcomps
    (⟨(((List.range db.wcomps.length).map (· + CState.empty.comps.length)).foldl
        Schematic.addComponent (Schematic.new db.wname)).sname,
      (((List.range db.wcomps.length).map (· + CState.empty.comps.length)).foldl
        Schematic.addComponent (Schematic.new db.wname)).scomps,
      (((List.range db.wcomps.length).map (· + CState.empty.comps.length)).foldl
        Schematic.addComponent (Schematic.new db.wname)).snodes ++
        (List.range db.wnodes.length).map (· + stA.nodes.length),
      (((List.range db.wcomps.length).map (· + CState.empty.comps.length)).foldl
        Schematic.addComponent (Schematic.new db.wname)).sground⟩ : Schematic)
    stB 0 CState.empty.comps.length hcomps hpins hnames hsn with
    ⟨stC, hrunC, hCc, hCn, hCt, hlow, hhigh, hconn⟩
  have hNV : nvarsOf db.wnodes stA.nodes.length = nvarsOf db.wnodes 0 := by
    rw [hAlen0]
  refine ⟨⟨(((List.range db.wcomps.length).map (· + CState.empty.comps.length)).foldl
      Schematic.addComponent (Schematic.new db.wname)).sname,
    (((List.range db.wcomps.length).map (· + CState.empty.comps.length)).foldl
      Schematic.addComponent (Schematic.new db.wname)).scomps,
    (((List.range db.wcomps.length).map (· + CState.empty.comps.length)).foldl
      Schematic.addComponent (Schematic.new db.wname)).snodes ++
      (List.range db.wnodes.length).map (· + stA.nodes.length),
    (((List.range db.wcomps.length).map (· + CState.empty.comps.length)).foldl
      Schematic.addComponent (Schematic.new db.wname)).sground⟩,
    stC, ?_, ?_, ?_, ?_, ?_, ?_, ?_⟩
  · simp only [execReverse, defaultOpts, Option.getD_none, bind_def, hrunA, hrunB,
      hrunC, pure_def]
  · show (((List.range db.wcomps.length).map (· + CState.empty.comps.length)).foldl
      Schematic.addComponent (Schematic.new db.wname)).sname = db.wname
    rw [hsc0]
  · show (((List.range db.wcomps.length).map (· + CState.empty.comps.length)).foldl
      Schematic.addComponent (Schematic.new db.wname)).scomps =
      (List.range db.wcomps.length).map (· + 0)
    rw [hsc0]
    rfl
  · show (((List.range db.wcomps.length).map (· + CState.empty.comps.length)).foldl
      Schematic.addComponent (Schematic.new db.wname)).snodes ++
      (List.range db.wnodes.length).map (· + stA.nodes.length) =
      (List.range db.wnodes.length).map (· + 0)
    rw [hsc0]
    show (List.range db.wnodes.length).map (· + stA.nodes.length) =
      (List.range db.wnodes.length).map (· + 0)
    simp only [hAlen0]
  · rw [hCc]
    exact hBcomps
  · rw [hCn]
    exact hBnodes
  · intro i c h j p hp
    have hh := hconn i c h j p hp
    rw [show 0 + pinCount (db.wcomps.take i) + j =
      pinCount (db.wcomps.take i) + j from by omega] at hh
    rw [show CState.empty.comps.length + i = i from by
      show 0 + i = i
      omega] at hh
    rw [hNV] at hh
    exact hh

theorem compileComp_rev (db : WireLangDb) (stC : CState)
    (hcomps : stC.comps = revCompList db.wcomps 0)
    (hnodes : stC.nodes = db.wnodes.map revNode)
    (hpinsC : ∀ i c, db.wcomps.get? i = some c → ∀ j p, c.dcpins.get? j = some p →
      stC.pins.get? (pinCount (db.wcomps.take i) + j) =
        some (connPin (nvarsOf db.wnodes 0) i p))
    (hcall : ∀ c ∈ db.wcomps, dbCompOK (db.wnodes.map DbNode.dnid) c = true)
    (hdis : distinctB (db.wnodes.map DbNode.dnid) = true)
    (i : Nat) (ci : DbComponent) (h : db.wcomps.get? i = some ci) :
    compileComp stC i = ci := by
  have hco := hcall ci (List.get?_mem h)
  unfold dbCompOK at hco
  simp only [Bool.and_eq_true] at hco
  rcases hco with ⟨⟨⟨hid, hopt⟩, hcls⟩, hpall⟩
  simp only [List.all_eq_true] at hpall
  have hpin : ∀ j p, ci.dcpins.get? j = some p →
      compilePin stC (j + (0 + pinCount (db.wcomps.take i))) = p := by
    intro j p hp
    have hget : stC.pins.get? (j + (0 + pinCount (db.wcomps.take i))) =
        some (connPin (nvarsOf db.wnodes 0) i p) := by
      rw [show j + (0 + pinCount (db.wcomps.take i)) =
        pinCount (db.wcomps.take i) + j from by omega]
      exact hpinsC i ci h j p hp
    unfold compilePin
    simp only [hget, connPin]
    have hnd : (effNode (nvarsOf db.wnodes 0) p).bind
        (fun n => (stC.nodes.get? n).map NodeRec.nid) = p.dpnode := by
      rcases hdp : p.dpnode with _ | nid
      · have h2 : effNode (nvarsOf db.wnodes 0) p = none := by
          unfold effNode
          rw [hdp]
        rw [h2]
        rfl
      · have hpo := hpall p (List.get?_mem hp)
        unfold dbPinOK at hpo
        rw [hdp] at hpo
        simp only [Bool.and_eq_true] at hpo
        rcases hpo with ⟨hidp, htru, hcont⟩
        rcases lookupLast_nvarsOf db.wnodes 0 nid hdis hcont with
          ⟨k, nk, hk, hknid, hlk⟩
        have heff : effNode (nvarsOf db.wnodes 0) p = some (0 + k) := by
          unfold effNode
          rw [hdp]
          show (if strTruthy nid then lookupLast (nvarsOf db.wnodes 0) nid else none) =
            some (0 + k)
          rw [if_pos htru]
          exact hlk
        rw [heff]
        show (stC.nodes.get? (0 + k)).map NodeRec.nid = some nid
        rw [show (0 : Nat) + k = k from by omega, hnodes, List.get?_map, hk]
        show some nk.dnid = some nid
        rw [hknid]
    rw [hnd]
  obtain ⟨cid, ctype, clabel, params, pins, extras⟩ := ci
  have hgetc : stC.comps.get? i =
      some (revComp ⟨cid, ctype, clabel, params, pins, extras⟩
        (0 + pinCount (db.wcomps.take i))) := by
    rw [hcomps]
    exact revCompList_get? db.wcomps 0 i _ h
  unfold compileComp
  simp only [hgetc, revComp, extractExtras]
  have hlabeq : some (clabel.getD "") = clabel := by
    rcases optTruthy_some _ hopt with ⟨lab, hl, _⟩
    have hl2 : clabel = some lab := hl
    rw [hl2]
    rfl
  have hexteq : (if (extras.getD ([] : Bag)).isEmpty then none
      else some (extras.getD ([] : Bag))) = extras :=
    classOK_extras ⟨cid, ctype, clabel, params, pins, extras⟩ hcls
  have hpinsmap : ((List.range pins.length).map
      (· + (0 + pinCount (db.wcomps.take i)))).map (compilePin stC) = pins := by
    apply list_ext_get?
    intro q
    rw [List.get?_map, List.get?_map]
    by_cases hq : q < pins.length
    · rw [List.get?_range hq]
      obtain ⟨p, hp⟩ : ∃ p, pins.get? q = some p := by
        rcases hh : pins.get? q with _ | p
        · exact absurd (List.get?_eq_none.mp hh) (by omega)
        · exact ⟨p, rfl⟩
      rw [hp]
      exact congrArg some (hpin q p hp)
    · rw [List.get?_eq_none.mpr (by rw [List.length_range]; omega),
        List.get?_eq_none.mpr (by omega)]
      rfl
  rw [hlabeq, hexteq, hpinsmap]

theorem compileNode_rev (db : WireLangDb) (stC : CState)
    (hnodes : stC.nodes = db.wnodes.map revNode)
    (k : Nat) (nk : DbNode) (hk : db.wnodes.get? k = some nk)
    (hnOK : dbNodeOK nk = true) :
    compileNode stC k = ⟨nk.dnid, some (nodeNameOf nk), nk.dnground⟩ := by
  have hget : stC.nodes.get? k = some (revNode nk) := by
    rw [hnodes, List.get?_map, hk]
    rfl
  unfold compileNode
  simp only [hget, revNode]
  unfold dbNodeOK at hnOK
  simp only [Bool.and_eq_true, Bool.not_eq_true'] at hnOK
  rcases hnOK with ⟨⟨⟨htr, hne1⟩, hne2⟩, hgr⟩
  have hgr' : nk.dnground = (match nk.dnname with
      | some s => s == "GND" || s == "0"
      | none => false) := beq_iff_eq.mp hgr
  have hflag : ((some (nodeNameOf nk) == some "GND") ||
      (some (nodeNameOf nk) == some "0")) = nk.dnground := by
    rcases hn : nk.dnname with _ | s
    · have hnn : nodeNameOf nk = nk.dnid := by
        unfold nodeNameOf
        rw [hn]
      rw [hnn, hgr', hn]
      show ((nk.dnid == "GND") || (nk.dnid == "0")) = false
      rw [hne1, hne2]
      rfl
    · have hnn : nodeNameOf nk = s := by
        unfold nodeNameOf
        rw [hn]
      rw [hnn, hgr', hn]
      rfl
  rw [hflag]

/-- C1: for a document produced by compiling a builder-made schematic with
identity preservation (captured by the executable document invariants
`dbWF`), executing the source regenerated by `reverseDbToDsl` (modelled by
`execReverse`) succeeds, and compiling the resulting schematic again yields
the same document: equal schema, name and component records (variants,
params, extras, pin partition, ids and labels), and node records equal on
id and ground flag, with every present node name preserved. -/
theorem c1_round_trip (db : WireLangDb) (h : dbWF db = true) :
    ∃ sc2 st2, execReverse db defaultOpts CState.empty = Except.ok (sc2, st2) ∧
      (compileDslToDb st2 sc2).wschema = db.wschema ∧
      (compileDslToDb st2 sc2).wname = db.wname ∧
      (compileDslToDb st2 sc2).wcomps = db.wcomps ∧
      (compileDslToDb st2 sc2).wnodes.length = db.wnodes.length ∧
      (∀ i n n', db.wnodes.get? i = some n →
        (compileDslToDb st2 sc2).wnodes.get? i = some n' →
        n'.dnid = n.dnid ∧ n'.dnground = n.dnground ∧
        (∀ s, n.dnname = some s → n'.dnname = some s)) := by
  unfold dbWF at h
  simp only [Bool.and_eq_true] at h
  rcases h with ⟨⟨⟨hschema, hcallB⟩, hnallB⟩, hdis⟩
  simp only [List.all_eq_true] at hcallB hnallB
  rcases execReverse_ok db hcallB hnallB hdis with
    ⟨sc2, st2, hrun, hname, hscomps, hsnodes, hcomps, hnodes, hpins⟩
  refine ⟨sc2, st2, hrun, ?_, ?_, ?_, ?_, ?_⟩
  · rw [beq_iff_eq.mp hschema]
    rfl
  · show sc2.sname = db.wname
    exact hname
  · show sc2.scomps.map (compileComp st2) = db.wcomps
    rw [hscomps]
    apply list_ext_get?
    intro q
    rw [List.get?_map, List.get?_map]
    by_cases hq : q < db.wcomps.length
    · rw [List.get?_range hq]
      obtain ⟨cq, hcq⟩ : ∃ c, db.wcomps.get? q = some c := by
        rcases hh : db.wcomps.get? q with _ | c
        · exact absurd (List.get?_eq_none.mp hh) (by omega)
        · exact ⟨c, rfl⟩
      rw [hcq]
      exact congrArg some
        (compileComp_rev db st2 hcomps hnodes hpins hcallB hdis q cq hcq)
    · rw [List.get?_eq_none.mpr (by rw [List.length_range]; omega),
        List.get?_eq_none.mpr (by omega)]
      rfl
  · show (sc2.snodes.map (compileNode st2)).length = db.wnodes.length
    rw [List.length_map, hsnodes, List.length_map, List.length_range]
  · intro i n n' hn hn'
    have hi : i < db.wnodes.length := (List.get?_eq_some.mp hn).1
    have hval : (compileDslToDb st2 sc2).wnodes.get? i =
        some ⟨n.dnid, some (nodeNameOf n), n.dnground⟩ := by
      show (sc2.snodes.map (compileNode st2)).get? i = _
      rw [List.get?_map, hsnodes, List.get?_map, List.get?_range hi]
      exact congrArg some
        (compileNode_rev db st2 hnodes i n hn (hnallB n (List.get?_mem hn)))
    rw [hval] at hn'
    have hn2 := Option.some.inj hn'
    subst hn2
    refine ⟨rfl, rfl, ?_⟩
    intro s hs
    show some (nodeNameOf n) = some s
    unfold nodeNameOf
    rw [hs]

theorem c1_round_trip_witness :
    dbWF (compileDslToDb demoStL demoScL) = true ∧
    (∃ sc2 st2, execReverse (compileDslToDb demoStL demoScL) defaultOpts
        CState.empty = Except.ok (sc2, st2) ∧
      (compileDslToDb st2 sc2).wschema = (compileDslToDb demoStL demoScL).wschema ∧
      (compileDslToDb st2 sc2).wname = (compileDslToDb demoStL demoScL).wname ∧
      (compileDslToDb st2 sc2).wcomps = (compileDslToDb demoStL demoScL).wcomps ∧
      (compileDslToDb st2 sc2).wnodes.length =
        (compileDslToDb demoStL demoScL).wnodes.length ∧
      (∀ i n n', (compileDslToDb demoStL demoScL).wnodes.get? i = some n →
        (compileDslToDb st2 sc2).wnodes.get? i = some n' →
        n'.dnid = n.dnid ∧ n'.dnground = n.dnground ∧
        (∀ s, n.dnname = some s → n'.dnname = some s))) :=
  ⟨by decide, c1_round_trip (compileDslToDb demoStL demoScL) (by decide)⟩
end WireLang
